import Mathlib

/-!
# libsrt benchmark driver (`examples/bench.cpp`)

A shallow embedding of the benchmark driver: its search fixtures, the
reference case converters, the key generators and the container workloads
that every `libsrt_X` / `cxx_X` benchmark function issues.

Conventions.
* A C string is the list of its bytes (`List Nat`, every byte below 256),
  without the terminating NUL.
* `size_t` loop counters are natural numbers; the casts `(int32_t)i`,
  `(int64_t)i` and `(T)i` are the two's-complement wrap-arounds `wrapInt`.
* A benchmark function is embedded as the sequence of container calls it
  issues, phase by phase (insert loop, read loops, delete loop), together
  with an interpreter of those calls for the standard containers.
-/

namespace Bench

/-! ## C strings and the search fixtures -/

/-- Bytes of an ASCII string literal. -/
def cstr (s : String) : List Nat := s.toList.map Char.toNat

/-- The literal of `haystack_hardmatch1_short`. -/
def haystack_hardmatch1_short : List Nat := cstr "11111111111111111112k1"

/-- The literal of `haystack_hardmatch2_long`: three adjacent string
literals, concatenated by the compiler. -/
def haystack_hardmatch2_long : List Nat :=
  cstr ("abcdabcdabcdabcdabcdabcdabcdabcdabcdabcdabcdabcdabcdabcdabcdabcdabcda"
    ++ "bcdabcdabcdabcdabcdabcdabcdabcdabcdabcdabcdabcdabcdabcdabcdabcdabcdab"
    ++ "cdabcdabcdabcdabcdabcdabcdabcddcbadcbadcbadcba")

/-- The literal of `needle_hardmatch1a`. -/
def needle_hardmatch1a : List Nat := cstr "1111111112k1"

/-- The literal of `needle_hardmatch1b`. -/
def needle_hardmatch1b : List Nat := cstr "112k1"

/-- The literal of `needle_hardmatch2`. -/
def needle_hardmatch2 : List Nat := cstr "dcba"

/-- The needle occurs in the haystack at byte offset `k`. -/
def occursAt (haystack needle : List Nat) (k : Nat) : Bool :=
  needle.isPrefixOf (haystack.drop k)

/-- Scan of `strstr`: the first offset, counted from `k`, at which the needle
is a prefix of the remaining haystack. -/
def strstrFrom (needle : List Nat) : Nat → List Nat → Option Nat
  | k, [] => if needle.isPrefixOf [] then some k else none
  | k, c :: cs =>
    if needle.isPrefixOf (c :: cs) then some k else strstrFrom needle (k + 1) cs

/-- The C library search the benchmark uses as reference in `c_string_search`:
offset of the first occurrence of the needle, or `none` (a null pointer). -/
def strstr (haystack needle : List Nat) : Option Nat :=
  strstrFrom needle 0 haystack

/-- Repetition of a byte string. -/
def repeatBytes (s : List Nat) : Nat → List Nat
  | 0 => []
  | n + 1 => s ++ repeatBytes s n


/-! ## The reference case converters -/

/-- C library `tolower` in the "C" locale, on a byte. -/
def tolower (c : Nat) : Nat := if 65 ≤ c ∧ c ≤ 90 then c + 32 else c

/-- C library `toupper` in the "C" locale, on a byte. -/
def toupper (c : Nat) : Nat := if 97 ≤ c ∧ c ≤ 122 then c - 32 else c

/-- `cstolower`: `for (; *s; s++) *s = tolower(*s);` over a character buffer.
The loop stops at the first NUL byte and leaves it and what follows as is. -/
def cstolower : List Nat → List Nat
  | [] => []
  | c :: s => if c = 0 then c :: s else tolower c :: cstolower s

/-- `cstoupper`: `for (; *s; s++) *s = toupper(*s);` over a character buffer. -/
def cstoupper : List Nat → List Nat
  | [] => []
  | c :: s => if c = 0 then c :: s else toupper c :: cstoupper s

/-- A cased ASCII letter: `A`..`Z` or `a`..`z`. -/
def isCasedAscii (c : Nat) : Prop := (65 ≤ c ∧ c ≤ 90) ∨ (97 ≤ c ∧ c ≤ 122)

/-! ## Integer casts and loops -/

/-- The cast `(int32_t)x`: two's-complement wrap to 32 bits. -/
def toInt32 (x : Int) : Int := (x + 2 ^ 31) % 2 ^ 32 - 2 ^ 31

/-- The cast `(int64_t)x`: two's-complement wrap to 64 bits. -/
def toInt64 (x : Int) : Int := (x + 2 ^ 63) % 2 ^ 64 - 2 ^ 63

/-- The loop `for (size_t i = 0; i < count; i++) body(i)`, as the calls it
issues in order. -/
def forLoop {α : Type} : Nat → (Nat → List α) → List α
  | 0, _ => []
  | n + 1, body => forLoop n body ++ body n

/-! ## `std::map` and the map benchmarks -/

/-- The calls a benchmark makes on a `std::map<K, V>`. -/
inductive MapCall (K V : Type) where
  /-- `m[k] = v` -/
  | assign (k : K) (v : V)
  /-- `(void)m[k]` -/
  | index (k : K)
  /-- `m.erase(k)` -/
  | erase (k : K)
  deriving DecidableEq, Repr

/-- Contents of a `std::map<K, V>`: its entries, one per key. -/
abbrev StdMap (K V : Type) := List (K × V)

namespace StdMap

variable {K V : Type} [DecidableEq K]

/-- `m.find(k)`: the value stored under `k`, if any. -/
def find : StdMap K V → K → Option V
  | [], _ => none
  | (k', v') :: t, k => if k' = k then some v' else find t k

/-- `m.size()`. -/
def size (m : StdMap K V) : Nat := m.length

/-- `m[k] = v`: `operator[]` finds the entry of `k`, creating it when absent,
and the assignment stores `v` in it. -/
def assign (k : K) (v : V) : StdMap K V → StdMap K V
  | [] => [(k, v)]
  | (k', v') :: t => if k' = k then (k, v) :: t else (k', v') :: assign k v t

/-- `(void)m[k]`: `operator[]` finds the entry of `k`, creating it with a
value-initialised value when absent; the value read is discarded. -/
def index (dflt : V) (k : K) : StdMap K V → StdMap K V
  | [] => [(k, dflt)]
  | (k', v') :: t => if k' = k then (k', v') :: t else (k', v') :: index dflt k t

/-- `m.erase(k)`: removes the entry of `k`, if any. -/
def erase (k : K) (m : StdMap K V) : StdMap K V :=
  m.filter (fun e => decide (e.1 ≠ k))

/-- One call applied to the map. -/
def step (dflt : V) (m : StdMap K V) : MapCall K V → StdMap K V
  | .assign k v => assign k v m
  | .index k => index dflt k m
  | .erase k => erase k m

/-- A sequence of calls applied in order. -/
def run (dflt : V) (m : StdMap K V) (calls : List (MapCall K V)) : StdMap K V :=
  calls.foldl (step dflt) m

end StdMap

/-- Insert loop of `cxx_map_ii32`: `m[i] = (int32_t)i`, the `size_t` index
converted to the `int32_t` key. -/
def cxx_map_ii32_insert (count : Nat) : List (MapCall Int Int) :=
  forLoop count fun i => [.assign (toInt32 i) (toInt32 i)]

/-- Read loops of `cxx_map_ii32`: `read_ntimes` passes of `(void)m[i]`. -/
def cxx_map_ii32_read (count read_ntimes : Nat) : List (MapCall Int Int) :=
  forLoop read_ntimes fun _ => forLoop count fun i => [.index (toInt32 i)]

/-- Delete loop of `cxx_map_ii32`: `m.erase((int32_t)i)` when `delete_all`. -/
def cxx_map_ii32_delete (count : Nat) (delete_all : Bool) : List (MapCall Int Int) :=
  if delete_all then forLoop count fun i => [.erase (toInt32 i)] else []

/-- The function `cxx_map_ii32`: the calls it makes on its map `m`. -/
def cxx_map_ii32 (count read_ntimes : Nat) (delete_all : Bool) : List (MapCall Int Int) :=
  cxx_map_ii32_insert count ++ cxx_map_ii32_read count read_ntimes
    ++ cxx_map_ii32_delete count delete_all


/-! ## `printf` conversion `%016i` and the string-key benchmarks -/

/-- Decimal digits of `n`, most significant first, at least one digit and no
leading zero, as the conversion `%i` writes a non-negative value. The first
argument bounds the number of digits; `decDigits` passes enough. -/
def decDigitsAux : Nat → Nat → List Nat
  | 0, _ => []
  | fuel + 1, n => if n < 10 then [n] else decDigitsAux fuel (n / 10) ++ [n % 10]

/-- Decimal digits of `n`, most significant first. -/
def decDigits (n : Nat) : List Nat := decDigitsAux (n + 1) n

/-- The flag `0` with a field width: zero bytes (`'0'` = 48) on the left up to
`width` bytes; a longer text is left as is. -/
def zeroPad (width : Nat) (text : List Nat) : List Nat :=
  List.replicate (width - text.length) 48 ++ text

/-- The bytes `sprintf(btmp, "%016i", v)` writes (without the NUL): the sign
for a negative value, then the decimal digits zero-padded so that the whole
field has 16 bytes. -/
def sprintf_016i (v : Int) : List Nat :=
  if v < 0 then 45 :: zeroPad 15 ((decDigits v.natAbs).map (48 + ·))
  else zeroPad 16 ((decDigits v.toNat).map (48 + ·))

/-- The key of iteration `i` in the `s16` benchmarks:
`sprintf(btmp, "%016i", (int)i)`. -/
def key_s16 (i : Nat) : List Nat := sprintf_016i (toInt32 i)

/-- Insert loop of `cxx_map_s16`: `sprintf(btmp, "%016i", (int)i); m[btmp] = btmp`. -/
def cxx_map_s16_insert (count : Nat) : List (MapCall (List Nat) (List Nat)) :=
  forLoop count fun i => [.assign (key_s16 i) (key_s16 i)]

/-- Read loops of `cxx_map_s16`: `sprintf(btmp, "%016i", (int)i); (void)m[btmp]`. -/
def cxx_map_s16_read (count read_ntimes : Nat) : List (MapCall (List Nat) (List Nat)) :=
  forLoop read_ntimes fun _ => forLoop count fun i => [.index (key_s16 i)]

/-- Delete loop of `cxx_map_s16`: `sprintf(btmp, "%016i", (int)i); m.erase(btmp)`. -/
def cxx_map_s16_delete (count : Nat) (delete_all : Bool) :
    List (MapCall (List Nat) (List Nat)) :=
  if delete_all then forLoop count fun i => [.erase (key_s16 i)] else []

/-- The function `cxx_map_s16`: the calls it makes on its map `m`. -/
def cxx_map_s16 (count read_ntimes : Nat) (delete_all : Bool) :
    List (MapCall (List Nat) (List Nat)) :=
  cxx_map_s16_insert count ++ cxx_map_s16_read count read_ntimes
    ++ cxx_map_s16_delete count delete_all

/-- The key a map call is about. -/
def MapCall.key {K V : Type} : MapCall K V → K
  | .assign k _ => k
  | .index k => k
  | .erase k => k

/-- Byte-lexicographic "less than" of two strings, the order of
`std::string` keys in `std::map` and `std::set`. -/
def strLess : List Nat → List Nat → Bool
  | [], [] => false
  | [], _ :: _ => true
  | _ :: _, [] => false
  | a :: s, b :: t => if a < b then true else if b < a then false else strLess s t

/-- The number a string of decimal digits denotes. -/
def decValue (s : List Nat) : Nat := s.foldl (fun acc b => 10 * acc + (b - 48)) 0

/-- Every byte is a decimal digit `'0'`..`'9'`. -/
def allDigits (s : List Nat) : Prop := ∀ b ∈ s, 48 ≤ b ∧ b ≤ 57


/-! ## `std::vector`, the library vector calls and the vector benchmarks -/

/-- The calls a benchmark makes on a `std::vector<T>`. -/
inductive VecCall (T : Type) where
  /-- `v.push_back(x)` -/
  | push_back (x : T)
  /-- `(void)v.at(i)` -/
  | at (i : Nat)
  /-- `v.pop_back()` -/
  | pop_back
  deriving DecidableEq, Repr

/-- Contents of a `std::vector<T>`. -/
abbrev StdVector (T : Type) := List T

namespace StdVector

variable {T : Type}

/-- One call applied to the vector; `none` when the call is out of range:
`at(i)` with `i ≥ size()` (it throws `std::out_of_range`) or `pop_back()` on
an empty vector (undefined behaviour). -/
def step (v : StdVector T) : VecCall T → Option (StdVector T)
  | .push_back x => some (v ++ [x])
  | .at i => if i < v.length then some v else none
  | .pop_back => if 0 < v.length then some v.dropLast else none

/-- A sequence of calls applied in order, `none` as soon as one is out of range. -/
def run (v : StdVector T) : List (VecCall T) → Option (StdVector T)
  | [] => some v
  | c :: cs => (step v c).bind fun w => run w cs

end StdVector

/-- Push loop of `cxx_vector<T>`: `v.push_back((T)i)`; `cast` is the
conversion `(T)i` of the element type. -/
def cxx_vector_push {T : Type} (cast : Nat → T) (count : Nat) : List (VecCall T) :=
  forLoop count fun i => [.push_back (cast i)]

/-- Read loops of `cxx_vector<T>`: `read_ntimes` passes of `(void)v.at(i)`. -/
def cxx_vector_read {T : Type} (count read_ntimes : Nat) : List (VecCall T) :=
  forLoop read_ntimes fun _ => forLoop count fun i => [.at i]

/-- The loop of `count` calls `(void)v.pop_back()`. -/
def cxx_vector_pops {T : Type} (count : Nat) : List (VecCall T) :=
  forLoop count fun _ => [.pop_back]

/-- Delete loop of `cxx_vector<T>`: the pops, when `delete_all`. -/
def cxx_vector_pop {T : Type} (count : Nat) (delete_all : Bool) : List (VecCall T) :=
  if delete_all then cxx_vector_pops count else []

/-- The function template `cxx_vector<T>`: the calls it makes on its vector `v`. -/
def cxx_vector {T : Type} (cast : Nat → T) (count read_ntimes : Nat) (delete_all : Bool) :
    List (VecCall T) :=
  cxx_vector_push cast count ++ cxx_vector_read count read_ntimes
    ++ cxx_vector_pop count delete_all

/-- The cast `(int8_t)x`. -/
def toInt8 (x : Int) : Int := (x + 2 ^ 7) % 2 ^ 8 - 2 ^ 7

/-- The cast `(int16_t)x`. -/
def toInt16 (x : Int) : Int := (x + 2 ^ 15) % 2 ^ 16 - 2 ^ 15

/-- The integer element types the vector benchmarks are instantiated with. -/
inductive IntType where
  | int8_t
  | int16_t
  | int32_t
  | int64_t
  deriving DecidableEq, Repr

/-- Width in bits of an integer element type. -/
def IntType.bits : IntType → Nat
  | .int8_t => 8
  | .int16_t => 16
  | .int32_t => 32
  | .int64_t => 64

/-- The cast `(T)i` of a `size_t` to the integer type `T`. -/
def IntType.cast : IntType → Nat → Int
  | .int8_t, i => toInt8 i
  | .int16_t, i => toInt16 i
  | .int32_t, i => toInt32 i
  | .int64_t, i => toInt64 i

/-- The element type `cxx_vector_i8` instantiates `cxx_vector` with. -/
def cxx_vector_i8_type : IntType := .int8_t

/-- The element type `cxx_vector_i16` instantiates `cxx_vector` with. -/
def cxx_vector_i16_type : IntType := .int16_t

/-- The element type `cxx_vector_i32` instantiates `cxx_vector` with. -/
def cxx_vector_i32_type : IntType := .int32_t

/-- The element type `cxx_vector_i64` instantiates `cxx_vector` with. -/
def cxx_vector_i64_type : IntType := .int64_t

/-- `cxx_vector_i8`: `cxx_vector<int8_t>(count, read_ntimes, delete_all)`. -/
def cxx_vector_i8 (count read_ntimes : Nat) (delete_all : Bool) : List (VecCall Int) :=
  cxx_vector cxx_vector_i8_type.cast count read_ntimes delete_all

/-- `cxx_vector_i16`: `cxx_vector<int16_t>(count, read_ntimes, delete_all)`. -/
def cxx_vector_i16 (count read_ntimes : Nat) (delete_all : Bool) : List (VecCall Int) :=
  cxx_vector cxx_vector_i16_type.cast count read_ntimes delete_all

/-- `cxx_vector_i32`: `cxx_vector<int32_t>(count, read_ntimes, delete_all)`. -/
def cxx_vector_i32 (count read_ntimes : Nat) (delete_all : Bool) : List (VecCall Int) :=
  cxx_vector cxx_vector_i32_type.cast count read_ntimes delete_all

/-- `cxx_vector_i64`: `cxx_vector<int64_t>(count, read_ntimes, delete_all)`. -/
def cxx_vector_i64 (count read_ntimes : Nat) (delete_all : Bool) : List (VecCall Int) :=
  cxx_vector cxx_vector_i64_type.cast count read_ntimes delete_all

/-- The element-type tags of the library's `enum eSV_Type` for signed
integers (the enum is declared in the library header). -/
inductive eSV_Type where
  | SV_I8
  | SV_I16
  | SV_I32
  | SV_I64
  deriving DecidableEq, Repr

/-- Width in bits of the elements a tag selects. -/
def eSV_Type.bits : eSV_Type → Nat
  | .SV_I8 => 8
  | .SV_I16 => 16
  | .SV_I32 => 32
  | .SV_I64 => 64

/-- The calls a benchmark makes on a library vector (`sv_t`). -/
inductive SvCall where
  /-- `sv_alloc_t(t, hint)` -/
  | sv_alloc_t (t : eSV_Type) (hint : Nat)
  /-- `sv_push_i(&v, x)` -/
  | sv_push_i (x : Int)
  /-- `(void)sv_at_i(v, i)` -/
  | sv_at_i (i : Nat)
  /-- `(void)sv_pop_i(v)` -/
  | sv_pop_i
  /-- `sv_free(&v)` -/
  | sv_free
  deriving DecidableEq, Repr

/-- The function `libsrt_vector_i`: the calls it makes on its vector `v`. -/
def libsrt_vector_i (t : eSV_Type) (count read_ntimes : Nat) (delete_all : Bool) :
    List SvCall :=
  [.sv_alloc_t t 0]
    ++ (forLoop count fun i => [.sv_push_i (toInt32 i)])
    ++ (forLoop read_ntimes fun _ => forLoop count fun i => [.sv_at_i i])
    ++ (if delete_all then forLoop count fun _ => [.sv_pop_i] else [])
    ++ [.sv_free]

/-- `libsrt_vector_i8`: `return libsrt_vector_i(SV_I32, count, read_ntimes, delete_all);` -/
def libsrt_vector_i8 (count read_ntimes : Nat) (delete_all : Bool) : List SvCall :=
  libsrt_vector_i .SV_I32 count read_ntimes delete_all

/-- `libsrt_vector_i16`: `return libsrt_vector_i(SV_I16, count, read_ntimes, delete_all);` -/
def libsrt_vector_i16 (count read_ntimes : Nat) (delete_all : Bool) : List SvCall :=
  libsrt_vector_i .SV_I16 count read_ntimes delete_all

/-- `libsrt_vector_i32`: `return libsrt_vector_i(SV_I32, count, read_ntimes, delete_all);` -/
def libsrt_vector_i32 (count read_ntimes : Nat) (delete_all : Bool) : List SvCall :=
  libsrt_vector_i .SV_I32 count read_ntimes delete_all

/-- `libsrt_vector_i64`: `return libsrt_vector_i(SV_I64, count, read_ntimes, delete_all);` -/
def libsrt_vector_i64 (count read_ntimes : Nat) (delete_all : Bool) : List SvCall :=
  libsrt_vector_i .SV_I64 count read_ntimes delete_all

/-- A vector operation without the value pushed: what decides whether a
sequence of calls stays in range. -/
inductive VecOp where
  | push
  | at (i : Nat)
  | pop
  deriving DecidableEq, Repr

/-- The operation of a `std::vector` call. -/
def VecCall.op {T : Type} : VecCall T → VecOp
  | .push_back _ => .push
  | .at i => .at i
  | .pop_back => .pop

/-- The operation of a library vector call; allocation and release are none. -/
def SvCall.op : SvCall → Option VecOp
  | .sv_alloc_t _ _ => none
  | .sv_push_i _ => some .push
  | .sv_at_i i => some (.at i)
  | .sv_pop_i => some .pop
  | .sv_free => none


/-! ## The integer map and set benchmarks -/

/-- The map type tags of the library the benchmark uses. -/
inductive eSM_Type where
  | SM_II32
  | SM_II
  | SM_SS
  deriving DecidableEq, Repr

/-- The set type tags of the library the benchmark uses. -/
inductive eSMS_Type where
  | SMS_I32
  | SMS_I
  | SMS_S
  deriving DecidableEq, Repr

/-- The calls the integer benchmarks make on a library map (`sm_t`), each with
the argument values as the call site computes them. -/
inductive SmCall where
  /-- `sm_alloc(t, hint)` -/
  | sm_alloc (t : eSM_Type) (hint : Nat)
  /-- `sm_insert_ii32(&m, k, v)` -/
  | sm_insert_ii32 (k v : Int)
  /-- `sm_insert_ii(&m, k, v)` -/
  | sm_insert_ii (k v : Int)
  /-- `(void)sm_at_ii32(m, k)` -/
  | sm_at_ii32 (k : Int)
  /-- `(void)sm_at_ii(m, k)` -/
  | sm_at_ii (k : Int)
  /-- `sm_delete_i(m, k)` -/
  | sm_delete_i (k : Int)
  /-- `sm_free(&m)` -/
  | sm_free
  deriving DecidableEq, Repr

/-- The calls the integer benchmarks make on a library set (`sms_t`), each
with the argument value as the call site computes it. -/
inductive SmsCall where
  /-- `sms_alloc(t, hint)` -/
  | sms_alloc (t : eSMS_Type) (hint : Nat)
  /-- `sms_insert_i32(&m, k)` -/
  | sms_insert_i32 (k : Int)
  /-- `(void)sms_count_i(m, k)` -/
  | sms_count_i (k : Int)
  /-- `sms_delete_i(m, k)` -/
  | sms_delete_i (k : Int)
  /-- `sms_free(&m)` -/
  | sms_free
  deriving DecidableEq, Repr

/-- The calls a benchmark makes on a `std::set<K>`. -/
inductive SetCall (K : Type) where
  /-- `m.insert(k)` -/
  | insert (k : K)
  /-- `(void)m.count(k)` -/
  | count (k : K)
  /-- `m.erase(k)` -/
  | erase (k : K)
  deriving DecidableEq, Repr

/-- The function `libsrt_map_ii32`: the calls it makes on its map `m`. -/
def libsrt_map_ii32 (count read_ntimes : Nat) (delete_all : Bool) : List SmCall :=
  [.sm_alloc .SM_II32 0]
    ++ (forLoop count fun i => [.sm_insert_ii32 (toInt32 i) (toInt32 i)])
    ++ (forLoop read_ntimes fun _ => forLoop count fun i => [.sm_at_ii32 (toInt32 i)])
    ++ (if delete_all then forLoop count fun i => [.sm_delete_i (toInt32 i)] else [])
    ++ [.sm_free]

/-- The function `libsrt_map_ii64`: the calls it makes on its map `m`. -/
def libsrt_map_ii64 (count read_ntimes : Nat) (delete_all : Bool) : List SmCall :=
  [.sm_alloc .SM_II 0]
    ++ (forLoop count fun i => [.sm_insert_ii (toInt64 i) (toInt64 i)])
    ++ (forLoop read_ntimes fun _ => forLoop count fun i => [.sm_at_ii (toInt64 i)])
    ++ (if delete_all then forLoop count fun i => [.sm_delete_i (toInt64 i)] else [])
    ++ [.sm_free]

/-- The function `cxx_map_ii64`: the calls it makes on its map `m`; the
`size_t` index of `m[i]` is converted to the `int64_t` key. -/
def cxx_map_ii64 (count read_ntimes : Nat) (delete_all : Bool) : List (MapCall Int Int) :=
  (forLoop count fun i => [.assign (toInt64 i) (toInt64 i)])
    ++ (forLoop read_ntimes fun _ => forLoop count fun i => [.index (toInt64 i)])
    ++ (if delete_all then forLoop count fun i => [.erase (toInt64 i)] else [])

/-- The function `libsrt_set_i32`: the calls it makes on its set `m`. -/
def libsrt_set_i32 (count read_ntimes : Nat) (delete_all : Bool) : List SmsCall :=
  [.sms_alloc .SMS_I32 0]
    ++ (forLoop count fun i => [.sms_insert_i32 (toInt32 i)])
    ++ (forLoop read_ntimes fun _ => forLoop count fun i => [.sms_count_i (toInt32 i)])
    ++ (if delete_all then forLoop count fun i => [.sms_delete_i (toInt32 i)] else [])
    ++ [.sms_free]

/-- The function `cxx_set_i32`: the calls it makes on its set `m`; the
`size_t` argument of `m.count(i)` is converted to the `int32_t` key. -/
def cxx_set_i32 (count read_ntimes : Nat) (delete_all : Bool) : List (SetCall Int) :=
  (forLoop count fun i => [.insert (toInt32 i)])
    ++ (forLoop read_ntimes fun _ => forLoop count fun i => [.count (toInt32 i)])
    ++ (if delete_all then forLoop count fun i => [.erase (toInt32 i)] else [])

/-- The function `libsrt_set_i64`: the calls it makes on its set `m`. The
insert loop is `sms_insert_i32(&m, (int64_t)i)`. -/
def libsrt_set_i64 (count read_ntimes : Nat) (delete_all : Bool) : List SmsCall :=
  [.sms_alloc .SMS_I 0]
    ++ (forLoop count fun i => [.sms_insert_i32 (toInt64 i)])
    ++ (forLoop read_ntimes fun _ => forLoop count fun i => [.sms_count_i (toInt64 i)])
    ++ (if delete_all then forLoop count fun i => [.sms_delete_i (toInt64 i)] else [])
    ++ [.sms_free]

/-- The function `cxx_set_i64`: the calls it makes on its set `m`. -/
def cxx_set_i64 (count read_ntimes : Nat) (delete_all : Bool) : List (SetCall Int) :=
  (forLoop count fun i => [.insert (toInt64 i)])
    ++ (forLoop read_ntimes fun _ => forLoop count fun i => [.count (toInt64 i)])
    ++ (if delete_all then forLoop count fun i => [.erase (toInt64 i)] else [])

/-- The key a library map call inserts: the `_ii32` inserter takes an
`int32_t` key, the `_ii` inserter an `int64_t` key. -/
def SmCall.insertKey : SmCall → Option Int
  | .sm_insert_ii32 k _ => some (toInt32 k)
  | .sm_insert_ii k _ => some (toInt64 k)
  | _ => none

/-- The key a library map call looks up. -/
def SmCall.lookupKey : SmCall → Option Int
  | .sm_at_ii32 k => some (toInt32 k)
  | .sm_at_ii k => some (toInt64 k)
  | _ => none

/-- The key a library map call deletes (`sm_delete_i` takes an `int64_t`). -/
def SmCall.deleteKey : SmCall → Option Int
  | .sm_delete_i k => some (toInt64 k)
  | _ => none

/-- The key a library set call inserts: `sms_insert_i32` takes an `int32_t` key. -/
def SmsCall.insertKey : SmsCall → Option Int
  | .sms_insert_i32 k => some (toInt32 k)
  | _ => none

/-- The key a library set call looks up (`sms_count_i` takes an `int64_t`). -/
def SmsCall.lookupKey : SmsCall → Option Int
  | .sms_count_i k => some (toInt64 k)
  | _ => none

/-- The key a library set call deletes (`sms_delete_i` takes an `int64_t`). -/
def SmsCall.deleteKey : SmsCall → Option Int
  | .sms_delete_i k => some (toInt64 k)
  | _ => none

/-- The key a `std::map` call inserts. -/
def MapCall.insertKey {K V : Type} : MapCall K V → Option K
  | .assign k _ => some k
  | _ => none

/-- The key a `std::set` call inserts. -/
def SetCall.insertKey {K : Type} : SetCall K → Option K
  | .insert k => some k
  | _ => none


/-- The key a `std::map` call looks up without assigning. -/
def MapCall.lookupKey {K V : Type} : MapCall K V → Option K
  | .index k => some k
  | _ => none

/-- The key a `std::map` call erases. -/
def MapCall.deleteKey {K V : Type} : MapCall K V → Option K
  | .erase k => some k
  | _ => none

/-- The key a `std::set` call looks up. -/
def SetCall.lookupKey {K : Type} : SetCall K → Option K
  | .count k => some k
  | _ => none

/-- The key a `std::set` call erases. -/
def SetCall.deleteKey {K : Type} : SetCall K → Option K
  | .erase k => some k
  | _ => none

/-! ## The string benchmarks: search and case conversion -/

/-- `cxxtolower`: `std::transform(s.begin(), s.end(), s.begin(), ::tolower)`
over the bytes of a `std::string`. -/
def cxxtolower (s : List Nat) : List Nat := s.map tolower

/-- `cxxtoupper`: `std::transform(s.begin(), s.end(), s.begin(), ::tolower)`
over the bytes of a `std::string`; the source passes `::tolower` here too. -/
def cxxtoupper (s : List Nat) : List Nat := s.map tolower

/-- A loop whose body does not use the loop counter, run `n` times on a state. -/
def loopState {σ : Type} : Nat → (σ → σ) → σ → σ
  | 0, _, st => st
  | n + 1, body, st => body (loopState n body st)

/-- What a string benchmark function did: the value it returned, the calls it
issued in order, and the text left in its working string (empty when the
function has none). -/
structure Outcome (α : Type) where
  result : Bool
  calls : List α
  text : List Nat

/-- The calls the string benchmarks make on the library strings (`ss_t`). -/
inductive SsCall where
  /-- `ss_crefa(s)`: a read-only reference to a C string -/
  | ss_crefa (s : List Nat)
  /-- `ss_find(h, off, n)` -/
  | ss_find (h : List Nat) (off : Nat) (n : List Nat)
  /-- `ss_alloca(n)` -/
  | ss_alloca (n : Nat)
  /-- `ss_cpy(&s, src)` -/
  | ss_cpy (src : List Nat)
  /-- `ss_tolower(&s)` -/
  | ss_tolower
  /-- `ss_toupper(&s)` -/
  | ss_toupper
  deriving DecidableEq, Repr

/-- The C library and helper calls of the `c_` string benchmarks. -/
inductive CCall where
  /-- `strstr(haystack, needle)` -/
  | strstr (h n : List Nat)
  /-- `putchar(c)` -/
  | putchar (c : Nat)
  /-- `strncpy(s, src, n)` -/
  | strncpy (src : List Nat) (n : Nat)
  /-- `cstolower(s)` -/
  | cstolower
  /-- `cstoupper(s)` -/
  | cstoupper
  deriving DecidableEq, Repr

/-- The `std::string` calls of the `cxx_` string benchmarks. -/
inductive CxxCall where
  /-- `h.find(needle)` -/
  | find (h n : List Nat)
  /-- `cxxtolower(s)` -/
  | cxxtolower
  /-- `cxxtoupper(s)` -/
  | cxxtoupper
  deriving DecidableEq, Repr

/-- The function `libsrt_string_search`. `RETURN_IF(delete_all, false)` is
the library macro `if (delete_all) return false`. -/
def libsrt_string_search (haystack needle : List Nat) (count read_ntimes : Nat)
    (delete_all : Bool) : Outcome SsCall :=
  if delete_all then ⟨false, [], []⟩
  else ⟨true,
    [.ss_crefa haystack, .ss_crefa needle]
      ++ (forLoop count fun _ => [.ss_find haystack 0 needle])
      ++ (forLoop read_ntimes fun _ => forLoop count fun _ => [.ss_find haystack 0 needle]),
    []⟩

/-- One statement `strstr(haystack, needle) || putchar(0)`: the search, and
`putchar(0)` only when the search returned a null pointer. -/
def c_string_search_step (haystack needle : List Nat) : List CCall :=
  [.strstr haystack needle] ++ (if (strstr haystack needle).isSome then [] else [.putchar 0])

/-- The function `c_string_search`. -/
def c_string_search (haystack needle : List Nat) (count read_ntimes : Nat)
    (delete_all : Bool) : Outcome CCall :=
  if delete_all then ⟨false, [], []⟩
  else ⟨true,
    (forLoop count fun _ => c_string_search_step haystack needle)
      ++ (forLoop read_ntimes fun _ => forLoop count fun _ =>
        c_string_search_step haystack needle),
    []⟩

/-- The function `cxx_string_search`: `h.find(needle)` on `std::string h = haystack`. -/
def cxx_string_search (haystack needle : List Nat) (count read_ntimes : Nat)
    (delete_all : Bool) : Outcome CxxCall :=
  if delete_all then ⟨false, [], []⟩
  else ⟨true,
    (forLoop count fun _ => [.find haystack needle])
      ++ (forLoop read_ntimes fun _ => forLoop count fun _ => [.find haystack needle]),
    []⟩

/-- The function `libsrt_string_loweruppercase`; the text of the library
string is not followed. -/
def libsrt_string_loweruppercase (input : List Nat) (count read_ntimes : Nat)
    (delete_all : Bool) : Outcome SsCall :=
  if delete_all then ⟨false, [], []⟩
  else ⟨true,
    [.ss_alloca 95, .ss_crefa input, .ss_cpy input]
      ++ (forLoop count fun _ => [.ss_tolower, .ss_toupper])
      ++ (forLoop read_ntimes fun _ => forLoop count fun _ => [.ss_tolower, .ss_toupper]),
    []⟩

/-- The buffer after `strncpy(s, in, 95); s[95] = 0;` on `char s[95 + 1]`:
at most 95 bytes of the C string `in`, NUL bytes up to 95, and the final NUL. -/
def c_case_buffer (input : List Nat) : List Nat :=
  input.take 95 ++ List.replicate (95 - (input.take 95).length) 0 ++ [0]

/-- One iteration of the loops of `c_string_loweruppercase` on the buffer and
the calls made so far: `cstolower(s); cstoupper(s); if (s[0] == s[1]) putchar(0);`. -/
def c_loweruppercase_step (st : List Nat × List CCall) : List Nat × List CCall :=
  let s := cstoupper (cstolower st.1)
  (s, st.2 ++ [.cstolower, .cstoupper]
    ++ (if s.getD 0 0 = s.getD 1 0 then [.putchar 0] else []))

/-- The function `c_string_loweruppercase`. -/
def c_string_loweruppercase (input : List Nat) (count read_ntimes : Nat)
    (delete_all : Bool) : Outcome CCall :=
  if delete_all then ⟨false, [], []⟩
  else
    let st0 : List Nat × List CCall := (c_case_buffer input, [.strncpy input 95])
    let st1 := loopState count c_loweruppercase_step st0
    let st2 := loopState read_ntimes (loopState count c_loweruppercase_step) st1
    ⟨true, st2.2, st2.1⟩

/-- One iteration of the loops of `cxx_string_loweruppercase`:
`cxxtolower(s); cxxtoupper(s);`. -/
def cxx_loweruppercase_step (st : List Nat × List CxxCall) : List Nat × List CxxCall :=
  (cxxtoupper (cxxtolower st.1), st.2 ++ [.cxxtolower, .cxxtoupper])

/-- The function `cxx_string_loweruppercase`, on `std::string s = in`. -/
def cxx_string_loweruppercase (input : List Nat) (count read_ntimes : Nat)
    (delete_all : Bool) : Outcome CxxCall :=
  if delete_all then ⟨false, [], []⟩
  else
    let st0 : List Nat × List CxxCall := (input, [])
    let st1 := loopState count cxx_loweruppercase_step st0
    let st2 := loopState read_ntimes (loopState count cxx_loweruppercase_step) st1
    ⟨true, st2.2, st2.1⟩

/-- A call of the C search benchmark that is a search (`strstr`). -/
def CCall.isSearch : CCall → Bool
  | .strstr _ _ => true
  | _ => false

/-! ## The remaining fixtures, the benchmark table and `main` -/

/-- The literal of `haystack_easymatch1_long`: five adjacent string literals. -/
def haystack_easymatch1_long : List Nat :=
  cstr ("Alice was beginning to get very tired of sitting by her sister on the"
    ++ " bank, and of having nothing to do. Once or twice she had peeped into"
    ++ " the book her sister was reading, but it had no pictures or conversat"
    ++ "ions in it, \"and what is the use of a book,\" thought Alice, \"witho"
    ++ "ut pictures or conversations?\"")

/-- The literal of `haystack_hardmatch1_long`: four adjacent string literals. -/
def haystack_hardmatch1_long : List Nat :=
  cstr ("111111x11111131111111111111111111111111111111111111111111111111111111"
    ++ "111111111111111111111111411111111111111111111111111111111111111111111"
    ++ "111111111111111111111111111111111111111111111111111111111111111111111"
    ++ "12k1")

/-- The literal of `needle_easymatch1a`. -/
def needle_easymatch1a : List Nat := cstr " a "

/-- The literal of `needle_easymatch1b`. -/
def needle_easymatch1b : List Nat := cstr "conversations?"

/-- The string macros of `utf8_examples.h` that the fixtures use; the header
is not part of the benchmark source, so their bytes are a parameter. -/
structure Utf8Examples where
  U8_MIX1 : List Nat
  U8_HAN_611B : List Nat
  U8_MANY_UNDERSCORES : List Nat
  U8_MIX_28_bytes : List Nat

/-- The literal of `haystack_easymatch2_long`: `U8_MIX1` 18 times,
`U8_HAN_611B`, `U8_MIX1` 7 times. -/
def haystack_easymatch2_long (u : Utf8Examples) : List Nat :=
  repeatBytes u.U8_MIX1 18 ++ u.U8_HAN_611B ++ repeatBytes u.U8_MIX1 7

/-- The literal of `haystack_hardmatch3_long`: `U8_MANY_UNDERSCORES` 5 times
and `"1234567890"`. -/
def haystack_hardmatch3_long (u : Utf8Examples) : List Nat :=
  repeatBytes u.U8_MANY_UNDERSCORES 5 ++ cstr "1234567890"

/-- The literal of `needle_easymatch2a`. -/
def needle_easymatch2a (u : Utf8Examples) : List Nat := u.U8_HAN_611B

/-- The literal of `needle_easymatch2b`. -/
def needle_easymatch2b (u : Utf8Examples) : List Nat := u.U8_MIX1 ++ u.U8_HAN_611B

/-- The literal of `needle_hardmatch3`. -/
def needle_hardmatch3 (u : Utf8Examples) : List Nat := u.U8_MANY_UNDERSCORES ++ cstr "123"

/-- The literal of `case_test_ascii_str`: the 95 printable ASCII characters. -/
def case_test_ascii_str : List Nat :=
  cstr (" !\"#$%&\x27()*+,-./0123456789:;<=>?@ABCDEFGHIJKLMNOPQRSTUVWXYZ[\\]^_\x60"
    ++ "abcdefghijklmnopqrstuvwxyz\x7b|\x7d~")

/-- The literal of `case_test_utf8_str`: `U8_MIX_28_bytes` 3 times and
`"12345678901"`. -/
def case_test_utf8_str (u : Utf8Examples) : List Nat :=
  repeatBytes u.U8_MIX_28_bytes 3 ++ cstr "12345678901"

/-- The map, set and vector benchmark functions, by name. -/
inductive ContainerBench where
  | libsrt_map_ii32
  | cxx_map_ii32
  | cxx_umap_ii32
  | libsrt_map_ii64
  | cxx_map_ii64
  | cxx_umap_ii64
  | libsrt_map_s16
  | cxx_map_s16
  | cxx_umap_s16
  | libsrt_map_s64
  | cxx_map_s64
  | cxx_umap_s64
  | libsrt_set_i32
  | cxx_set_i32
  | libsrt_set_i64
  | cxx_set_i64
  | libsrt_set_s16
  | cxx_set_s16
  | libsrt_set_s64
  | cxx_set_s64
  | libsrt_vector_i8
  | cxx_vector_i8
  | libsrt_vector_i16
  | cxx_vector_i16
  | libsrt_vector_i32
  | cxx_vector_i32
  | libsrt_vector_i64
  | cxx_vector_i64
  | libsrt_vector_gen
  | cxx_vector_gen
  deriving DecidableEq, Repr

/-- The string search and case-conversion benchmark functions, by name. -/
inductive StringBench where
  | libsrt_string_search_easymatch_long_1a
  | c_string_search_easymatch_long_1a
  | cxx_string_search_easymatch_long_1a
  | libsrt_string_search_easymatch_long_1b
  | c_string_search_easymatch_long_1b
  | cxx_string_search_easymatch_long_1b
  | libsrt_string_search_easymatch_long_2a
  | c_string_search_easymatch_long_2a
  | cxx_string_search_easymatch_long_2a
  | libsrt_string_search_easymatch_long_2b
  | c_string_search_easymatch_long_2b
  | cxx_string_search_easymatch_long_2b
  | libsrt_string_search_hardmatch_long_1a
  | c_string_search_hardmatch_long_1a
  | cxx_string_search_hardmatch_long_1a
  | libsrt_string_search_hardmatch_long_1b
  | c_string_search_hardmatch_long_1b
  | cxx_string_search_hardmatch_long_1b
  | libsrt_string_search_hardmatch_short_1a
  | c_string_search_hardmatch_short_1a
  | cxx_string_search_hardmatch_short_1a
  | libsrt_string_search_hardmatch_short_1b
  | c_string_search_hardmatch_short_1b
  | cxx_string_search_hardmatch_short_1b
  | libsrt_string_search_hardmatch_long_2
  | c_string_search_hardmatch_long_2
  | cxx_string_search_hardmatch_long_2
  | libsrt_string_search_hardmatch_long_3
  | c_string_search_hardmatch_long_3
  | cxx_string_search_hardmatch_long_3
  | libsrt_string_loweruppercase_ascii
  | c_string_loweruppercase_ascii
  | cxx_string_loweruppercase_ascii
  | libsrt_string_loweruppercase_utf8
  | c_string_loweruppercase_utf8
  | cxx_string_loweruppercase_utf8
  deriving DecidableEq, Repr

/-- The value a map, set or vector benchmark function returns: each of them
ends in its only return statement, `return true` (the vector wrappers return
what `libsrt_vector_i` resp. `cxx_vector<T>` returns, which is `true`). -/
def ContainerBench.result : ContainerBench → Nat → Nat → Bool → Bool
  | .libsrt_map_ii32, _, _, _ => true
  | .cxx_map_ii32, _, _, _ => true
  | .cxx_umap_ii32, _, _, _ => true
  | .libsrt_map_ii64, _, _, _ => true
  | .cxx_map_ii64, _, _, _ => true
  | .cxx_umap_ii64, _, _, _ => true
  | .libsrt_map_s16, _, _, _ => true
  | .cxx_map_s16, _, _, _ => true
  | .cxx_umap_s16, _, _, _ => true
  | .libsrt_map_s64, _, _, _ => true
  | .cxx_map_s64, _, _, _ => true
  | .cxx_umap_s64, _, _, _ => true
  | .libsrt_set_i32, _, _, _ => true
  | .cxx_set_i32, _, _, _ => true
  | .libsrt_set_i64, _, _, _ => true
  | .cxx_set_i64, _, _, _ => true
  | .libsrt_set_s16, _, _, _ => true
  | .cxx_set_s16, _, _, _ => true
  | .libsrt_set_s64, _, _, _ => true
  | .cxx_set_s64, _, _, _ => true
  | .libsrt_vector_i8, _, _, _ => true
  | .cxx_vector_i8, _, _, _ => true
  | .libsrt_vector_i16, _, _, _ => true
  | .cxx_vector_i16, _, _, _ => true
  | .libsrt_vector_i32, _, _, _ => true
  | .cxx_vector_i32, _, _, _ => true
  | .libsrt_vector_i64, _, _, _ => true
  | .cxx_vector_i64, _, _, _ => true
  | .libsrt_vector_gen, _, _, _ => true
  | .cxx_vector_gen, _, _, _ => true

/-- The value returned and the number of calls issued by an outcome. -/
def Outcome.summary {α : Type} (o : Outcome α) : Bool × Nat := (o.result, o.calls.length)

/-- The value a string benchmark function returns and the number of calls it
issues: each wrapper passes its fixtures to the function of its family. -/
def StringBench.run (u : Utf8Examples) :
    StringBench → Nat → Nat → Bool → Bool × Nat
  | .libsrt_string_search_easymatch_long_1a, count, read_ntimes, delete_all =>
    (libsrt_string_search haystack_easymatch1_long needle_easymatch1a count read_ntimes delete_all).summary
  | .c_string_search_easymatch_long_1a, count, read_ntimes, delete_all =>
    (c_string_search haystack_easymatch1_long needle_easymatch1a count read_ntimes delete_all).summary
  | .cxx_string_search_easymatch_long_1a, count, read_ntimes, delete_all =>
    (cxx_string_search haystack_easymatch1_long needle_easymatch1a count read_ntimes delete_all).summary
  | .libsrt_string_search_easymatch_long_1b, count, read_ntimes, delete_all =>
    (libsrt_string_search haystack_easymatch1_long needle_easymatch1b count read_ntimes delete_all).summary
  | .c_string_search_easymatch_long_1b, count, read_ntimes, delete_all =>
    (c_string_search haystack_easymatch1_long needle_easymatch1b count read_ntimes delete_all).summary
  | .cxx_string_search_easymatch_long_1b, count, read_ntimes, delete_all =>
    (cxx_string_search haystack_easymatch1_long needle_easymatch1b count read_ntimes delete_all).summary
  | .libsrt_string_search_easymatch_long_2a, count, read_ntimes, delete_all =>
    (libsrt_string_search (haystack_easymatch2_long u) (needle_easymatch2a u) count read_ntimes delete_all).summary
  | .c_string_search_easymatch_long_2a, count, read_ntimes, delete_all =>
    (c_string_search (haystack_easymatch2_long u) (needle_easymatch2a u) count read_ntimes delete_all).summary
  | .cxx_string_search_easymatch_long_2a, count, read_ntimes, delete_all =>
    (cxx_string_search (haystack_easymatch2_long u) (needle_easymatch2a u) count read_ntimes delete_all).summary
  | .libsrt_string_search_easymatch_long_2b, count, read_ntimes, delete_all =>
    (libsrt_string_search (haystack_easymatch2_long u) (needle_easymatch2b u) count read_ntimes delete_all).summary
  | .c_string_search_easymatch_long_2b, count, read_ntimes, delete_all =>
    (c_string_search (haystack_easymatch2_long u) (needle_easymatch2b u) count read_ntimes delete_all).summary
  | .cxx_string_search_easymatch_long_2b, count, read_ntimes, delete_all =>
    (cxx_string_search (haystack_easymatch2_long u) (needle_easymatch2b u) count read_ntimes delete_all).summary
  | .libsrt_string_search_hardmatch_long_1a, count, read_ntimes, delete_all =>
    (libsrt_string_search haystack_hardmatch1_long needle_hardmatch1a count read_ntimes delete_all).summary
  | .c_string_search_hardmatch_long_1a, count, read_ntimes, delete_all =>
    (c_string_search haystack_hardmatch1_long needle_hardmatch1a count read_ntimes delete_all).summary
  | .cxx_string_search_hardmatch_long_1a, count, read_ntimes, delete_all =>
    (cxx_string_search haystack_hardmatch1_long needle_hardmatch1a count read_ntimes delete_all).summary
  | .libsrt_string_search_hardmatch_long_1b, count, read_ntimes, delete_all =>
    (libsrt_string_search haystack_hardmatch1_long needle_hardmatch1b count read_ntimes delete_all).summary
  | .c_string_search_hardmatch_long_1b, count, read_ntimes, delete_all =>
    (c_string_search haystack_hardmatch1_long needle_hardmatch1b count read_ntimes delete_all).summary
  | .cxx_string_search_hardmatch_long_1b, count, read_ntimes, delete_all =>
    (cxx_string_search haystack_hardmatch1_long needle_hardmatch1b count read_ntimes delete_all).summary
  | .libsrt_string_search_hardmatch_short_1a, count, read_ntimes, delete_all =>
    (libsrt_string_search haystack_hardmatch1_short needle_hardmatch1a count read_ntimes delete_all).summary
  | .c_string_search_hardmatch_short_1a, count, read_ntimes, delete_all =>
    (c_string_search haystack_hardmatch1_short needle_hardmatch1a count read_ntimes delete_all).summary
  | .cxx_string_search_hardmatch_short_1a, count, read_ntimes, delete_all =>
    (cxx_string_search haystack_hardmatch1_short needle_hardmatch1a count read_ntimes delete_all).summary
  | .libsrt_string_search_hardmatch_short_1b, count, read_ntimes, delete_all =>
    (libsrt_string_search haystack_hardmatch1_short needle_hardmatch1b count read_ntimes delete_all).summary
  | .c_string_search_hardmatch_short_1b, count, read_ntimes, delete_all =>
    (c_string_search haystack_hardmatch1_short needle_hardmatch1b count read_ntimes delete_all).summary
  | .cxx_string_search_hardmatch_short_1b, count, read_ntimes, delete_all =>
    (cxx_string_search haystack_hardmatch1_short needle_hardmatch1b count read_ntimes delete_all).summary
  | .libsrt_string_search_hardmatch_long_2, count, read_ntimes, delete_all =>
    (libsrt_string_search haystack_hardmatch2_long needle_hardmatch2 count read_ntimes delete_all).summary
  | .c_string_search_hardmatch_long_2, count, read_ntimes, delete_all =>
    (c_string_search haystack_hardmatch2_long needle_hardmatch2 count read_ntimes delete_all).summary
  | .cxx_string_search_hardmatch_long_2, count, read_ntimes, delete_all =>
    (cxx_string_search haystack_hardmatch2_long needle_hardmatch2 count read_ntimes delete_all).summary
  | .libsrt_string_search_hardmatch_long_3, count, read_ntimes, delete_all =>
    (libsrt_string_search (haystack_hardmatch3_long u) (needle_hardmatch3 u) count read_ntimes delete_all).summary
  | .c_string_search_hardmatch_long_3, count, read_ntimes, delete_all =>
    (c_string_search (haystack_hardmatch3_long u) (needle_hardmatch3 u) count read_ntimes delete_all).summary
  | .cxx_string_search_hardmatch_long_3, count, read_ntimes, delete_all =>
    (cxx_string_search (haystack_hardmatch3_long u) (needle_hardmatch3 u) count read_ntimes delete_all).summary
  | .libsrt_string_loweruppercase_ascii, count, read_ntimes, delete_all =>
    (libsrt_string_loweruppercase case_test_ascii_str count read_ntimes delete_all).summary
  | .c_string_loweruppercase_ascii, count, read_ntimes, delete_all =>
    (c_string_loweruppercase case_test_ascii_str count read_ntimes delete_all).summary
  | .cxx_string_loweruppercase_ascii, count, read_ntimes, delete_all =>
    (cxx_string_loweruppercase case_test_ascii_str count read_ntimes delete_all).summary
  | .libsrt_string_loweruppercase_utf8, count, read_ntimes, delete_all =>
    (libsrt_string_loweruppercase (case_test_utf8_str u) count read_ntimes delete_all).summary
  | .c_string_loweruppercase_utf8, count, read_ntimes, delete_all =>
    (c_string_loweruppercase (case_test_utf8_str u) count read_ntimes delete_all).summary
  | .cxx_string_loweruppercase_utf8, count, read_ntimes, delete_all =>
    (cxx_string_loweruppercase (case_test_utf8_str u) count read_ntimes delete_all).summary

/-- A benchmark function of the table in `main`. -/
inductive BenchFn where
  | container (f : ContainerBench)
  | string (f : StringBench)
  deriving DecidableEq, Repr

/-- The value `test_fn(count, nread, delete_all)` returns. -/
def BenchFn.result (u : Utf8Examples) : BenchFn → Nat → Nat → Bool → Bool
  | .container f, count, nread, delete_all => f.result count nread delete_all
  | .string f, count, nread, delete_all => (f.run u count nread delete_all).1

/-- The `BENCH_FN` lines of `main`, in order (a C++11 build, which has the
`std::unordered_map` benchmarks). -/
def main_benchmarks : List BenchFn :=
  [.container .libsrt_map_ii32,
   .container .cxx_map_ii32,
   .container .cxx_umap_ii32,
   .container .libsrt_map_ii64,
   .container .cxx_map_ii64,
   .container .cxx_umap_ii64,
   .container .libsrt_map_s16,
   .container .cxx_map_s16,
   .container .cxx_umap_s16,
   .container .libsrt_map_s64,
   .container .cxx_map_s64,
   .container .cxx_umap_s64,
   .container .libsrt_set_i32,
   .container .cxx_set_i32,
   .container .libsrt_set_i64,
   .container .cxx_set_i64,
   .container .libsrt_set_s16,
   .container .cxx_set_s16,
   .container .libsrt_set_s64,
   .container .cxx_set_s64,
   .container .libsrt_vector_i8,
   .container .cxx_vector_i8,
   .container .libsrt_vector_i16,
   .container .cxx_vector_i16,
   .container .libsrt_vector_i32,
   .container .cxx_vector_i32,
   .container .libsrt_vector_i64,
   .container .cxx_vector_i64,
   .container .libsrt_vector_gen,
   .container .cxx_vector_gen,
   .string .libsrt_string_search_easymatch_long_1a,
   .string .c_string_search_easymatch_long_1a,
   .string .cxx_string_search_easymatch_long_1a,
   .string .libsrt_string_search_easymatch_long_1b,
   .string .c_string_search_easymatch_long_1b,
   .string .cxx_string_search_easymatch_long_1b,
   .string .libsrt_string_search_easymatch_long_2a,
   .string .c_string_search_easymatch_long_2a,
   .string .cxx_string_search_easymatch_long_2a,
   .string .libsrt_string_search_easymatch_long_2b,
   .string .c_string_search_easymatch_long_2b,
   .string .cxx_string_search_easymatch_long_2b,
   .string .libsrt_string_search_hardmatch_long_1a,
   .string .c_string_search_hardmatch_long_1a,
   .string .cxx_string_search_hardmatch_long_1a,
   .string .libsrt_string_search_hardmatch_long_1b,
   .string .c_string_search_hardmatch_long_1b,
   .string .cxx_string_search_hardmatch_long_1b,
   .string .libsrt_string_search_hardmatch_short_1a,
   .string .c_string_search_hardmatch_short_1a,
   .string .cxx_string_search_hardmatch_short_1a,
   .string .libsrt_string_search_hardmatch_short_1b,
   .string .c_string_search_hardmatch_short_1b,
   .string .cxx_string_search_hardmatch_short_1b,
   .string .libsrt_string_search_hardmatch_long_2,
   .string .c_string_search_hardmatch_long_2,
   .string .cxx_string_search_hardmatch_long_2,
   .string .libsrt_string_search_hardmatch_long_3,
   .string .c_string_search_hardmatch_long_3,
   .string .cxx_string_search_hardmatch_long_3,
   .string .libsrt_string_loweruppercase_ascii,
   .string .c_string_loweruppercase_ascii,
   .string .cxx_string_loweruppercase_ascii,
   .string .libsrt_string_loweruppercase_utf8,
   .string .c_string_loweruppercase_utf8,
   .string .cxx_string_loweruppercase_utf8]

/-- The array `count` of `main`. -/
def main_count : List Nat := [1000000, 1000000, 1000000]

/-- The array `nread` of `main`. -/
def main_nread : List Nat := [0, 10, 0]

/-- The array `delete_all` of `main`. -/
def main_delete_all : List Bool := [false, false, true]

/-- The arguments of test `i` of `main`: `count[i]`, `nread[i]`, `delete_all[i]`. -/
def main_test (i : Nat) : Nat × Nat × Bool :=
  (main_count.getD i 0, main_nread.getD i 0, main_delete_all.getD i false)

/-- The row a `BENCH_FN(test_fn, count, nread, delete_all)` line prints, if
any: the function is run and, when it returned true, the row with its name,
`count` and `count * nread` (both `size_t`, printed with `%zu`) is printed;
the time column is left out. -/
def BENCH_FN (u : Utf8Examples) (test_fn : BenchFn) (count nread : Nat) (delete_all : Bool) :
    Option (BenchFn × Nat × Nat) :=
  if test_fn.result u count nread delete_all then
    some (test_fn, count % 2 ^ 64, (count * nread) % 2 ^ 64)
  else none

/-- The rows test `i` of `main` prints. -/
def main_rows (u : Utf8Examples) (i : Nat) : List (BenchFn × Nat × Nat) :=
  main_benchmarks.filterMap fun f =>
    BENCH_FN u f (main_test i).1 (main_test i).2.1 (main_test i).2.2

/-- Whether a benchmark function of the table is a string benchmark. -/
def BenchFn.isString : BenchFn → Bool
  | .container _ => false
  | .string _ => true

/-! ## The timing macros -/

/-- A reading of `clock_gettime`: `struct timespec`. -/
structure timespec where
  tv_sec : Int
  tv_nsec : Int

/-- The macro `BENCH_TIME_US` on the readings `ta` (before) and `tb` (after):
`((tb.tv_sec - ta.tv_sec) * 1000000 + (tb.tv_nsec - ta.tv_nsec) / 1000)`,
computed as the program does, in the 64-bit `long` of `tv_sec` and `tv_nsec`:
the difference, the product and the sum each wrap around to 64 bits, and the
division of C truncates toward zero. -/
def BENCH_TIME_US (ta tb : timespec) : Int :=
  toInt64 (toInt64 (toInt64 (tb.tv_sec - ta.tv_sec) * 1000000)
    + Int.tdiv (toInt64 (tb.tv_nsec - ta.tv_nsec)) 1000)

/-- The elapsed nanoseconds between two readings. -/
def elapsed_ns (ta tb : timespec) : Int :=
  (tb.tv_sec - ta.tv_sec) * 1000000000 + (tb.tv_nsec - ta.tv_nsec)

/-- The reading `tb` is not earlier than `ta`. -/
def notEarlier (ta tb : timespec) : Prop :=
  ta.tv_sec < tb.tv_sec ∨ (ta.tv_sec = tb.tv_sec ∧ ta.tv_nsec ≤ tb.tv_nsec)

/-- The cast `(unsigned)x` to a 32-bit unsigned integer. -/
def toUnsigned (x : Int) : Nat := (x % 2 ^ 32).toNat

/-- The macro `BENCH_TIME_US_I`: `((unsigned)(BENCH_TIME_US / 1000000))`. -/
def BENCH_TIME_US_I (us : Int) : Nat := toUnsigned (Int.tdiv us 1000000)

/-- The macro `BENCH_TIME_US_D`: `((unsigned)(BENCH_TIME_US % 1000000))`. -/
def BENCH_TIME_US_D (us : Int) : Nat := toUnsigned (Int.tmod us 1000000)

/-- The text `printf` writes for `%u`: the decimal digits. -/
def printf_u (n : Nat) : List Nat := (decDigits n).map (48 + ·)

/-- The text `printf` writes for `%06u`: the decimal digits, zero-padded to
six bytes. -/
def printf_06u (n : Nat) : List Nat := zeroPad 6 ((decDigits n).map (48 + ·))

/-- The time column of a row, `"%u.%06u"` of `BENCH_TIME_US_I` and
`BENCH_TIME_US_D`. -/
def bench_time_text (us : Int) : List Nat :=
  printf_u (BENCH_TIME_US_I us) ++ [46] ++ printf_06u (BENCH_TIME_US_D us)

/-- A library map call that is a lookup. -/
def SmCall.isLookup : SmCall → Bool
  | .sm_at_ii32 _ => true
  | .sm_at_ii _ => true
  | _ => false

/-- The inserts `sm_insert_ii32(&m, k, k)` for the keys `k = 0, 1, ..., count - 1`
in ascending order. -/
def ascendingInserts (count : Nat) : List SmCall :=
  (List.range count).map fun (i : Nat) => .sm_insert_ii32 (i : Int) (i : Int)

/-- The lookups: `read_ntimes` passes of `sm_at_ii32(m, k)` over the keys
`k = 0, 1, ..., count - 1`. -/
def lookupPasses (count read_ntimes : Nat) : List SmCall :=
  forLoop read_ntimes fun _ => (List.range count).map fun (i : Nat) => .sm_at_ii32 (i : Int)

/-- The deletes `sm_delete_i(m, k)` for the keys `k = 0, 1, ..., count - 1` in
ascending order when `delete_all` is true, none otherwise. -/
def ascendingDeletes (count : Nat) (delete_all : Bool) : List SmCall :=
  if delete_all then (List.range count).map fun (i : Nat) => .sm_delete_i (i : Int) else []

/-! ## The ordered map (modelled from the specification) -/

/-- Colour of a tree node. -/
inductive Color where
  | red
  | black
  deriving DecidableEq, Repr

/-- Modelled from the spec: the tree of an ordered map with integer keys and
values (the library's `sm_t` of kind `SM_II32`, whose code is not part of the
benchmark source). A node holds `{key, value, left, right, color}`; the
children are given as subtrees in place of arena indices, and `nil` is the
absent reference (index 0). -/
inductive SmTree where
  | nil
  | node (color : Color) (left : SmTree) (key value : Int) (right : SmTree)
  deriving DecidableEq, Repr

namespace SmTree

/-- Modelled from the spec: colour of the root of a tree; the absent reference
counts as black. -/
def color : SmTree → Color
  | nil => .black
  | node c _ _ _ _ => c

/-- Modelled from the spec: the tree with its root recoloured. -/
def paint (c : Color) : SmTree → SmTree
  | nil => nil
  | node _ l k v r => node c l k v r

/-- Modelled from the spec: rebalancing after an insertion into the left
subtree; a red left child with a red child is rotated and recoloured. -/
def baliL : SmTree → Int → Int → SmTree → SmTree
  | node .red (node .red t1 a va t2) b vb t3, c, vc, t4 =>
    node .red (node .black t1 a va t2) b vb (node .black t3 c vc t4)
  | node .red t1 a va (node .red t2 b vb t3), c, vc, t4 =>
    node .red (node .black t1 a va t2) b vb (node .black t3 c vc t4)
  | t1, a, va, t2 => node .black t1 a va t2

/-- Modelled from the spec: rebalancing after an insertion into the right
subtree. -/
def baliR : SmTree → Int → Int → SmTree → SmTree
  | t1, a, va, node .red t2 b vb (node .red t3 c vc t4) =>
    node .red (node .black t1 a va t2) b vb (node .black t3 c vc t4)
  | t1, a, va, node .red (node .red t2 b vb t3) c vc t4 =>
    node .red (node .black t1 a va t2) b vb (node .black t3 c vc t4)
  | t1, a, va, t2 => node .black t1 a va t2

/-- Modelled from the spec: insertion below the root; the value of an existing
key is replaced, a new key becomes a red leaf node and the path to it is
rebalanced. -/
def ins (k v : Int) : SmTree → SmTree
  | nil => node .red nil k v nil
  | node .black l a va r =>
    if k < a then baliL (ins k v l) a va r
    else if a < k then baliR l a va (ins k v r)
    else node .black l k v r
  | node .red l a va r =>
    if k < a then node .red (ins k v l) a va r
    else if a < k then node .red l a va (ins k v r)
    else node .red l k v r

/-- Modelled from the spec: rebalancing after a deletion made the left subtree
one black level shorter. -/
def baldL : SmTree → Int → Int → SmTree → SmTree
  | node .red t1 a va t2, b, vb, t3 => node .red (node .black t1 a va t2) b vb t3
  | t1, a, va, node .black t2 b vb t3 => baliR t1 a va (node .red t2 b vb t3)
  | t1, a, va, node .red (node .black t2 b vb t3) c vc t4 =>
    node .red (node .black t1 a va t2) b vb (baliR t3 c vc (paint .red t4))
  | t1, a, va, t2 => node .red t1 a va t2

/-- Modelled from the spec: rebalancing after a deletion made the right subtree
one black level shorter. -/
def baldR : SmTree → Int → Int → SmTree → SmTree
  | t1, a, va, node .red t2 b vb t3 => node .red t1 a va (node .black t2 b vb t3)
  | node .black t1 a va t2, b, vb, t3 => baliL (node .red t1 a va t2) b vb t3
  | node .red t1 a va (node .black t2 b vb t3), c, vc, t4 =>
    node .red (baliL (paint .red t1) a va t2) b vb (node .black t3 c vc t4)
  | t1, a, va, t2 => node .red t1 a va t2

/-- Modelled from the spec: removal of the leftmost node (the in-order
successor of the node whose right subtree this is); its key and value, and the
rebalanced rest. -/
def splitMin : SmTree → Option (Int × Int × SmTree)
  | nil => none
  | node _ l a va r =>
    match splitMin l with
    | none => some (a, va, r)
    | some (x, vx, l') =>
      some (x, vx, if l.color = .black then baldL l' a va r else node .red l' a va r)

/-- Modelled from the spec: deletion below the root; a node with a right
subtree is replaced by its in-order successor, spliced out of the right
subtree, and the path is rebalanced on the way back. -/
def del (k : Int) : SmTree → SmTree
  | nil => nil
  | node _ l a va r =>
    if k < a then
      if l ≠ nil ∧ l.color = .black then baldL (del k l) a va r
      else node .red (del k l) a va r
    else if a < k then
      if r ≠ nil ∧ r.color = .black then baldR l a va (del k r)
      else node .red l a va (del k r)
    else
      match splitMin r with
      | none => l
      | some (x, vx, r') =>
        if r.color = .black then baldR l x vx r' else node .red l x vx r'

/-- Modelled from the spec: search from the root, by key order. -/
def lookup : SmTree → Int → Option Int
  | nil, _ => none
  | node _ l a va r, k =>
    if k < a then lookup l k else if a < k then lookup r k else some va

/-- Modelled from the spec: number of nodes of the tree. -/
def size : SmTree → Nat
  | nil => 0
  | node _ l _ _ r => size l + 1 + size r

/-- Number of black nodes on the leftmost path. -/
def bheight : SmTree → Nat
  | nil => 0
  | node c l _ _ _ => if c = .black then bheight l + 1 else bheight l

/-- No red node has a red child. -/
def invc : SmTree → Prop
  | nil => True
  | node c l _ _ r => (c = .red → l.color = .black ∧ r.color = .black) ∧ invc l ∧ invc r

/-- Every path from a node to an absent reference below it has the same
number of black nodes. -/
def invh : SmTree → Prop
  | nil => True
  | node _ l _ _ r => bheight l = bheight r ∧ invh l ∧ invh r

/-- The keys in symmetric order. -/
def keys : SmTree → List Int
  | nil => []
  | node _ l a _ r => keys l ++ a :: keys r

instance decInvc : (t : SmTree) → Decidable (invc t)
  | nil => isTrue trivial
  | node c l _ _ r =>
    have := decInvc l
    have := decInvc r
    by unfold invc; infer_instance

instance decInvh : (t : SmTree) → Decidable (invh t)
  | nil => isTrue trivial
  | node _ l _ _ r =>
    have := decInvh l
    have := decInvh r
    by unfold invh; infer_instance

end SmTree

/-- Modelled from the spec: the red-black balance properties of the ordered
map: the root is black, no red node has a red child, and every root-to-leaf
path has the same number of black nodes. -/
def redBlack (m : SmTree) : Prop := m.color = .black ∧ m.invc ∧ m.invh

instance (m : SmTree) : Decidable (redBlack m) := by unfold redBlack; infer_instance

/-- Modelled from the spec: `insert(key, value) -> created` of the ordered map
(the library's `sm_insert_ii32`): an existing key gets the new value and
`created` is false, a new key gets a node and the tree is rebalanced. -/
def sm_insert_ii32 (m : SmTree) (k v : Int) : SmTree × Bool :=
  ((m.ins k v).paint .black, (m.lookup k).isNone)

/-- Modelled from the spec: `lookup(key) -> value | not_found` of the ordered
map (the library's `sm_at_ii32`). -/
def sm_at_ii32 (m : SmTree) (k : Int) : Option Int := m.lookup k

/-- Modelled from the spec: `delete(key) -> removed` of the ordered map (the
library's `sm_delete_i`): standard tree deletion with successor splicing,
followed by rebalancing. -/
def sm_delete_i (m : SmTree) (k : Int) : SmTree × Bool :=
  ((m.del k).paint .black, (m.lookup k).isSome)

/-- Modelled from the spec: `count() -> size` of the ordered map. -/
def sm_size (m : SmTree) : Nat := m.size

/-- One step of an interleaving of inserts and deletes. -/
inductive SmOp where
  | insert (k v : Int)
  | delete (k : Int)
  deriving DecidableEq, Repr

/-- The map after one step. -/
def SmOp.apply (m : SmTree) : SmOp → SmTree
  | .insert k v => (sm_insert_ii32 m k v).1
  | .delete k => (sm_delete_i m k).1

/-- The map after a sequence of inserts and deletes, starting from `m`. -/
def smRun (m : SmTree) (ops : List SmOp) : SmTree := ops.foldl SmOp.apply m

namespace SmTree

/-- The keys are strictly ascending in symmetric order. -/
def sorted (t : SmTree) : Prop := (keys t).Pairwise (· < ·)

/-- The invariants after a deletion below the root: the black height drops by
one exactly under a black root. -/
def delInv (t t' : SmTree) : Prop :=
  invh t' ∧ (t.color = .red → bheight t' = bheight t ∧ invc t') ∧
    (t.color = .black → bheight t' = bheight t - 1 ∧ invc (paint .black t'))

end SmTree

/-- The invariant of the ordered map: red-black balance and ascending keys. -/
def SmTree.wellFormed (m : SmTree) : Prop := redBlack m ∧ m.sorted

/-! ## Theorems -/

/-- C1: in the fixture pair of `hardmatch_short_1a` the needle
`"1111111112k1"` occurs in `"11111111111111111112k1"` at byte offset 10 and
at no smaller offset, so the first occurrence searched from offset 0 (the
value a correct `find(haystack, 0, needle)` returns, and the one `strstr`
returns) is 10. -/
theorem hardmatch_short_1a_first_occurrence :
    occursAt haystack_hardmatch1_short needle_hardmatch1a 10 = true ∧
    (∀ k : Fin 10, occursAt haystack_hardmatch1_short needle_hardmatch1a k = false) ∧
    strstr haystack_hardmatch1_short needle_hardmatch1a = some 10 := by
  refine ⟨by decide, by decide, by decide⟩

set_option maxRecDepth 100000 in
/-- C2: `haystack_hardmatch2_long` is `"abcd"` 42 times followed by `"dcba"`
4 times, 184 bytes in all, and the first occurrence of `"dcba"` is at offset
168, right after the `"abcd"` run and nowhere inside it. -/
theorem hardmatch2_long_shape_and_first_occurrence :
    haystack_hardmatch2_long
      = repeatBytes (cstr "abcd") 42 ++ repeatBytes (cstr "dcba") 4 ∧
    haystack_hardmatch2_long.length = 184 ∧
    occursAt haystack_hardmatch2_long needle_hardmatch2 168 = true ∧
    (∀ k : Fin 168, occursAt haystack_hardmatch2_long needle_hardmatch2 k = false) ∧
    strstr haystack_hardmatch2_long needle_hardmatch2 = some 168 := by
  refine ⟨by decide, by decide, by decide, by decide, by decide⟩

/-! ### Case converters -/

theorem toupper_tolower (c : Nat) : toupper (tolower c) = toupper c := by
  unfold toupper tolower
  split_ifs <;> omega

theorem tolower_toupper (c : Nat) : tolower (toupper c) = tolower c := by
  unfold toupper
  by_cases h : 97 ≤ c ∧ c ≤ 122
  · rw [if_pos h]
    unfold tolower
    rw [if_pos (by omega), if_neg (by omega)]
    omega
  · rw [if_neg h]

theorem tolower_eq_zero (c : Nat) : tolower c = 0 ↔ c = 0 := by
  unfold tolower
  by_cases h : 65 ≤ c ∧ c ≤ 90
  · rw [if_pos h]
    exact ⟨fun h0 => by omega, fun h0 => by omega⟩
  · rw [if_neg h]

theorem toupper_eq_zero (c : Nat) : toupper c = 0 ↔ c = 0 := by
  unfold toupper
  by_cases h : 97 ≤ c ∧ c ≤ 122
  · rw [if_pos h]
    exact ⟨fun h0 => by omega, fun h0 => by omega⟩
  · rw [if_neg h]

theorem cstoupper_cstolower (b : List Nat) : cstoupper (cstolower b) = cstoupper b := by
  induction b with
  | nil => rfl
  | cons c s ih =>
    by_cases hc : c = 0
    · simp [cstolower, cstoupper, hc]
    · simp [cstolower, cstoupper, hc, tolower_eq_zero, toupper_tolower, ih]

theorem cstolower_cstoupper (b : List Nat) : cstolower (cstoupper b) = cstolower b := by
  induction b with
  | nil => rfl
  | cons c s ih =>
    by_cases hc : c = 0
    · simp [cstolower, cstoupper, hc]
    · simp [cstolower, cstoupper, hc, toupper_eq_zero, tolower_toupper, ih]

theorem cstolower_string (s : List Nat) (h : ∀ c ∈ s, c ≠ 0) (rest : List Nat) :
    cstolower (s ++ 0 :: rest) = s.map tolower ++ 0 :: rest := by
  induction s with
  | nil => simp [cstolower]
  | cons c s ih =>
    have hc : c ≠ 0 := h c (List.mem_cons_self _ _)
    have hs : ∀ d ∈ s, d ≠ 0 := fun d hd => h d (List.mem_cons_of_mem _ hd)
    simp [cstolower, hc, ih hs]

theorem cstoupper_string (s : List Nat) (h : ∀ c ∈ s, c ≠ 0) (rest : List Nat) :
    cstoupper (s ++ 0 :: rest) = s.map toupper ++ 0 :: rest := by
  induction s with
  | nil => simp [cstoupper]
  | cons c s ih =>
    have hc : c ≠ 0 := h c (List.mem_cons_self _ _)
    have hs : ∀ d ∈ s, d ≠ 0 := fun d hd => h d (List.mem_cons_of_mem _ hd)
    simp [cstoupper, hc, ih hs]

/-- C3: ASCII round trip of the reference converters. For a string `s` of
cased ASCII letters (so NUL-free), held in a buffer with its terminating NUL,
`cstoupper(cstolower(s)) == cstoupper(s)` and
`cstolower(cstoupper(s)) == cstolower(s)`; each converter maps the string
byte by byte and keeps the terminator. -/
theorem ascii_case_round_trip (s : List Nat) (h : ∀ c ∈ s, isCasedAscii c) :
    cstoupper (cstolower (s ++ [0])) = cstoupper (s ++ [0]) ∧
    cstolower (cstoupper (s ++ [0])) = cstolower (s ++ [0]) ∧
    cstolower (s ++ [0]) = s.map tolower ++ [0] ∧
    cstoupper (s ++ [0]) = s.map toupper ++ [0] := by
  have hz : ∀ c ∈ s, c ≠ 0 := by
    intro c hc h0
    have := h c hc
    unfold isCasedAscii at this
    omega
  exact ⟨cstoupper_cstolower _, cstolower_cstoupper _,
    cstolower_string s hz [], cstoupper_string s hz []⟩

/-- Witness of C3 at the string `"aB"`. -/
theorem ascii_case_round_trip_witness :
    cstoupper (cstolower ([97, 66] ++ [0])) = cstoupper ([97, 66] ++ [0]) ∧
    cstolower (cstoupper ([97, 66] ++ [0])) = cstolower ([97, 66] ++ [0]) ∧
    cstolower ([97, 66] ++ [0]) = [97, 66].map tolower ++ [0] ∧
    cstoupper ([97, 66] ++ [0]) = [97, 66].map toupper ++ [0] :=
  ascii_case_round_trip [97, 66] (by
    intro c hc
    simp only [List.mem_cons, List.mem_singleton, List.not_mem_nil, or_false] at hc
    rcases hc with rfl | rfl <;> simp [isCasedAscii])


/-! ### Loops and `std::map` -/

theorem toInt32_of_lt (n : Nat) (h : n < 2147483648) : toInt32 (n : Int) = (n : Int) := by
  unfold toInt32
  omega

theorem mem_forLoop {α : Type} (body : Nat → List α) (c : α) :
    ∀ n, c ∈ forLoop n body ↔ ∃ i, i < n ∧ c ∈ body i
  | 0 => by simp [forLoop]
  | n + 1 => by
    rw [forLoop, List.mem_append, mem_forLoop body c n]
    constructor
    · rintro (⟨i, hi, hc⟩ | hc)
      · exact ⟨i, by omega, hc⟩
      · exact ⟨n, by omega, hc⟩
    · rintro ⟨i, hi, hc⟩
      by_cases hin : i = n
      · subst hin; exact Or.inr hc
      · exact Or.inl ⟨i, by omega, hc⟩

theorem forLoop_singleton {α : Type} (g : Nat → α) :
    ∀ n : Nat, forLoop n (fun i => [g i]) = (List.range n).map g
  | 0 => rfl
  | n + 1 => by
    rw [forLoop, forLoop_singleton g n, List.range_succ, List.map_append]
    rfl

namespace StdMap

variable {K V : Type} [DecidableEq K]

theorem run_append (d : V) (m : StdMap K V) (a b : List (MapCall K V)) :
    run d m (a ++ b) = run d (run d m a) b := by
  simp [run, List.foldl_append]

theorem find_assign (k : K) (v : V) (m : StdMap K V) (k' : K) :
    find (assign k v m) k' = if k = k' then some v else find m k' := by
  induction m with
  | nil => simp [assign, find]
  | cons e t ih =>
    obtain ⟨a, b⟩ := e
    by_cases hak : a = k
    · subst hak
      by_cases hak' : a = k'
      · simp [assign, find, hak']
      · simp [assign, find, hak']
    · simp only [assign, if_neg hak, find, ih]
      by_cases hak' : a = k'
      · subst hak'
        simp [Ne.symm hak]
      · simp [hak']

theorem size_assign (k : K) (v : V) (m : StdMap K V) :
    size (assign k v m) = if (find m k).isSome then size m else size m + 1 := by
  induction m with
  | nil => simp [assign, find, size]
  | cons e t ih =>
    obtain ⟨a, b⟩ := e
    by_cases hak : a = k
    · simp [assign, find, size, hak]
    · simp only [size] at ih
      simp only [assign, if_neg hak, find, size, List.length_cons, ih]
      split_ifs <;> rfl

theorem index_of_find (d : V) (k : K) (m : StdMap K V) (h : find m k ≠ none) :
    index d k m = m := by
  induction m with
  | nil => simp [find] at h
  | cons e t ih =>
    obtain ⟨a, b⟩ := e
    by_cases hak : a = k
    · simp [index, hak]
    · simp only [find, if_neg hak] at h
      simp [index, hak, ih h]

theorem mem_keys_assign (k : K) (v : V) (m : StdMap K V) (x : K)
    (h : x ∈ (assign k v m).map Prod.fst) : x = k ∨ x ∈ m.map Prod.fst := by
  induction m with
  | nil => simpa [assign] using h
  | cons e t ih =>
    obtain ⟨a, b⟩ := e
    by_cases hak : a = k
    · simp only [assign, if_pos hak, List.map_cons, List.mem_cons] at h
      rcases h with h | h
      · exact Or.inl h
      · exact Or.inr (by simp [h])
    · simp only [assign, if_neg hak, List.map_cons, List.mem_cons] at h
      rcases h with h | h
      · exact Or.inr (by simp [h])
      · rcases ih h with h | h
        · exact Or.inl h
        · exact Or.inr (by simp [h])

theorem mem_keys_index (d : V) (k : K) (m : StdMap K V) (x : K)
    (h : x ∈ (index d k m).map Prod.fst) : x = k ∨ x ∈ m.map Prod.fst := by
  induction m with
  | nil => simpa [index] using h
  | cons e t ih =>
    obtain ⟨a, b⟩ := e
    by_cases hak : a = k
    · simp only [index, if_pos hak] at h
      exact Or.inr h
    · simp only [index, if_neg hak, List.map_cons, List.mem_cons] at h
      rcases h with h | h
      · exact Or.inr (by simp [h])
      · rcases ih h with h | h
        · exact Or.inl h
        · exact Or.inr (by simp [h])

theorem mem_keys_erase (k : K) (m : StdMap K V) (x : K) :
    x ∈ (erase k m).map Prod.fst ↔ x ∈ m.map Prod.fst ∧ x ≠ k := by
  simp only [erase, List.mem_map, List.mem_filter, decide_eq_true_eq]
  constructor
  · rintro ⟨e, ⟨he, hne⟩, rfl⟩
    exact ⟨⟨e, he, rfl⟩, hne⟩
  · rintro ⟨⟨e, he, rfl⟩, hne⟩
    exact ⟨e, ⟨he, hne⟩, rfl⟩

/-- Every key of the map after a run of calls was in the map before or is the
key of one of the calls. -/
theorem mem_keys_run (d : V) (calls : List (MapCall K V)) :
    ∀ (m : StdMap K V) (x : K), x ∈ (run d m calls).map Prod.fst →
      x ∈ m.map Prod.fst ∨ ∃ c ∈ calls, c.key = x := by
  induction calls with
  | nil => intro m x h; exact Or.inl h
  | cons c cs ih =>
    intro m x h
    have h' : x ∈ (run d (step d m c) cs).map Prod.fst := h
    rcases ih _ _ h' with h1 | ⟨c', hc', hk⟩
    · cases c with
      | assign k v =>
        rcases mem_keys_assign k v m x h1 with h2 | h2
        · exact Or.inr ⟨_, List.mem_cons_self _ _, h2.symm⟩
        · exact Or.inl h2
      | index k =>
        rcases mem_keys_index d k m x h1 with h2 | h2
        · exact Or.inr ⟨_, List.mem_cons_self _ _, h2.symm⟩
        · exact Or.inl h2
      | erase k => exact Or.inl ((mem_keys_erase k m x).1 h1).1
    · exact Or.inr ⟨c', List.mem_cons_of_mem _ hc', hk⟩

/-- The keys left by a loop of `erase (f i)`, `i < n`. -/
theorem mem_keys_erase_loop (d : V) (f : Nat → K) (x : K) :
    ∀ (n : Nat) (m : StdMap K V),
      x ∈ (run d m (forLoop n fun i => [MapCall.erase (f i)])).map Prod.fst ↔
        x ∈ m.map Prod.fst ∧ ∀ i, i < n → x ≠ f i
  | 0, m => by simp [forLoop, run]
  | n + 1, m => by
    rw [forLoop, run_append]
    simp only [run, List.foldl_cons, List.foldl_nil, step]
    rw [mem_keys_erase]
    have ih := mem_keys_erase_loop d f x n m
    simp only [run] at ih
    rw [ih]
    constructor
    · rintro ⟨⟨hm, hi⟩, hn⟩
      refine ⟨hm, fun i hlt => ?_⟩
      by_cases hin : i = n
      · subst hin; exact hn
      · exact hi i (by omega)
    · rintro ⟨hm, hi⟩
      exact ⟨⟨hm, fun i hlt => hi i (by omega)⟩, hi n (by omega)⟩

/-- A workload whose calls all use keys `f i`, `i < count`, followed by the
loop erasing every `f i`, leaves the map empty. -/
theorem run_then_erase_all (d : V) (f : Nat → K) (count : Nat)
    (work : List (MapCall K V)) (hwork : ∀ c ∈ work, ∃ i, i < count ∧ c.key = f i) :
    run d [] (work ++ forLoop count fun i => [MapCall.erase (f i)]) = [] := by
  rw [run_append]
  apply List.eq_nil_iff_forall_not_mem.2
  intro e he
  have hk : e.1 ∈ (run d (run d [] work)
      (forLoop count fun i => [MapCall.erase (f i)])).map Prod.fst :=
    List.mem_map_of_mem _ he
  rw [mem_keys_erase_loop] at hk
  obtain ⟨hm, hne⟩ := hk
  rcases mem_keys_run d work [] e.1 hm with h | ⟨c, hc, hck⟩
  · simp at h
  · obtain ⟨i, hi, hci⟩ := hwork c hc
    exact hne i hi (hck ▸ hci)

end StdMap


namespace StdMap

variable {K V : Type} [DecidableEq K]

/-- A pass of `(void)m[f i]`, `i < n`, over a map that already holds every
`f i` leaves the map as it is. -/
theorem run_index_loop (d : V) (f : Nat → K) (m : StdMap K V) :
    ∀ n : Nat, (∀ i, i < n → find m (f i) ≠ none) →
      run d m (forLoop n fun i => [MapCall.index (f i)]) = m
  | 0, _ => by simp [forLoop, run]
  | n + 1, h => by
    rw [forLoop, run_append, run_index_loop d f m n (fun i hi => h i (by omega))]
    simp only [run, List.foldl_cons, List.foldl_nil, step]
    exact index_of_find d (f n) m (h n (by omega))

/-- The read loops, `r` passes of `(void)m[f i]`, leave such a map as it is. -/
theorem run_read_loops (d : V) (f : Nat → K) (m : StdMap K V) (n : Nat)
    (h : ∀ i, i < n → find m (f i) ≠ none) :
    ∀ r : Nat, run d m (forLoop r fun _ => forLoop n fun i => [MapCall.index (f i)]) = m
  | 0 => by simp [forLoop, run]
  | r + 1 => by
    rw [forLoop, run_append, run_read_loops d f m n h r, run_index_loop d f m n h]

end StdMap

/-- State of the map of `cxx_map_ii32` after the insert loop: `n` entries, key
`k` mapped to `k` exactly for `0 ≤ k < n`. -/
theorem cxx_map_ii32_insert_state (n : Nat) (h : n ≤ 2147483648) :
    (StdMap.run 0 [] (cxx_map_ii32_insert n)).size = n ∧
    ∀ k : Int, StdMap.find (StdMap.run 0 [] (cxx_map_ii32_insert n)) k
      = if 0 ≤ k ∧ k < (n : Int) then some k else none := by
  induction n with
  | zero =>
    refine ⟨rfl, fun k => ?_⟩
    have : ¬ (0 ≤ k ∧ k < ((0 : Nat) : Int)) := by omega
    rw [if_neg this]
    rfl
  | succ n ih =>
    obtain ⟨hsize, hfind⟩ := ih (by omega)
    have hn : toInt32 (n : Int) = (n : Int) := toInt32_of_lt n (by omega)
    have hrun : StdMap.run 0 [] (cxx_map_ii32_insert (n + 1))
        = StdMap.assign (n : Int) (n : Int) (StdMap.run 0 [] (cxx_map_ii32_insert n)) := by
      simp only [cxx_map_ii32_insert, forLoop, StdMap.run_append, hn]
      rfl
    rw [hrun]
    constructor
    · rw [StdMap.size_assign, hfind, hsize]
      have : ¬ (0 ≤ (n : Int) ∧ (n : Int) < (n : Int)) := by omega
      rw [if_neg this]
      rfl
    · intro k
      rw [StdMap.find_assign, hfind]
      by_cases hk : (n : Int) = k
      · have : 0 ≤ k ∧ k < ((n + 1 : Nat) : Int) := by omega
        rw [if_pos hk, if_pos this, hk]
      · rw [if_neg hk]
        by_cases hlt : 0 ≤ k ∧ k < (n : Int)
        · have : 0 ≤ k ∧ k < ((n + 1 : Nat) : Int) := by omega
          rw [if_pos hlt, if_pos this]
        · have : ¬ (0 ≤ k ∧ k < ((n + 1 : Nat) : Int)) := by omega
          rw [if_neg hlt, if_neg this]

/-- C4: for every `count ≤ 2^31` and every `read_ntimes`, after the insert
loop of `cxx_map_ii32` the map holds exactly `count` entries and maps every
key `k`, `0 ≤ k < count`, to `k`; the read loops, although they go through the
inserting `operator[]`, leave the map as it is, so it still has `count`
entries when the read phase ends. -/
theorem cxx_map_ii32_insert_then_read (count read_ntimes : Nat) (h : count ≤ 2 ^ 31) :
    (StdMap.run 0 [] (cxx_map_ii32_insert count)).size = count ∧
    (∀ k : Nat, k < count →
      StdMap.find (StdMap.run 0 [] (cxx_map_ii32_insert count)) (k : Int) = some (k : Int)) ∧
    StdMap.run 0 (StdMap.run 0 [] (cxx_map_ii32_insert count))
        (cxx_map_ii32_read count read_ntimes)
      = StdMap.run 0 [] (cxx_map_ii32_insert count) ∧
    (StdMap.run 0 [] (cxx_map_ii32_insert count ++ cxx_map_ii32_read count read_ntimes)).size
      = count := by
  have h31 : count ≤ 2147483648 := by norm_num at h; exact h
  obtain ⟨hsize, hfind⟩ := cxx_map_ii32_insert_state count h31
  have hkey : ∀ k : Nat, k < count →
      StdMap.find (StdMap.run 0 [] (cxx_map_ii32_insert count)) (k : Int) = some (k : Int) := by
    intro k hk
    rw [hfind]
    have : 0 ≤ (k : Int) ∧ (k : Int) < (count : Int) := by omega
    simp [this]
  have hread : StdMap.run 0 (StdMap.run 0 [] (cxx_map_ii32_insert count))
      (cxx_map_ii32_read count read_ntimes)
        = StdMap.run 0 [] (cxx_map_ii32_insert count) := by
    unfold cxx_map_ii32_read
    apply StdMap.run_read_loops 0 (fun i : Nat => toInt32 (i : Int))
    intro i hi
    rw [toInt32_of_lt i (by omega), hkey i hi]
    simp
  refine ⟨hsize, hkey, hread, ?_⟩
  rw [StdMap.run_append, hread, hsize]

/-- Witness of C4 at the benchmark's own size: after inserting keys
0..999999 (and reading them 10 times) the map has 1000000 entries and
`m[500000] == 500000`. -/
theorem cxx_map_ii32_insert_then_read_witness :
    (StdMap.run 0 [] (cxx_map_ii32_insert 1000000)).size = 1000000 ∧
    StdMap.find (StdMap.run 0 [] (cxx_map_ii32_insert 1000000)) 500000 = some 500000 ∧
    (StdMap.run 0 [] (cxx_map_ii32_insert 1000000 ++ cxx_map_ii32_read 1000000 10)).size
      = 1000000 :=
  have h := cxx_map_ii32_insert_then_read 1000000 10 (by norm_num)
  ⟨h.1, h.2.1 500000 (by norm_num), h.2.2.2⟩

/-- Every call of the insert and read loops of `cxx_map_ii32` uses a key
`(int32_t)i` with `i < count`. -/
theorem cxx_map_ii32_work_keys (count read_ntimes : Nat) :
    ∀ c ∈ cxx_map_ii32_insert count ++ cxx_map_ii32_read count read_ntimes,
      ∃ i, i < count ∧ c.key = toInt32 (i : Int) := by
  intro c hc
  rw [List.mem_append] at hc
  rcases hc with hc | hc
  · obtain ⟨i, hi, hci⟩ := (mem_forLoop _ c count).1 hc
    rw [List.mem_singleton] at hci
    exact ⟨i, hi, by rw [hci, MapCall.key]⟩
  · obtain ⟨j, _, hcj⟩ := (mem_forLoop _ c read_ntimes).1 hc
    obtain ⟨i, hi, hci⟩ := (mem_forLoop _ c count).1 hcj
    rw [List.mem_singleton] at hci
    exact ⟨i, hi, by rw [hci, MapCall.key]⟩

/-- Every call of the insert and read loops of `cxx_map_s16` uses a key
`key_s16 i` with `i < count`. -/
theorem cxx_map_s16_work_keys (count read_ntimes : Nat) :
    ∀ c ∈ cxx_map_s16_insert count ++ cxx_map_s16_read count read_ntimes,
      ∃ i, i < count ∧ c.key = key_s16 i := by
  intro c hc
  rw [List.mem_append] at hc
  rcases hc with hc | hc
  · obtain ⟨i, hi, hci⟩ := (mem_forLoop _ c count).1 hc
    rw [List.mem_singleton] at hci
    exact ⟨i, hi, by rw [hci, MapCall.key]⟩
  · obtain ⟨j, _, hcj⟩ := (mem_forLoop _ c read_ntimes).1 hc
    obtain ⟨i, hi, hci⟩ := (mem_forLoop _ c count).1 hcj
    rw [List.mem_singleton] at hci
    exact ⟨i, hi, by rw [hci, MapCall.key]⟩

/-- The keys of a loop of erasures are the keys of the loop of assignments
over the same key expression. -/
theorem map_key_erase_assign {K V : Type} (f : Nat → K) (g : Nat → V) (l : List Nat) :
    (l.map fun i => (MapCall.erase (f i) : MapCall K V)).map MapCall.key
      = (l.map fun i => MapCall.assign (f i) (g i)).map MapCall.key := by
  induction l with
  | nil => rfl
  | cons a l ih =>
    rw [List.map_cons, List.map_cons, List.map_cons, List.map_cons, ih, MapCall.key, MapCall.key]

/-- C5: for every `count` and `read_ntimes`, with `delete_all` true the
delete loop of `cxx_map_ii32` and of `cxx_map_s16` erases, in the same order,
exactly the keys the insert loop inserted (the key expression is the same in
all loops), so the map is empty, size 0, when the function returns. -/
theorem cxx_map_delete_all_empties (count read_ntimes : Nat) :
    (cxx_map_ii32_delete count true).map MapCall.key
      = (cxx_map_ii32_insert count).map MapCall.key ∧
    StdMap.run 0 [] (cxx_map_ii32 count read_ntimes true) = [] ∧
    (StdMap.run 0 [] (cxx_map_ii32 count read_ntimes true)).size = 0 ∧
    (cxx_map_s16_delete count true).map MapCall.key
      = (cxx_map_s16_insert count).map MapCall.key ∧
    StdMap.run [] [] (cxx_map_s16 count read_ntimes true) = [] ∧
    (StdMap.run [] [] (cxx_map_s16 count read_ntimes true)).size = 0 := by
  have k32 : (cxx_map_ii32_delete count true).map MapCall.key
      = (cxx_map_ii32_insert count).map MapCall.key := by
    unfold cxx_map_ii32_delete cxx_map_ii32_insert
    rw [if_pos rfl, forLoop_singleton, forLoop_singleton]
    exact map_key_erase_assign _ _ _
  have k16 : (cxx_map_s16_delete count true).map MapCall.key
      = (cxx_map_s16_insert count).map MapCall.key := by
    unfold cxx_map_s16_delete cxx_map_s16_insert
    rw [if_pos rfl, forLoop_singleton, forLoop_singleton]
    exact map_key_erase_assign _ _ _
  have h32 : StdMap.run 0 [] (cxx_map_ii32 count read_ntimes true) = [] := by
    unfold cxx_map_ii32 cxx_map_ii32_delete
    rw [if_pos rfl]
    exact StdMap.run_then_erase_all (0 : Int) (fun i : Nat => toInt32 (i : Int)) count
      (cxx_map_ii32_insert count ++ cxx_map_ii32_read count read_ntimes)
      (cxx_map_ii32_work_keys count read_ntimes)
  have h16 : StdMap.run [] [] (cxx_map_s16 count read_ntimes true) = [] := by
    unfold cxx_map_s16 cxx_map_s16_delete
    rw [if_pos rfl]
    exact StdMap.run_then_erase_all ([] : List Nat) key_s16 count
      (cxx_map_s16_insert count ++ cxx_map_s16_read count read_ntimes)
      (cxx_map_s16_work_keys count read_ntimes)
  refine ⟨k32, h32, ?_, k16, h16, ?_⟩
  · rw [h32, StdMap.size, List.length_nil]
  · rw [h16, StdMap.size, List.length_nil]

/-! ### The string keys `%016i` -/

theorem foldl_dec (s : List Nat) :
    ∀ acc : Nat, s.foldl (fun a b => 10 * a + (b - 48)) acc
      = acc * 10 ^ s.length + decValue s := by
  induction s with
  | nil => intro acc; simp [decValue]
  | cons b t ih =>
    intro acc
    have h0 := ih (10 * 0 + (b - 48))
    have h1 := ih (10 * acc + (b - 48))
    simp only [decValue, List.foldl_cons, List.length_cons] at h0 h1 ⊢
    rw [h1, h0, pow_succ]
    ring

theorem decValue_cons (b : Nat) (t : List Nat) :
    decValue (b :: t) = (b - 48) * 10 ^ t.length + decValue t := by
  have h := foldl_dec t (10 * 0 + (b - 48))
  simp only [decValue, List.foldl_cons] at h ⊢
  rw [h]
  ring

theorem decValue_append_singleton (s : List Nat) (b : Nat) :
    decValue (s ++ [b]) = 10 * decValue s + (b - 48) := by
  simp [decValue, List.foldl_append]

theorem decValue_lt (s : List Nat) (h : allDigits s) : decValue s < 10 ^ s.length := by
  induction s with
  | nil => simp [decValue]
  | cons b t ih =>
    have hb := h b (List.mem_cons_self _ _)
    have ht := ih (fun c hc => h c (List.mem_cons_of_mem _ hc))
    rw [decValue_cons, List.length_cons, pow_succ]
    have : (b - 48) * 10 ^ t.length ≤ 9 * 10 ^ t.length :=
      Nat.mul_le_mul_right _ (by omega)
    omega

/-- Among digit strings of one length, the numerically smaller one is the
byte-lexicographically smaller one. -/
theorem strLess_of_decValue_lt :
    ∀ s t : List Nat, s.length = t.length → allDigits s → allDigits t →
      decValue s < decValue t → strLess s t = true
  | [], [], _, _, _, h => by simp [decValue] at h
  | [], _ :: _, h, _, _, _ => by simp at h
  | _ :: _, [], h, _, _, _ => by simp at h
  | a :: s, b :: t, hlen, hs, ht, h => by
    have hlen' : s.length = t.length := by simpa using hlen
    have hs' : allDigits s := fun c hc => hs c (List.mem_cons_of_mem _ hc)
    have ht' : allDigits t := fun c hc => ht c (List.mem_cons_of_mem _ hc)
    have ha := hs a (List.mem_cons_self _ _)
    have hb := ht b (List.mem_cons_self _ _)
    have hsl := decValue_lt s hs'
    have htl := decValue_lt t ht'
    rw [decValue_cons, decValue_cons, hlen'] at h
    rw [hlen'] at hsl
    unfold strLess
    by_cases hab : a < b
    · rw [if_pos hab]
    · rw [if_neg hab]
      by_cases hba : b < a
      · exfalso
        have : (b - 48 + 1) * 10 ^ t.length ≤ (a - 48) * 10 ^ t.length :=
          Nat.mul_le_mul_right _ (by omega)
        rw [Nat.add_mul, Nat.one_mul] at this
        omega
      · rw [if_neg hba]
        have hab' : a = b := by omega
        subst hab'
        exact strLess_of_decValue_lt s t hlen' hs' ht' (by omega)

theorem decDigitsAux_lt_ten :
    ∀ (fuel n : Nat), ∀ d ∈ decDigitsAux fuel n, d < 10
  | 0, _ => by simp [decDigitsAux]
  | fuel + 1, n => by
    intro d hd
    unfold decDigitsAux at hd
    by_cases hn : n < 10
    · rw [if_pos hn, List.mem_singleton] at hd
      omega
    · rw [if_neg hn, List.mem_append, List.mem_singleton] at hd
      rcases hd with hd | hd
      · exact decDigitsAux_lt_ten fuel (n / 10) d hd
      · omega

theorem decDigitsAux_value :
    ∀ (fuel n : Nat), n < fuel → decValue ((decDigitsAux fuel n).map (48 + ·)) = n
  | 0, _, h => by omega
  | fuel + 1, n, h => by
    unfold decDigitsAux
    by_cases hn : n < 10
    · rw [if_pos hn]
      simp [decValue]
    · rw [if_neg hn, List.map_append, List.map_singleton, decValue_append_singleton,
        decDigitsAux_value fuel (n / 10) (by omega)]
      omega

theorem decDigitsAux_length :
    ∀ (fuel n k : Nat), n < 10 ^ (k + 1) → (decDigitsAux fuel n).length ≤ k + 1
  | 0, _, _, _ => by simp [decDigitsAux]
  | fuel + 1, n, k, h => by
    unfold decDigitsAux
    by_cases hn : n < 10
    · rw [if_pos hn]
      simp
    · rw [if_neg hn, List.length_append, List.length_singleton]
      cases k with
      | zero => simp at h; omega
      | succ k =>
        have h10 : n / 10 < 10 ^ (k + 1) := by
          rw [Nat.div_lt_iff_lt_mul (by norm_num)]
          rw [pow_succ] at h
          exact h
        have := decDigitsAux_length fuel (n / 10) k h10
        omega

theorem allDigits_zeroPad (w : Nat) (t : List Nat) (h : allDigits t) :
    allDigits (zeroPad w t) := by
  intro b hb
  unfold zeroPad at hb
  rw [List.mem_append] at hb
  rcases hb with hb | hb
  · have := List.eq_of_mem_replicate hb
    omega
  · exact h b hb

theorem decValue_replicate_zero :
    ∀ (z : Nat) (t : List Nat), decValue (List.replicate z 48 ++ t) = decValue t
  | 0, t => by simp
  | z + 1, t => by
    rw [List.replicate_succ, List.cons_append, decValue_cons, decValue_replicate_zero z t]
    simp

/-- The key of `i < 2^31` is the 16-digit zero-padded decimal of `i`. -/
theorem key_s16_spec (i : Nat) (h : i < 2147483648) :
    (key_s16 i).length = 16 ∧ allDigits (key_s16 i) ∧ decValue (key_s16 i) = i := by
  have hcast : toInt32 (i : Int) = (i : Int) := toInt32_of_lt i h
  have hnn : ¬ ((i : Int) < 0) := by omega
  have hkey : key_s16 i = zeroPad 16 ((decDigits i).map (48 + ·)) := by
    unfold key_s16 sprintf_016i
    rw [hcast, if_neg hnn, Int.toNat_ofNat]
  have hlen : ((decDigits i).map (48 + ·)).length ≤ 10 := by
    rw [List.length_map]
    exact decDigitsAux_length (i + 1) i 9 (by omega)
  have hdig : allDigits ((decDigits i).map (48 + ·)) := by
    intro b hb
    rw [List.mem_map] at hb
    obtain ⟨d, hd, rfl⟩ := hb
    have := decDigitsAux_lt_ten (i + 1) i d hd
    omega
  rw [hkey]
  refine ⟨?_, allDigits_zeroPad 16 _ hdig, ?_⟩
  · unfold zeroPad
    rw [List.length_append, List.length_replicate]
    omega
  · unfold zeroPad
    rw [decValue_replicate_zero]
    exact decDigitsAux_value (i + 1) i (by omega)

theorem key_s16_lt (i j : Nat) (hij : i < j) (hj : j < 2147483648) :
    strLess (key_s16 i) (key_s16 j) = true := by
  obtain ⟨hli, hdi, hvi⟩ := key_s16_spec i (by omega)
  obtain ⟨hlj, hdj, hvj⟩ := key_s16_spec j hj
  exact strLess_of_decValue_lt _ _ (by rw [hli, hlj]) hdi hdj (by rw [hvi, hvj]; exact hij)


/-- C7: the key generator `sprintf(btmp, "%016i", (int)i)` of the `s16`
benchmarks is fixed-width and strictly order-preserving on `0 ≤ i < 2^31`:
every key has 16 bytes, all decimal digits, denoting `i`; `i < j` makes
`key(i)` byte-lexicographically smaller than `key(j)`; distinct `i` give
distinct keys; the insert loop for `count ≤ 2^31` inserts `count` distinct
keys in strictly ascending byte order; the first key is
`"0000000000000000"` and the key of 999999 is `"0000000000999999"`. -/
theorem key_s16_fixed_width_order_preserving :
    (∀ i : Nat, i < 2 ^ 31 →
      (key_s16 i).length = 16 ∧ allDigits (key_s16 i) ∧ decValue (key_s16 i) = i) ∧
    (∀ i j : Nat, i < j → j < 2 ^ 31 → strLess (key_s16 i) (key_s16 j) = true) ∧
    (∀ i j : Nat, i < 2 ^ 31 → j < 2 ^ 31 → key_s16 i = key_s16 j → i = j) ∧
    (∀ count : Nat, count ≤ 2 ^ 31 →
      (cxx_map_s16_insert count).map MapCall.key = (List.range count).map key_s16 ∧
      ((cxx_map_s16_insert count).map MapCall.key).length = count ∧
      ((cxx_map_s16_insert count).map MapCall.key).Pairwise
        (fun a b => strLess a b = true) ∧
      ((cxx_map_s16_insert count).map MapCall.key).Nodup) ∧
    key_s16 0 = cstr "0000000000000000" ∧
    key_s16 999999 = cstr "0000000000999999" := by
  have hpow : (2 : Nat) ^ 31 = 2147483648 := by norm_num
  rw [hpow]
  refine ⟨key_s16_spec, key_s16_lt, ?_, ?_, by decide, by decide⟩
  · intro i j hi hj hkey
    have h1 := (key_s16_spec i hi).2.2
    have h2 := (key_s16_spec j hj).2.2
    rw [← h1, ← h2, hkey]
  · intro count hcount
    have hkeys : (cxx_map_s16_insert count).map MapCall.key
        = (List.range count).map key_s16 := by
      unfold cxx_map_s16_insert
      rw [forLoop_singleton, List.map_map]
      exact List.map_congr_left (fun i _ => by rw [Function.comp_apply, MapCall.key])
    have hasc : ((List.range count).map key_s16).Pairwise
        (fun a b => strLess a b = true) := by
      rw [List.pairwise_map]
      refine List.Pairwise.imp_of_mem ?_ (List.pairwise_lt_range count)
      intro a b _ hb hab
      exact key_s16_lt a b hab (by have := List.mem_range.1 hb; omega)
    have hnodup : ((List.range count).map key_s16).Nodup := by
      refine hasc.imp ?_
      intro a b hab heq
      subst heq
      have hirr : ∀ s : List Nat, strLess s s = false := by
        intro s
        induction s with
        | nil => rfl
        | cons c t ih => simp [strLess, ih]
      rw [hirr a] at hab
      exact Bool.noConfusion hab
    rw [hkeys]
    exact ⟨rfl, by simp, hasc, hnodup⟩


/-! ### `std::vector` and the vector benchmarks -/

namespace StdVector

variable {T : Type}

theorem vrun_append (v : StdVector T) (a b : List (VecCall T)) :
    run v (a ++ b) = (run v a).bind fun w => run w b := by
  induction a generalizing v with
  | nil => rfl
  | cons c cs ih =>
    simp only [List.cons_append, run]
    cases step v c with
    | none => rfl
    | some w => exact ih w

theorem run_push (l : List T) :
    ∀ v : StdVector T, run v (l.map VecCall.push_back) = some (v ++ l) := by
  induction l with
  | nil => intro v; simp [run]
  | cons x xs ih =>
    intro v
    simp only [List.map_cons, run, step, Option.some_bind, ih]
    simp

theorem run_at_loop (v : StdVector T) :
    ∀ n : Nat, n ≤ v.length → run v (forLoop n fun i => [VecCall.at i]) = some v
  | 0, _ => rfl
  | n + 1, h => by
    rw [forLoop, vrun_append, run_at_loop v n (by omega)]
    have hn : n < v.length := by omega
    simp [run, step, hn]

theorem run_read (v : StdVector T) (n : Nat) (h : n ≤ v.length) :
    ∀ r : Nat, run v (forLoop r fun _ => forLoop n fun i => [VecCall.at i]) = some v
  | 0 => rfl
  | r + 1 => by
    rw [forLoop, vrun_append, run_read v n h r]
    exact run_at_loop v n h

theorem run_pops (v : StdVector T) :
    ∀ j : Nat, j ≤ v.length →
      run v (forLoop j fun _ => [VecCall.pop_back]) = some (v.take (v.length - j))
  | 0, _ => by simp [forLoop, run]
  | j + 1, h => by
    rw [forLoop, vrun_append, run_pops v j (by omega)]
    have hlen : 0 < (v.take (v.length - j)).length := by
      rw [List.length_take]; omega
    simp only [Option.some_bind, run, step, if_pos hlen]
    rw [List.dropLast_eq_take, List.take_take, List.length_take]
    congr 2
    omega

end StdVector

/-- C6: for every `count`, `read_ntimes` and element type `T` (with its cast
`(T)i`), in `cxx_vector<T>`: after the push loop the vector has length
`count`; every `at(i)` of the read loops has `i` below that length and the
read loops run without an out-of-range access; with `delete_all` the length
before the `j`-th pop is `count - j > 0`, so every pop is applied to a
non-empty vector, and the final length is 0. `libsrt_vector_i` issues the
same sequence of push / at / pop operations (around one allocation and one
release). -/
theorem cxx_vector_in_range {T : Type} (cast : Nat → T) (count read_ntimes : Nat) :
    StdVector.run [] (cxx_vector_push cast count) = some ((List.range count).map cast) ∧
    ((List.range count).map cast).length = count ∧
    (∀ c ∈ (cxx_vector_read count read_ntimes : List (VecCall T)),
      ∃ i, c = VecCall.at i ∧ i < ((List.range count).map cast).length) ∧
    StdVector.run ((List.range count).map cast) (cxx_vector_read count read_ntimes)
      = some ((List.range count).map cast) ∧
    (∀ j : Nat, j < count → ∃ w : StdVector T,
      StdVector.run ((List.range count).map cast) (cxx_vector_pops j) = some w ∧
      w.length = count - j ∧ 0 < w.length) ∧
    StdVector.run [] (cxx_vector cast count read_ntimes true) = some [] ∧
    StdVector.run [] (cxx_vector cast count read_ntimes false)
      = some ((List.range count).map cast) ∧
    (∀ (t : eSV_Type) (delete_all : Bool),
      (libsrt_vector_i t count read_ntimes delete_all).filterMap SvCall.op
        = (cxx_vector cast count read_ntimes delete_all).map VecCall.op) := by
  have hlen : ((List.range count).map cast).length = count := by simp
  have hpush : StdVector.run [] (cxx_vector_push cast count)
      = some ((List.range count).map cast) := by
    unfold cxx_vector_push
    have hmap : (List.range count).map (fun i => VecCall.push_back (cast i))
        = ((List.range count).map cast).map VecCall.push_back := by
      rw [List.map_map]
      exact List.map_congr_left (fun i _ => rfl)
    rw [forLoop_singleton, hmap, StdVector.run_push]
    rfl
  have hread : StdVector.run ((List.range count).map cast)
      (cxx_vector_read count read_ntimes) = some ((List.range count).map cast) :=
    StdVector.run_read _ count (by rw [hlen]) read_ntimes
  have hpops : ∀ j : Nat, j ≤ count →
      StdVector.run ((List.range count).map cast) (cxx_vector_pops j)
        = some (((List.range count).map cast).take (count - j)) := by
    intro j hj
    have := StdVector.run_pops ((List.range count).map cast) j (by rw [hlen]; exact hj)
    rw [hlen] at this
    exact this
  refine ⟨hpush, hlen, ?_, hread, ?_, ?_, ?_, ?_⟩
  · intro c hc
    obtain ⟨j, _, hcj⟩ := (mem_forLoop _ c read_ntimes).1 hc
    obtain ⟨i, hi, hci⟩ := (mem_forLoop _ c count).1 hcj
    rw [List.mem_singleton] at hci
    exact ⟨i, hci, by rw [hlen]; exact hi⟩
  · intro j hj
    refine ⟨_, hpops j (by omega), ?_, ?_⟩
    · rw [List.length_take, hlen]; omega
    · rw [List.length_take, hlen]; omega
  · unfold cxx_vector cxx_vector_pop
    rw [if_pos rfl, StdVector.vrun_append, StdVector.vrun_append, hpush, Option.some_bind,
      hread, Option.some_bind, hpops count (le_refl _), Nat.sub_self, List.take_zero]
  · unfold cxx_vector cxx_vector_pop
    rw [if_neg (by decide), List.append_nil, StdVector.vrun_append, hpush, Option.some_bind,
      hread]
  · intro t delete_all
    have hshape : ∀ (n : Nat) (f : Nat → List SvCall) (g : Nat → List (VecCall T)),
        (∀ i, (f i).filterMap SvCall.op = (g i).map VecCall.op) →
        (forLoop n f).filterMap SvCall.op = (forLoop n g).map VecCall.op := by
      intro n f g hfg
      induction n with
      | zero => rfl
      | succ n ih => rw [forLoop, forLoop, List.filterMap_append, List.map_append, ih, hfg]
    have h1 : (forLoop count fun i => [SvCall.sv_push_i (toInt32 (i : Int))]).filterMap SvCall.op
        = (forLoop count fun i => [VecCall.push_back (cast i)]).map VecCall.op :=
      hshape count _ _ (fun i => rfl)
    have h2 : (forLoop read_ntimes fun _ =>
          forLoop count fun i => [SvCall.sv_at_i i]).filterMap SvCall.op
        = (forLoop read_ntimes fun _ =>
          forLoop count fun i => [(VecCall.at i : VecCall T)]).map VecCall.op :=
      hshape read_ntimes _ _ (fun _ => hshape count _ _ (fun i => rfl))
    have h3 : (forLoop count fun _ => [SvCall.sv_pop_i]).filterMap SvCall.op
        = (forLoop count fun _ => [(VecCall.pop_back : VecCall T)]).map VecCall.op :=
      hshape count _ _ (fun i => rfl)
    unfold libsrt_vector_i cxx_vector cxx_vector_push cxx_vector_read cxx_vector_pop
      cxx_vector_pops
    simp only [List.filterMap_append, List.map_append]
    rw [h1, h2]
    cases delete_all with
    | false => simp [SvCall.op]
    | true =>
      simp only [if_true]
      rw [h3]
      simp [SvCall.op]

/-! ### The integer set benchmark and the vector tags -/

/-- C9 (the code departs from the claim): `libsrt_set_i64` inserts through
`sms_insert_i32`, the inserter with a 32-bit key, into the set it allocated
with `SMS_I`. Already `libsrt_set_i64(1, 0, false)` is the calls
`sms_alloc(SMS_I, 0)`, `sms_insert_i32(&m, 0)`, `sms_free(&m)`. With
`count = 2147483649` the iteration `i = 2147483648` inserts the key
`-2147483648`, while the same function looks up and deletes `2147483648` and
`cxx_set_i64` inserts `2147483648`. -/
theorem libsrt_set_i64_inserts_int32_key :
    libsrt_set_i64 1 0 false
      = [SmsCall.sms_alloc .SMS_I 0, SmsCall.sms_insert_i32 0, SmsCall.sms_free] ∧
    SmsCall.sms_insert_i32 (toInt64 (2147483648 : Nat)) ∈ libsrt_set_i64 2147483649 1 true ∧
    SmsCall.insertKey (SmsCall.sms_insert_i32 (toInt64 (2147483648 : Nat)))
      = some (-2147483648) ∧
    SmsCall.sms_count_i (toInt64 (2147483648 : Nat)) ∈ libsrt_set_i64 2147483649 1 true ∧
    SmsCall.lookupKey (SmsCall.sms_count_i (toInt64 (2147483648 : Nat)))
      = some 2147483648 ∧
    SmsCall.sms_delete_i (toInt64 (2147483648 : Nat)) ∈ libsrt_set_i64 2147483649 1 true ∧
    SmsCall.deleteKey (SmsCall.sms_delete_i (toInt64 (2147483648 : Nat)))
      = some 2147483648 ∧
    SetCall.insert (toInt64 (2147483648 : Nat)) ∈ cxx_set_i64 2147483649 1 true ∧
    SetCall.insertKey (SetCall.insert (toInt64 (2147483648 : Nat))) = some 2147483648 := by
  have hlt : 2147483648 < 2147483649 := by norm_num
  refine ⟨by decide, ?_, by decide, ?_, by decide, ?_, by decide, ?_, by decide⟩
  · unfold libsrt_set_i64
    simp only [List.mem_append]
    exact Or.inl (Or.inl (Or.inl (Or.inr
      ((mem_forLoop _ _ _).2 ⟨2147483648, hlt, List.mem_singleton.2 rfl⟩))))
  · unfold libsrt_set_i64
    simp only [List.mem_append]
    exact Or.inl (Or.inl (Or.inr
      ((mem_forLoop _ _ _).2 ⟨0, by norm_num,
        (mem_forLoop _ _ _).2 ⟨2147483648, hlt, List.mem_singleton.2 rfl⟩⟩)))
  · unfold libsrt_set_i64
    simp only [List.mem_append, if_true]
    exact Or.inl (Or.inr
      ((mem_forLoop _ _ _).2 ⟨2147483648, hlt, List.mem_singleton.2 rfl⟩))
  · unfold cxx_set_i64
    simp only [List.mem_append]
    exact Or.inl (Or.inl
      ((mem_forLoop _ _ _).2 ⟨2147483648, hlt, List.mem_singleton.2 rfl⟩))

/-- C10 (the code departs from the claim): `libsrt_vector_i8` calls
`libsrt_vector_i` with the tag `SV_I32`, not `SV_I8`: it allocates a vector
of 32-bit elements, while its counterpart `cxx_vector_i8` instantiates
`cxx_vector<int8_t>`, 8-bit elements. The other three wrappers pass the tag
of their own width. -/
theorem libsrt_vector_i8_uses_SV_I32 :
    (∀ count read_ntimes delete_all,
      libsrt_vector_i8 count read_ntimes delete_all
        = libsrt_vector_i .SV_I32 count read_ntimes delete_all) ∧
    (∀ count read_ntimes delete_all,
      (libsrt_vector_i8 count read_ntimes delete_all).head?
        = some (SvCall.sv_alloc_t .SV_I32 0)) ∧
    libsrt_vector_i8 1 0 false
      = [SvCall.sv_alloc_t .SV_I32 0, SvCall.sv_push_i 0, SvCall.sv_free] ∧
    eSV_Type.SV_I32.bits = 32 ∧ cxx_vector_i8_type.bits = 8 ∧
    (∀ count read_ntimes delete_all,
      (libsrt_vector_i16 count read_ntimes delete_all).head?
        = some (SvCall.sv_alloc_t .SV_I16 0) ∧
      (libsrt_vector_i32 count read_ntimes delete_all).head?
        = some (SvCall.sv_alloc_t .SV_I32 0) ∧
      (libsrt_vector_i64 count read_ntimes delete_all).head?
        = some (SvCall.sv_alloc_t .SV_I64 0)) ∧
    cxx_vector_i16_type.bits = 16 ∧ cxx_vector_i32_type.bits = 32 ∧
    cxx_vector_i64_type.bits = 64 := by
  refine ⟨fun _ _ _ => rfl, fun _ _ _ => ?_, by decide, rfl, rfl, fun _ _ _ => ⟨?_, ?_, ?_⟩,
    rfl, rfl, rfl⟩
  all_goals
    simp only [libsrt_vector_i8, libsrt_vector_i16, libsrt_vector_i32, libsrt_vector_i64,
      libsrt_vector_i, List.singleton_append, List.cons_append, List.head?_cons]


/-! ### The integer workloads of the library and of the standard containers -/

theorem toInt32_toInt32 (x : Int) : toInt32 (toInt32 x) = toInt32 x := by
  unfold toInt32
  omega

theorem toInt64_toInt64 (x : Int) : toInt64 (toInt64 x) = toInt64 x := by
  unfold toInt64
  omega

theorem toInt64_toInt32 (x : Int) : toInt64 (toInt32 x) = toInt32 x := by
  unfold toInt64 toInt32
  omega

theorem filterMap_forLoop {α β : Type} (f : α → Option β) (body : Nat → List α) :
    ∀ n : Nat, (forLoop n body).filterMap f = forLoop n fun i => (body i).filterMap f
  | 0 => rfl
  | n + 1 => by rw [forLoop, forLoop, List.filterMap_append, filterMap_forLoop f body n]

theorem forLoop_nil {α : Type} : ∀ n : Nat, forLoop n (fun _ => ([] : List α)) = []
  | 0 => rfl
  | n + 1 => by rw [forLoop, forLoop_nil n, List.append_nil]

/-- The pairs `map_ii32`, `map_ii64` and `set_i32` issue the same integer
workload in the library and in the standard-container variant: the keys
inserted, the keys looked up and the keys deleted are the same lists. For
`set_i64` the keys looked up and deleted are the same. -/
theorem int_workloads_agree (count read_ntimes : Nat) (delete_all : Bool) :
    ((libsrt_map_ii32 count read_ntimes delete_all).filterMap SmCall.insertKey
        = (cxx_map_ii32 count read_ntimes delete_all).filterMap MapCall.insertKey ∧
      (libsrt_map_ii32 count read_ntimes delete_all).filterMap SmCall.lookupKey
        = (cxx_map_ii32 count read_ntimes delete_all).filterMap MapCall.lookupKey ∧
      (libsrt_map_ii32 count read_ntimes delete_all).filterMap SmCall.deleteKey
        = (cxx_map_ii32 count read_ntimes delete_all).filterMap MapCall.deleteKey) ∧
    ((libsrt_map_ii64 count read_ntimes delete_all).filterMap SmCall.insertKey
        = (cxx_map_ii64 count read_ntimes delete_all).filterMap MapCall.insertKey ∧
      (libsrt_map_ii64 count read_ntimes delete_all).filterMap SmCall.lookupKey
        = (cxx_map_ii64 count read_ntimes delete_all).filterMap MapCall.lookupKey ∧
      (libsrt_map_ii64 count read_ntimes delete_all).filterMap SmCall.deleteKey
        = (cxx_map_ii64 count read_ntimes delete_all).filterMap MapCall.deleteKey) ∧
    ((libsrt_set_i32 count read_ntimes delete_all).filterMap SmsCall.insertKey
        = (cxx_set_i32 count read_ntimes delete_all).filterMap SetCall.insertKey ∧
      (libsrt_set_i32 count read_ntimes delete_all).filterMap SmsCall.lookupKey
        = (cxx_set_i32 count read_ntimes delete_all).filterMap SetCall.lookupKey ∧
      (libsrt_set_i32 count read_ntimes delete_all).filterMap SmsCall.deleteKey
        = (cxx_set_i32 count read_ntimes delete_all).filterMap SetCall.deleteKey) ∧
    ((libsrt_set_i64 count read_ntimes delete_all).filterMap SmsCall.lookupKey
        = (cxx_set_i64 count read_ntimes delete_all).filterMap SetCall.lookupKey ∧
      (libsrt_set_i64 count read_ntimes delete_all).filterMap SmsCall.deleteKey
        = (cxx_set_i64 count read_ntimes delete_all).filterMap SetCall.deleteKey) := by
  cases delete_all <;>
    simp [libsrt_map_ii32, cxx_map_ii32, cxx_map_ii32_insert, cxx_map_ii32_read,
      cxx_map_ii32_delete, libsrt_map_ii64, cxx_map_ii64, libsrt_set_i32, cxx_set_i32,
      libsrt_set_i64, cxx_set_i64, List.filterMap_append, filterMap_forLoop, forLoop_nil,
      SmCall.insertKey, SmCall.lookupKey, SmCall.deleteKey, SmsCall.insertKey,
      SmsCall.lookupKey, SmsCall.deleteKey, MapCall.insertKey, MapCall.lookupKey,
      MapCall.deleteKey, SetCall.insertKey, SetCall.lookupKey, SetCall.deleteKey,
      toInt32_toInt32, toInt64_toInt64, toInt64_toInt32]


/-! ### The ordered map: balance, key order and lookup -/

namespace SmTree

theorem invc_paint_black (t : SmTree) (h : invc t) : invc (paint .black t) := by
  cases t with
  | nil => trivial
  | node c l a va r =>
    simp_all [paint, invc]

theorem color_paint_black (t : SmTree) : (paint .black t).color = .black := by
  cases t <;> rfl

theorem invh_paint (c : Color) (t : SmTree) (h : invh t) : invh (paint c t) := by
  cases t with
  | nil => trivial
  | node _ l a va r => exact h

theorem keys_paint (c : Color) (t : SmTree) : keys (paint c t) = keys t := by
  cases t <;> rfl

theorem invc_baliL (l : SmTree) (a va : Int) (r : SmTree)
    (hl : invc (paint .black l)) (hr : invc r) : invc (baliL l a va r) := by
  rcases l with _ | ⟨_ | _, (_ | ⟨_ | _, _, _, _, _⟩), _, _, (_ | ⟨_ | _, _, _, _, _⟩)⟩ <;>
    simp_all [baliL, invc, color, paint]

theorem invc_baliR (l : SmTree) (a va : Int) (r : SmTree)
    (hl : invc l) (hr : invc (paint .black r)) : invc (baliR l a va r) := by
  rcases r with _ | ⟨_ | _, (_ | ⟨_ | _, _, _, _, _⟩), _, _, (_ | ⟨_ | _, _, _, _, _⟩)⟩ <;>
    simp_all [baliR, invc, color, paint]

theorem bheight_baliL (l : SmTree) (a va : Int) (r : SmTree)
    (h : bheight l = bheight r) : bheight (baliL l a va r) = bheight l + 1 := by
  rcases l with _ | ⟨_ | _, (_ | ⟨_ | _, _, _, _, _⟩), _, _, (_ | ⟨_ | _, _, _, _, _⟩)⟩ <;>
    simp_all [baliL, bheight]

theorem bheight_baliR (l : SmTree) (a va : Int) (r : SmTree)
    (h : bheight l = bheight r) : bheight (baliR l a va r) = bheight l + 1 := by
  rcases r with _ | ⟨_ | _, (_ | ⟨_ | _, _, _, _, _⟩), _, _, (_ | ⟨_ | _, _, _, _, _⟩)⟩ <;>
    simp_all [baliR, bheight]

theorem invh_baliL (l : SmTree) (a va : Int) (r : SmTree)
    (hl : invh l) (hr : invh r) (h : bheight l = bheight r) : invh (baliL l a va r) := by
  rcases l with _ | ⟨_ | _, (_ | ⟨_ | _, _, _, _, _⟩), _, _, (_ | ⟨_ | _, _, _, _, _⟩)⟩ <;>
    simp_all [baliL, invh, bheight] <;> omega

theorem invh_baliR (l : SmTree) (a va : Int) (r : SmTree)
    (hl : invh l) (hr : invh r) (h : bheight l = bheight r) : invh (baliR l a va r) := by
  rcases r with _ | ⟨_ | _, (_ | ⟨_ | _, _, _, _, _⟩), _, _, (_ | ⟨_ | _, _, _, _, _⟩)⟩ <;>
    simp_all [baliR, invh, bheight] <;> omega

theorem invc_ins (k v : Int) (t : SmTree) (h : invc t) :
    invc (paint .black (ins k v t)) ∧ (t.color = .black → invc (ins k v t)) := by
  induction t with
  | nil => simp [ins, paint, invc, color]
  | node c l a va r ihl ihr =>
    obtain ⟨hc, hl, hr⟩ := h
    cases c with
    | black =>
      have key : invc (ins k v (node .black l a va r)) := by
        simp only [ins]
        split_ifs
        · exact invc_baliL _ _ _ _ (ihl hl).1 hr
        · exact invc_baliR _ _ _ _ hl (ihr hr).1
        · simp [invc, hl, hr]
      exact ⟨invc_paint_black _ key, fun _ => key⟩
    | red =>
      obtain ⟨hlc, hrc⟩ := hc rfl
      refine ⟨?_, fun hcol => by cases hcol⟩
      simp only [ins]
      split_ifs
      · simp [paint, invc, (ihl hl).2 hlc, hr]
      · simp [paint, invc, hl, (ihr hr).2 hrc]
      · simp [paint, invc, hl, hr]

theorem invh_ins (k v : Int) (t : SmTree) (h : invh t) :
    invh (ins k v t) ∧ bheight (ins k v t) = bheight t := by
  induction t with
  | nil => simp [ins, invh, bheight]
  | node c l a va r ihl ihr =>
    obtain ⟨hb, hl, hr⟩ := h
    obtain ⟨ihl1, ihl2⟩ := ihl hl
    obtain ⟨ihr1, ihr2⟩ := ihr hr
    cases c with
    | black =>
      simp only [ins]
      split_ifs
      · exact ⟨invh_baliL _ _ _ _ ihl1 hr (by omega),
          by rw [bheight_baliL _ _ _ _ (by omega)]; simp [bheight]; omega⟩
      · exact ⟨invh_baliR _ _ _ _ hl ihr1 (by omega),
          by rw [bheight_baliR _ _ _ _ (by omega)]; simp [bheight]⟩
      · exact ⟨⟨hb, hl, hr⟩, by simp [bheight]⟩
    | red =>
      simp only [ins]
      split_ifs
      · exact ⟨⟨by omega, ihl1, hr⟩, by simp [bheight]; try omega⟩
      · exact ⟨⟨by omega, hl, ihr1⟩, by simp [bheight]⟩
      · exact ⟨⟨hb, hl, hr⟩, by simp [bheight]⟩

theorem baldL_red (t1 : SmTree) (a va : Int) (t2 : SmTree) (b vb : Int) (t3 : SmTree) :
    baldL (node .red t1 a va t2) b vb t3 = node .red (node .black t1 a va t2) b vb t3 := by
  simp [baldL]

theorem baldL_black_black (l : SmTree) (a va : Int) (t2 : SmTree) (b vb : Int) (t3 : SmTree)
    (h : l.color = .black) :
    baldL l a va (node .black t2 b vb t3) = baliR l a va (node .red t2 b vb t3) := by
  rcases l with _ | ⟨_ | _, _, _, _, _⟩ <;> simp_all [baldL, color]

theorem baldL_black_red (l : SmTree) (a va : Int) (t2 : SmTree) (b vb : Int) (t3 : SmTree)
    (c vc : Int) (t4 : SmTree) (h : l.color = .black) :
    baldL l a va (node .red (node .black t2 b vb t3) c vc t4)
      = node .red (node .black l a va t2) b vb (baliR t3 c vc (paint .red t4)) := by
  rcases l with _ | ⟨_ | _, _, _, _, _⟩ <;> simp_all [baldL, color]

theorem baldR_red (t1 : SmTree) (a va : Int) (t2 : SmTree) (b vb : Int) (t3 : SmTree) :
    baldR t1 a va (node .red t2 b vb t3) = node .red t1 a va (node .black t2 b vb t3) := by
  simp [baldR]

theorem baldR_black_black (t1 : SmTree) (a va : Int) (t2 : SmTree) (b vb : Int) (r : SmTree)
    (h : r.color = .black) :
    baldR (node .black t1 a va t2) b vb r = baliL (node .red t1 a va t2) b vb r := by
  rcases r with _ | ⟨_ | _, _, _, _, _⟩ <;> simp_all [baldR, color]

theorem baldR_red_black (t1 : SmTree) (a va : Int) (t2 : SmTree) (b vb : Int) (t3 : SmTree)
    (c vc : Int) (r : SmTree) (h : r.color = .black) :
    baldR (node .red t1 a va (node .black t2 b vb t3)) c vc r
      = node .red (baliL (paint .red t1) a va t2) b vb (node .black t3 c vc r) := by
  rcases r with _ | ⟨_ | _, _, _, _, _⟩ <;> simp_all [baldR, color]

theorem invh_baldL_of_black (l : SmTree) (a va : Int) (r : SmTree) (hlc : l.color = .black)
    (hl : invh l) (hr : invh r) (hb : bheight l + 1 = bheight r) (hc : invc r) :
    invh (baldL l a va r) ∧ bheight (baldL l a va r) = bheight r := by
  rcases r with _ | ⟨_ | _, rl, c, vc, rr⟩
  · simp [bheight] at hb
  · rcases rl with _ | ⟨_ | _, t2, b, vb, t3⟩
    · simp [bheight] at hb
    · simp [invc, color] at hc
    · rw [baldL_black_red _ _ _ _ _ _ _ _ _ _ hlc]
      rcases rr with _ | ⟨_ | _, r1, d, vd, r2⟩
      · simp [invh, bheight] at hr
      · simp [invc, color] at hc
      · simp only [invh, bheight, if_true, if_false, reduceCtorEq] at hr hb
        obtain ⟨h1, ⟨h2, h3, h4⟩, h5, h6, h7⟩ := hr
        have hbr : bheight t3 = bheight (node .red r1 d vd r2) := by
          simp [bheight]; omega
        have hir : invh (node .red r1 d vd r2) := ⟨h5, h6, h7⟩
        have hi := invh_baliR t3 c vc _ h4 hir hbr
        have hh := bheight_baliR t3 c vc _ hbr
        simp only [paint, invh, bheight, if_true, if_false, reduceCtorEq]
        exact ⟨⟨by omega, ⟨by omega, hl, h3⟩, hi⟩, by omega⟩
  · rw [baldL_black_black _ _ _ _ _ _ _ hlc]
    simp only [invh, bheight, if_true] at hr hb
    obtain ⟨h1, h2, h3⟩ := hr
    have hbr : bheight l = bheight (node .red rl c vc rr) := by
      simp [bheight]; omega
    have hir : invh (node .red rl c vc rr) := ⟨h1, h2, h3⟩
    refine ⟨invh_baliR l a va _ hl hir hbr, ?_⟩
    rw [bheight_baliR l a va _ hbr]
    simp [bheight]; omega

theorem invh_baldL (l : SmTree) (a va : Int) (r : SmTree)
    (hl : invh l) (hr : invh r) (hb : bheight l + 1 = bheight r) (hc : invc r) :
    invh (baldL l a va r) ∧ bheight (baldL l a va r) = bheight r := by
  rcases l with _ | ⟨_ | _, l1, la, lva, l2⟩
  · exact invh_baldL_of_black _ a va r rfl hl hr hb hc
  · rw [baldL_red]
    simp only [invh, bheight, if_true, if_false, reduceCtorEq] at hl hb ⊢
    exact ⟨⟨by omega, hl, hr⟩, by omega⟩
  · exact invh_baldL_of_black _ a va r rfl hl hr hb hc

theorem invh_baldR_of_black (l : SmTree) (a va : Int) (r : SmTree) (hrc : r.color = .black)
    (hl : invh l) (hr : invh r) (hb : bheight l = bheight r + 1) (hc : invc l) :
    invh (baldR l a va r) ∧ bheight (baldR l a va r) = bheight l := by
  rcases l with _ | ⟨_ | _, ll, c, vc, lr⟩
  · simp [bheight] at hb
  · rcases lr with _ | ⟨_ | _, t2, b, vb, t3⟩
    · simp [invh, bheight] at hl hb
      omega
    · simp [invc, color] at hc
    · rw [baldR_red_black _ _ _ _ _ _ _ _ _ _ hrc]
      rcases ll with _ | ⟨_ | _, r1, d, vd, r2⟩
      · simp [invh, bheight] at hl
      · simp [invc, color] at hc
      · simp only [invh, bheight, if_true, if_false, reduceCtorEq] at hl hb
        obtain ⟨h1, ⟨h2, h3, h4⟩, h5, h6, h7⟩ := hl
        have hbr : bheight (node .red r1 d vd r2) = bheight t2 := by
          simp [bheight]; omega
        have hir : invh (node .red r1 d vd r2) := ⟨h2, h3, h4⟩
        have hi := invh_baliL _ c vc t2 hir h6 hbr
        have hh := bheight_baliL _ c vc t2 hbr
        simp only [bheight, if_false, reduceCtorEq] at hh
        simp only [paint, invh, bheight, if_true, if_false, reduceCtorEq]
        exact ⟨⟨by omega, hi, by omega, h7, hr⟩, by omega⟩
  · rw [baldR_black_black _ _ _ _ _ _ _ hrc]
    simp only [invh, bheight, if_true] at hl hb
    obtain ⟨h1, h2, h3⟩ := hl
    have hbr : bheight (node .red ll c vc lr) = bheight r := by
      simp [bheight]; omega
    have hir : invh (node .red ll c vc lr) := ⟨h1, h2, h3⟩
    refine ⟨invh_baliL _ a va r hir hr hbr, ?_⟩
    rw [bheight_baliL _ a va r hbr]
    simp [bheight]

theorem invh_baldR (l : SmTree) (a va : Int) (r : SmTree)
    (hl : invh l) (hr : invh r) (hb : bheight l = bheight r + 1) (hc : invc l) :
    invh (baldR l a va r) ∧ bheight (baldR l a va r) = bheight l := by
  rcases r with _ | ⟨_ | _, r1, ra, rva, r2⟩
  · exact invh_baldR_of_black l a va _ rfl hl hr hb hc
  · rw [baldR_red]
    simp only [invh, bheight, if_true, if_false, reduceCtorEq] at hr hb ⊢
    exact ⟨⟨by omega, hl, hr⟩, trivial⟩
  · exact invh_baldR_of_black l a va _ rfl hl hr hb hc

theorem invc_baldL (l : SmTree) (a va : Int) (r : SmTree)
    (hl : invc (paint .black l)) (hr : invc r) (hrc : r.color = .black) :
    invc (baldL l a va r) := by
  rcases l with _ | ⟨_ | _, l1, la, lva, l2⟩ <;>
  rcases r with _ | ⟨_ | _, rl, c, vc, rr⟩ <;>
  simp_all [baldL, invc, color, paint] <;>
  (apply invc_baliR <;> simp_all [invc, color, paint])

theorem paint_paint (c c' : Color) (t : SmTree) : paint c (paint c' t) = paint c t := by
  cases t <;> rfl

theorem invc_of_paint_black (t : SmTree) (hc : t.color = .black)
    (h : invc (paint .black t)) : invc t := by
  rcases t with _ | ⟨_ | _, l, a, va, r⟩
  · trivial
  · simp [color] at hc
  · exact h

theorem invc2_baldL_of_black (l : SmTree) (a va : Int) (r : SmTree) (hlc : l.color = .black)
    (hl : invc l) (hr : invc r) : invc (paint .black (baldL l a va r)) := by
  rcases r with _ | ⟨_ | _, rl, c, vc, rr⟩
  · have heq : baldL l a va nil = node .red l a va nil := by
      rcases l with _ | ⟨_ | _, _, _, _, _⟩ <;> simp_all [baldL, color]
    rw [heq]
    simp [paint, invc, hl]
  · rcases rl with _ | ⟨_ | _, t2, b, vb, t3⟩
    · have heq : baldL l a va (node .red nil c vc rr) = node .red l a va (node .red nil c vc rr) := by
        rcases l with _ | ⟨_ | _, _, _, _, _⟩ <;> simp_all [baldL, color]
      rw [heq]
      simp_all [paint, invc, color]
    · simp [invc, color] at hr
    · rw [baldL_black_red _ _ _ _ _ _ _ _ _ _ hlc]
      simp only [invc, color] at hr
      obtain ⟨hcol, ⟨_, h2, h3⟩, h4⟩ := hr
      have hb : invc (baliR t3 c vc (paint .red rr)) :=
        invc_baliR _ _ _ _ h3 (by rw [paint_paint]; exact invc_paint_black _ h4)
      simp_all [paint, invc, color]
  · rw [baldL_black_black _ _ _ _ _ _ _ hlc]
    apply invc_paint_black
    apply invc_baliR _ _ _ _ hl
    simp_all [paint, invc, color]

theorem invc2_baldL (l : SmTree) (a va : Int) (r : SmTree)
    (hl : invc (paint .black l)) (hr : invc r) :
    invc (paint .black (baldL l a va r)) := by
  rcases l with _ | ⟨_ | _, l1, la, lva, l2⟩
  · exact invc2_baldL_of_black _ a va r rfl trivial hr
  · rw [baldL_red]
    simp_all [paint, invc, color]
  · exact invc2_baldL_of_black _ a va r rfl hl hr

theorem invc_baldR (l : SmTree) (a va : Int) (r : SmTree)
    (hl : invc l) (hr : invc (paint .black r)) (hlc : l.color = .black) :
    invc (baldR l a va r) := by
  rcases r with _ | ⟨_ | _, r1, ra, rva, r2⟩ <;>
  rcases l with _ | ⟨_ | _, ll, c, vc, lr⟩ <;>
  simp_all [baldR, invc, color, paint] <;>
  (apply invc_baliL <;> simp_all [invc, color, paint])

theorem invc2_baldR_of_black (l : SmTree) (a va : Int) (r : SmTree) (hrc : r.color = .black)
    (hl : invc l) (hr : invc r) : invc (paint .black (baldR l a va r)) := by
  rcases l with _ | ⟨_ | _, ll, c, vc, lr⟩
  · have heq : baldR nil a va r = node .red nil a va r := by
      rcases r with _ | ⟨_ | _, _, _, _, _⟩ <;> simp_all [baldR, color]
    rw [heq]
    simp [paint, invc, hr]
  · rcases lr with _ | ⟨_ | _, t2, b, vb, t3⟩
    · have heq : baldR (node .red ll c vc nil) a va r = node .red (node .red ll c vc nil) a va r := by
        rcases r with _ | ⟨_ | _, _, _, _, _⟩ <;> simp_all [baldR, color]
      rw [heq]
      simp_all [paint, invc, color]
    · simp [invc, color] at hl
    · rw [baldR_red_black _ _ _ _ _ _ _ _ _ _ hrc]
      simp only [invc, color] at hl
      obtain ⟨hcol, h1, _, h3, h4⟩ := hl
      have hb : invc (baliL (paint .red ll) c vc t2) :=
        invc_baliL _ _ _ _ (by rw [paint_paint]; exact invc_paint_black _ h1) h3
      simp_all [paint, invc, color]
  · rw [baldR_black_black _ _ _ _ _ _ _ hrc]
    apply invc_paint_black
    apply invc_baliL _ _ _ _ _ hr
    simp_all [paint, invc, color]

theorem invc2_baldR (l : SmTree) (a va : Int) (r : SmTree)
    (hl : invc l) (hr : invc (paint .black r)) :
    invc (paint .black (baldR l a va r)) := by
  rcases r with _ | ⟨_ | _, r1, ra, rva, r2⟩
  · exact invc2_baldR_of_black l a va _ rfl hl trivial
  · rw [baldR_red]
    simp_all [paint, invc, color]
  · exact invc2_baldR_of_black l a va _ rfl hl hr

theorem splitMin_eq_none (t : SmTree) : splitMin t = none ↔ t = nil := by
  cases t with
  | nil => simp [splitMin]
  | node c l a va r =>
    simp only [splitMin]
    cases splitMin l with
    | none => simp
    | some p => obtain ⟨x, vx, l'⟩ := p; simp

theorem bheight_pos_of_black (t : SmTree) (hn : t ≠ nil) (hc : t.color = .black) :
    0 < bheight t := by
  rcases t with _ | ⟨_ | _, l, a, va, r⟩
  · exact absurd rfl hn
  · simp [color] at hc
  · simp [bheight]

/-- The step shared by `splitMin` and `del` on the left: the left subtree `l`
of a node was replaced by `l'`. -/
theorem delInv_left (c : Color) (l : SmTree) (a va : Int) (r l' : SmTree) (b vb : Int)
    (hh : invh (node c l a va r)) (hc : invc (node c l a va r)) (hne : l ≠ nil)
    (ih : delInv l l') :
    delInv (node c l a va r)
      (if l.color = .black then baldL l' b vb r else node .red l' b vb r) := by
  obtain ⟨hbh, hl, hr⟩ := hh
  obtain ⟨hcol, hcl, hcr⟩ := hc
  obtain ⟨ih1, ih2, ih3⟩ := ih
  by_cases hlc : l.color = .black
  · rw [if_pos hlc]
    obtain ⟨ihb, ihc⟩ := ih3 hlc
    have hpos := bheight_pos_of_black l hne hlc
    obtain ⟨k1, k2⟩ := invh_baldL l' b vb r ih1 hr (by omega) hcr
    refine ⟨k1, ?_, ?_⟩
    · intro hred
      simp only [color] at hred
      subst hred
      refine ⟨by simp [bheight]; try omega, invc_baldL _ _ _ _ ihc hcr (hcol rfl).2⟩
    · intro hblack
      simp only [color] at hblack
      subst hblack
      exact ⟨by simp [bheight]; try omega, invc2_baldL _ _ _ _ ihc hcr⟩
  · rw [if_neg hlc]
    have hlred : l.color = .red := by
      cases h : l.color with
      | red => rfl
      | black => exact absurd h hlc
    obtain ⟨ihb, ihc⟩ := ih2 hlred
    have hcb : c = .black := by
      cases c with
      | black => rfl
      | red => have := (hcol rfl).1; rw [hlred] at this; cases this
    subst hcb
    refine ⟨⟨by omega, ih1, hr⟩, fun h => by simp [color] at h, fun _ => ?_⟩
    refine ⟨by simp [bheight]; try omega, ?_⟩
    simp [paint, invc, ihc, hcr]

/-- The step shared by the deletion on the right: the right subtree `r` of a
node was replaced by `r'`. -/
theorem delInv_right (c : Color) (l : SmTree) (a va : Int) (r r' : SmTree) (b vb : Int)
    (hh : invh (node c l a va r)) (hc : invc (node c l a va r)) (hne : r ≠ nil)
    (ih : delInv r r') :
    delInv (node c l a va r)
      (if r.color = .black then baldR l b vb r' else node .red l b vb r') := by
  obtain ⟨hbh, hl, hr⟩ := hh
  obtain ⟨hcol, hcl, hcr⟩ := hc
  obtain ⟨ih1, ih2, ih3⟩ := ih
  by_cases hrc : r.color = .black
  · rw [if_pos hrc]
    obtain ⟨ihb, ihc⟩ := ih3 hrc
    have hpos := bheight_pos_of_black r hne hrc
    obtain ⟨k1, k2⟩ := invh_baldR l b vb r' hl ih1 (by omega) hcl
    refine ⟨k1, ?_, ?_⟩
    · intro hred
      simp only [color] at hred
      subst hred
      refine ⟨by simp [bheight]; try omega, invc_baldR _ _ _ _ hcl ihc (hcol rfl).1⟩
    · intro hblack
      simp only [color] at hblack
      subst hblack
      exact ⟨by simp [bheight]; try omega, invc2_baldR _ _ _ _ hcl ihc⟩
  · rw [if_neg hrc]
    have hrred : r.color = .red := by
      cases h : r.color with
      | red => rfl
      | black => exact absurd h hrc
    obtain ⟨ihb, ihc⟩ := ih2 hrred
    have hcb : c = .black := by
      cases c with
      | black => rfl
      | red => have := (hcol rfl).2; rw [hrred] at this; cases this
    subst hcb
    refine ⟨⟨by omega, hl, ih1⟩, fun h => by simp [color] at h, fun _ => ?_⟩
    refine ⟨by simp [bheight]; try omega, ?_⟩
    simp [paint, invc, ihc, hcl]

/-- A subtree replaced by nothing: the node had no left (or no right) child
and the other child `s` takes its place. -/
theorem delInv_leaf (c : Color) (l : SmTree) (a va : Int) (r s : SmTree)
    (hh : invh (node c l a va r)) (hc : invc (node c l a va r))
    (hs : (l = nil ∧ s = r) ∨ (r = nil ∧ s = l)) :
    delInv (node c l a va r) s := by
  obtain ⟨hbh, hl, hr⟩ := hh
  obtain ⟨hcol, hcl, hcr⟩ := hc
  have hs0 : invh s ∧ invc s ∧ bheight s = 0 ∧ bheight l = 0 ∧
      (c = .red → s.color = .black) := by
    rcases hs with ⟨h1, h2⟩ | ⟨h1, h2⟩
    · subst h1 h2
      simp only [bheight] at hbh
      exact ⟨hr, hcr, by omega, rfl, fun h => (hcol h).2⟩
    · subst h1 h2
      simp only [bheight] at hbh
      exact ⟨hl, hcl, by omega, by omega, fun h => (hcol h).1⟩
  obtain ⟨k1, k2, k3, k4, k5⟩ := hs0
  refine ⟨k1, ?_, ?_⟩
  · intro hred
    simp only [color] at hred
    subst hred
    exact ⟨by simp [bheight]; try omega, k2⟩
  · intro hblack
    simp only [color] at hblack
    subst hblack
    exact ⟨by simp [bheight]; try omega, invc_paint_black _ k2⟩

theorem delInv_splitMin (t : SmTree) :
    ∀ (x vx : Int) (t' : SmTree), splitMin t = some (x, vx, t') → invh t → invc t →
      delInv t t' := by
  induction t with
  | nil => intro x vx t' h; simp [splitMin] at h
  | node c l a va r ihl _ =>
    intro x vx t' h hh hc
    simp only [splitMin] at h
    cases hsl : splitMin l with
    | none =>
      rw [hsl] at h
      simp only [Option.some.injEq, Prod.mk.injEq] at h
      obtain ⟨_, _, rfl⟩ := h
      exact delInv_leaf c l a va r r hh hc (Or.inl ⟨(splitMin_eq_none l).1 hsl, rfl⟩)
    | some p =>
      obtain ⟨y, vy, l'⟩ := p
      rw [hsl] at h
      simp only [Option.some.injEq, Prod.mk.injEq] at h
      obtain ⟨_, _, rfl⟩ := h
      have hne : l ≠ nil := by
        intro hnil
        rw [hnil] at hsl
        simp [splitMin] at hsl
      exact delInv_left c l a va r l' a va hh hc hne (ihl y vy l' hsl hh.2.1 hc.2.1)

theorem delInv_repaint (c : Color) (l : SmTree) (a va : Int) (r : SmTree)
    (hh : invh (node c l a va r)) (hc : invc (node c l a va r)) :
    delInv (node c l a va r) (node .red l a va r) := by
  refine ⟨hh, ?_, ?_⟩
  · intro hred
    simp only [color] at hred
    subst hred
    exact ⟨rfl, hc⟩
  · intro hblack
    simp only [color] at hblack
    subst hblack
    exact ⟨by simp [bheight], hc⟩

theorem delInv_del (k : Int) (t : SmTree) (hh : invh t) (hc : invc t) :
    delInv t (del k t) := by
  induction t with
  | nil => exact ⟨trivial, fun h => by simp [color] at h, fun _ => by simp [del, bheight, paint, invc]⟩
  | node c l a va r ihl ihr =>
    simp only [del]
    by_cases h1 : k < a
    · rw [if_pos h1]
      by_cases h2 : l ≠ nil ∧ l.color = .black
      · rw [if_pos h2]
        have := delInv_left c l a va r (del k l) a va hh hc h2.1 (ihl hh.2.1 hc.2.1)
        rw [if_pos h2.2] at this
        exact this
      · rw [if_neg h2]
        by_cases hl : l = nil
        · subst hl
          simp only [del]
          exact delInv_repaint c nil a va r hh hc
        · have hlc : ¬ l.color = .black := fun h => h2 ⟨hl, h⟩
          have := delInv_left c l a va r (del k l) a va hh hc hl (ihl hh.2.1 hc.2.1)
          rw [if_neg hlc] at this
          exact this
    · rw [if_neg h1]
      by_cases h3 : a < k
      · rw [if_pos h3]
        by_cases h2 : r ≠ nil ∧ r.color = .black
        · rw [if_pos h2]
          have := delInv_right c l a va r (del k r) a va hh hc h2.1 (ihr hh.2.2 hc.2.2)
          rw [if_pos h2.2] at this
          exact this
        · rw [if_neg h2]
          by_cases hr : r = nil
          · subst hr
            simp only [del]
            exact delInv_repaint c l a va nil hh hc
          · have hrc : ¬ r.color = .black := fun h => h2 ⟨hr, h⟩
            have := delInv_right c l a va r (del k r) a va hh hc hr (ihr hh.2.2 hc.2.2)
            rw [if_neg hrc] at this
            exact this
      · rw [if_neg h3]
        cases hs : splitMin r with
        | none =>
          exact delInv_leaf c l a va r l hh hc (Or.inr ⟨(splitMin_eq_none r).1 hs, rfl⟩)
        | some p =>
          obtain ⟨x, vx, r'⟩ := p
          have hne : r ≠ nil := by
            intro hnil
            rw [hnil] at hs
            simp [splitMin] at hs
          exact delInv_right c l a va r r' x vx hh hc hne
            (delInv_splitMin r x vx r' hs hh.2.2 hc.2.2)

/-- The red-black properties, with the root left red or black. -/
theorem invariants_ins (k v : Int) (t : SmTree) (hh : invh t) (hc : invc t) :
    invh (paint .black (ins k v t)) ∧ invc (paint .black (ins k v t)) :=
  ⟨invh_paint _ _ (invh_ins k v t hh).1, (invc_ins k v t hc).1⟩

theorem invariants_del (k : Int) (t : SmTree) (hh : invh t) (hc : invc t)
    (hb : t.color = .black) :
    invh (paint .black (del k t)) ∧ invc (paint .black (del k t)) :=
  ⟨invh_paint _ _ (delInv_del k t hh hc).1, ((delInv_del k t hh hc).2.2 hb).2⟩

/-! Keys in symmetric order -/

theorem keys_baliL (l : SmTree) (a va : Int) (r : SmTree) :
    keys (baliL l a va r) = keys l ++ a :: keys r := by
  rcases l with _ | ⟨_ | _, (_ | ⟨_ | _, _, _, _, _⟩), _, _, (_ | ⟨_ | _, _, _, _, _⟩)⟩ <;>
    simp [baliL, keys]

theorem keys_baliR (l : SmTree) (a va : Int) (r : SmTree) :
    keys (baliR l a va r) = keys l ++ a :: keys r := by
  rcases r with _ | ⟨_ | _, (_ | ⟨_ | _, _, _, _, _⟩), _, _, (_ | ⟨_ | _, _, _, _, _⟩)⟩ <;>
    simp [baliR, keys]

theorem keys_baldL (l : SmTree) (a va : Int) (r : SmTree) :
    keys (baldL l a va r) = keys l ++ a :: keys r := by
  rcases l with _ | ⟨_ | _, _, _, _, _⟩ <;>
  rcases r with _ | ⟨_ | _, (_ | ⟨_ | _, _, _, _, _⟩), _, _, _⟩ <;>
    simp [baldL, keys, keys_baliR, keys_paint]

theorem keys_baldR (l : SmTree) (a va : Int) (r : SmTree) :
    keys (baldR l a va r) = keys l ++ a :: keys r := by
  rcases r with _ | ⟨_ | _, _, _, _, _⟩ <;>
  rcases l with _ | ⟨_ | _, _, _, _, (_ | ⟨_ | _, _, _, _, _⟩)⟩ <;>
    simp [baldR, keys, keys_baliL, keys_paint]

theorem keys_splitMin (t : SmTree) :
    ∀ (x vx : Int) (t' : SmTree), splitMin t = some (x, vx, t') → keys t = x :: keys t' := by
  induction t with
  | nil => intro x vx t' h; simp [splitMin] at h
  | node c l a va r ihl _ =>
    intro x vx t' h
    simp only [splitMin] at h
    cases hsl : splitMin l with
    | none =>
      rw [hsl] at h
      simp only [Option.some.injEq, Prod.mk.injEq] at h
      obtain ⟨rfl, _, rfl⟩ := h
      rw [(splitMin_eq_none l).1 hsl]
      simp [keys]
    | some p =>
      obtain ⟨y, vy, l'⟩ := p
      rw [hsl] at h
      simp only [Option.some.injEq, Prod.mk.injEq] at h
      obtain ⟨rfl, _, rfl⟩ := h
      have hk := ihl y vy l' hsl
      split_ifs
      · simp [keys, keys_baldL, hk]
      · simp [keys, hk]

theorem sorted_node (c : Color) (l : SmTree) (a va : Int) (r : SmTree)
    (h : sorted (node c l a va r)) :
    sorted l ∧ sorted r ∧ (∀ x ∈ keys l, x < a) ∧ (∀ y ∈ keys r, a < y) := by
  unfold sorted at h ⊢
  simp only [keys, List.pairwise_append, List.pairwise_cons, List.mem_cons] at h
  obtain ⟨hl, ⟨har, hr⟩, hlr⟩ := h
  exact ⟨hl, hr, fun x hx => hlr x hx a (Or.inl rfl), har⟩

theorem filter_lt_append (k a : Int) (kl kr : List Int) (hka : k < a)
    (hr : ∀ y ∈ kr, a < y) :
    (kl ++ a :: kr).filter (fun x => decide (x < k)) = kl.filter (fun x => decide (x < k)) := by
  have h1 : (a :: kr).filter (fun x => decide (x < k)) = [] := by
    rw [List.filter_eq_nil_iff]
    intro x hx
    rcases List.mem_cons.1 hx with rfl | hx
    · simp; omega
    · have := hr x hx; simp; omega
  rw [List.filter_append, h1, List.append_nil]

theorem filter_gt_append (k a : Int) (kl kr : List Int) (hka : k < a)
    (hr : ∀ y ∈ kr, a < y) :
    (kl ++ a :: kr).filter (fun x => decide (k < x))
      = kl.filter (fun x => decide (k < x)) ++ a :: kr := by
  have h1 : (a :: kr).filter (fun x => decide (k < x)) = a :: kr := by
    rw [List.filter_eq_self]
    intro x hx
    rcases List.mem_cons.1 hx with rfl | hx
    · simp; omega
    · have := hr x hx; simp; omega
  rw [List.filter_append, h1]

theorem filter_lt_append' (k a : Int) (kl kr : List Int) (hak : a < k)
    (hl : ∀ x ∈ kl, x < a) :
    (kl ++ a :: kr).filter (fun x => decide (x < k))
      = kl ++ a :: kr.filter (fun x => decide (x < k)) := by
  have h1 : kl.filter (fun x => decide (x < k)) = kl := by
    rw [List.filter_eq_self]
    intro x hx
    have := hl x hx; simp; omega
  rw [List.filter_append, h1, List.filter_cons_of_pos (by simp; omega)]

theorem filter_gt_append' (k a : Int) (kl kr : List Int) (hak : a < k)
    (hl : ∀ x ∈ kl, x < a) :
    (kl ++ a :: kr).filter (fun x => decide (k < x)) = kr.filter (fun x => decide (k < x)) := by
  have h1 : kl.filter (fun x => decide (k < x)) = [] := by
    rw [List.filter_eq_nil_iff]
    intro x hx
    have := hl x hx; simp; omega
  rw [List.filter_append, h1, List.filter_cons_of_neg (by simp; omega), List.nil_append]

theorem filter_ne_append (k a : Int) (kl kr : List Int) (hka : k < a)
    (hr : ∀ y ∈ kr, a < y) :
    (kl ++ a :: kr).filter (fun x => decide (x ≠ k))
      = kl.filter (fun x => decide (x ≠ k)) ++ a :: kr := by
  have h1 : (a :: kr).filter (fun x => decide (x ≠ k)) = a :: kr := by
    rw [List.filter_eq_self]
    intro x hx
    rcases List.mem_cons.1 hx with rfl | hx
    · simp; omega
    · have := hr x hx; simp; omega
  rw [List.filter_append, h1]

theorem filter_ne_append' (k a : Int) (kl kr : List Int) (hak : a < k)
    (hl : ∀ x ∈ kl, x < a) :
    (kl ++ a :: kr).filter (fun x => decide (x ≠ k))
      = kl ++ a :: kr.filter (fun x => decide (x ≠ k)) := by
  have h1 : kl.filter (fun x => decide (x ≠ k)) = kl := by
    rw [List.filter_eq_self]
    intro x hx
    have := hl x hx; simp; omega
  rw [List.filter_append, h1, List.filter_cons_of_pos (by simp; omega)]

theorem filter_ne_middle (a : Int) (kl kr : List Int)
    (hl : ∀ x ∈ kl, x < a) (hr : ∀ y ∈ kr, a < y) :
    (kl ++ a :: kr).filter (fun x => decide (x ≠ a)) = kl ++ kr := by
  have h1 : kl.filter (fun x => decide (x ≠ a)) = kl := by
    rw [List.filter_eq_self]
    intro x hx
    have := hl x hx; simp; omega
  have h2 : kr.filter (fun x => decide (x ≠ a)) = kr := by
    rw [List.filter_eq_self]
    intro x hx
    have := hr x hx; simp; omega
  rw [List.filter_append, h1, List.filter_cons_of_neg (by simp), h2]

theorem filter_lt_gt_middle (a : Int) (kl kr : List Int)
    (hl : ∀ x ∈ kl, x < a) (hr : ∀ y ∈ kr, a < y) :
    (kl ++ a :: kr).filter (fun x => decide (x < a)) = kl ∧
    (kl ++ a :: kr).filter (fun x => decide (a < x)) = kr := by
  have h1 : kl.filter (fun x => decide (x < a)) = kl := by
    rw [List.filter_eq_self]
    intro x hx
    have := hl x hx; simp; omega
  have h2 : kr.filter (fun x => decide (x < a)) = [] := by
    rw [List.filter_eq_nil_iff]
    intro x hx
    have := hr x hx; simp; omega
  have h3 : kl.filter (fun x => decide (a < x)) = [] := by
    rw [List.filter_eq_nil_iff]
    intro x hx
    have := hl x hx; simp; omega
  have h4 : kr.filter (fun x => decide (a < x)) = kr := by
    rw [List.filter_eq_self]
    intro x hx
    have := hr x hx; simp; omega
  constructor
  · rw [List.filter_append, h1, List.filter_cons_of_neg (by simp), h2, List.append_nil]
  · rw [List.filter_append, h3, List.filter_cons_of_neg (by simp), h4, List.nil_append]

theorem keys_ins (k v : Int) (t : SmTree) (h : sorted t) :
    keys (ins k v t)
      = (keys t).filter (fun x => decide (x < k)) ++ k
        :: (keys t).filter (fun x => decide (k < x)) := by
  induction t with
  | nil => simp [ins, keys]
  | node c l a va r ihl ihr =>
    obtain ⟨hl, hr, hla, hra⟩ := sorted_node c l a va r h
    have key : keys (ins k v (node c l a va r))
        = if k < a then keys (ins k v l) ++ a :: keys r
          else if a < k then keys l ++ a :: keys (ins k v r)
          else keys l ++ k :: keys r := by
      cases c <;> simp only [ins] <;> split_ifs <;> simp [keys, keys_baliL, keys_baliR]
    rw [key]
    simp only [keys]
    by_cases h1 : k < a
    · rw [if_pos h1, ihl hl, filter_lt_append k a _ _ h1 hra, filter_gt_append k a _ _ h1 hra]
      simp
    · rw [if_neg h1]
      by_cases h2 : a < k
      · rw [if_pos h2, ihr hr, filter_lt_append' k a _ _ h2 hla,
          filter_gt_append' k a _ _ h2 hla]
        simp
      · rw [if_neg h2]
        have hka : k = a := by omega
        subst hka
        obtain ⟨e1, e2⟩ := filter_lt_gt_middle k _ _ hla hra
        rw [e1, e2]

theorem keys_del (k : Int) (t : SmTree) (h : sorted t) :
    keys (del k t) = (keys t).filter (fun x => decide (x ≠ k)) := by
  induction t with
  | nil => simp [del, keys]
  | node c l a va r ihl ihr =>
    obtain ⟨hl, hr, hla, hra⟩ := sorted_node c l a va r h
    simp only [del, keys]
    by_cases h1 : k < a
    · rw [if_pos h1, filter_ne_append k a _ _ h1 hra, ← ihl hl]
      split_ifs <;> simp [keys, keys_baldL]
    · rw [if_neg h1]
      by_cases h2 : a < k
      · rw [if_pos h2, filter_ne_append' k a _ _ h2 hla, ← ihr hr]
        split_ifs <;> simp [keys, keys_baldR]
      · rw [if_neg h2]
        have hka : k = a := by omega
        subst hka
        rw [filter_ne_middle k _ _ hla hra]
        cases hs : splitMin r with
        | none =>
          rw [(splitMin_eq_none r).1 hs]
          simp [keys]
        | some p =>
          obtain ⟨x, vx, r'⟩ := p
          have hk := keys_splitMin r x vx r' hs
          simp only []
          split_ifs <;> simp [keys, keys_baldR, hk]

theorem sorted_ins (k v : Int) (t : SmTree) (h : sorted t) : sorted (ins k v t) := by
  unfold sorted at h ⊢
  rw [keys_ins k v t h]
  rw [List.pairwise_append]
  refine ⟨h.filter _, ?_, ?_⟩
  · rw [List.pairwise_cons]
    refine ⟨?_, h.filter _⟩
    intro y hy
    simpa using (List.mem_filter.1 hy).2
  · intro x hx y hy
    have hxk : x < k := by simpa using (List.mem_filter.1 hx).2
    rcases List.mem_cons.1 hy with rfl | hy
    · exact hxk
    · have hky : k < y := by simpa using (List.mem_filter.1 hy).2
      omega

theorem sorted_del (k : Int) (t : SmTree) (h : sorted t) : sorted (del k t) := by
  unfold sorted at h ⊢
  rw [keys_del k t h]
  exact h.filter _

theorem lookup_eq_none_of_not_mem (k : Int) (t : SmTree) (h : k ∉ keys t) :
    lookup t k = none := by
  induction t with
  | nil => rfl
  | node c l a va r ihl ihr =>
    simp only [keys, List.mem_append, List.mem_cons, not_or] at h
    obtain ⟨hl, hka, hr⟩ := h
    simp only [lookup]
    split_ifs with h1 h2
    · exact ihl hl
    · exact ihr hr
    · exact absurd (by omega) hka

theorem mem_keys_of_lookup (k : Int) (t : SmTree) (v : Int) (h : lookup t k = some v) :
    k ∈ keys t := by
  by_contra hn
  rw [lookup_eq_none_of_not_mem k t hn] at h
  cases h

theorem lookup_ne_none_of_mem (k : Int) (t : SmTree) (hs : sorted t) (h : k ∈ keys t) :
    lookup t k ≠ none := by
  induction t with
  | nil => simp [keys] at h
  | node c l a va r ihl ihr =>
    obtain ⟨hl, hr, hla, hra⟩ := sorted_node c l a va r hs
    simp only [keys, List.mem_append, List.mem_cons] at h
    simp only [lookup]
    split_ifs with h1 h2
    · rcases h with h | h | h
      · exact ihl hl h
      · omega
      · have := hra k h; omega
    · rcases h with h | h | h
      · have := hla k h; omega
      · omega
      · exact ihr hr h
    · simp

theorem lookup_isSome_iff (k : Int) (t : SmTree) (hs : sorted t) :
    (lookup t k).isSome = true ↔ k ∈ keys t := by
  constructor
  · intro h
    by_contra hn
    rw [lookup_eq_none_of_not_mem k t hn] at h
    cases h
  · intro h
    have := lookup_ne_none_of_mem k t hs h
    cases hl : lookup t k with
    | none => exact absurd hl this
    | some v => rfl

end SmTree

theorem wellFormed_nil : SmTree.nil.wellFormed :=
  ⟨⟨rfl, trivial, trivial⟩, List.Pairwise.nil⟩

theorem wellFormed_insert (m : SmTree) (k v : Int) (h : m.wellFormed) :
    (sm_insert_ii32 m k v).1.wellFormed := by
  obtain ⟨⟨_, hc, hh⟩, hs⟩ := h
  obtain ⟨k1, k2⟩ := SmTree.invariants_ins k v m hh hc
  refine ⟨⟨SmTree.color_paint_black _, k2, k1⟩, ?_⟩
  unfold SmTree.sorted sm_insert_ii32
  rw [SmTree.keys_paint]
  exact SmTree.sorted_ins k v m hs

theorem wellFormed_delete (m : SmTree) (k : Int) (h : m.wellFormed) :
    (sm_delete_i m k).1.wellFormed := by
  obtain ⟨⟨hb, hc, hh⟩, hs⟩ := h
  obtain ⟨k1, k2⟩ := SmTree.invariants_del k m hh hc hb
  refine ⟨⟨SmTree.color_paint_black _, k2, k1⟩, ?_⟩
  unfold SmTree.sorted sm_delete_i
  rw [SmTree.keys_paint]
  exact SmTree.sorted_del k m hs

theorem wellFormed_smRun (ops : List SmOp) :
    ∀ m : SmTree, m.wellFormed → (smRun m ops).wellFormed := by
  induction ops with
  | nil => intro m h; exact h
  | cons op ops ih =>
    intro m h
    apply ih
    cases op with
    | insert k v => exact wellFormed_insert m k v h
    | delete k => exact wellFormed_delete m k h

theorem lookup_paint (c : Color) (t : SmTree) (k : Int) :
    (t.paint c).lookup k = t.lookup k := by
  cases t <;> rfl

theorem keys_sm_delete_i (m : SmTree) (k : Int) (h : m.wellFormed) :
    (sm_delete_i m k).1.keys = m.keys.filter (fun x => decide (x ≠ k)) := by
  unfold sm_delete_i
  rw [SmTree.keys_paint]
  exact SmTree.keys_del k m h.2

/-- C8 (against the ordered map modelled from the specification): after every
step of an arbitrary interleaving of inserts and deletes, started from the
empty map, the red-black properties hold (root black, no red node with a red
child, equal black height on every path); and deleting a key from such a map
makes the lookup of that key return not-found, reports `removed` exactly for
a key that was present, and keeps every other key. -/
theorem sm_red_black_after_every_step (ops : List SmOp) (k : Int) :
    (∀ n : Nat, redBlack (smRun .nil (ops.take n))) ∧
    redBlack (smRun .nil ops) ∧
    redBlack (sm_delete_i (smRun .nil ops) k).1 ∧
    sm_at_ii32 (sm_delete_i (smRun .nil ops) k).1 k = none ∧
    ((sm_delete_i (smRun .nil ops) k).2 = true ↔ k ∈ (smRun .nil ops).keys) ∧
    (∀ k' : Int, k' ≠ k →
      ((sm_at_ii32 (sm_delete_i (smRun .nil ops) k).1 k').isSome
        = (sm_at_ii32 (smRun .nil ops) k').isSome)) := by
  have hwf : ∀ l : List SmOp, (smRun .nil l).wellFormed :=
    fun l => wellFormed_smRun l _ wellFormed_nil
  have hm := hwf ops
  have hd := wellFormed_delete _ k hm
  have hkeys := keys_sm_delete_i _ k hm
  refine ⟨fun n => (hwf _).1, hm.1, hd.1, ?_, ?_, ?_⟩
  · unfold sm_at_ii32
    apply SmTree.lookup_eq_none_of_not_mem
    rw [hkeys]
    simp
  · unfold sm_delete_i
    exact SmTree.lookup_isSome_iff k _ hm.2
  · intro k' hne
    unfold sm_at_ii32
    rw [Bool.eq_iff_iff, SmTree.lookup_isSome_iff k' _ hd.2, SmTree.lookup_isSome_iff k' _ hm.2,
      hkeys]
    simp [hne]

theorem sm_run_example :
    sm_at_ii32 (smRun .nil [.insert 1 10, .insert 2 20, .insert 3 30, .delete 2]) 2 = none ∧
    sm_at_ii32 (smRun .nil [.insert 1 10, .insert 2 20, .insert 3 30, .delete 2]) 3 = some 30 ∧
    sm_at_ii32 (smRun .nil [.insert 1 10, .insert 2 20, .insert 1 11]) 1 = some 11 ∧
    (sm_insert_ii32 (smRun .nil [.insert 1 10]) 1 11).2 = false ∧
    (sm_delete_i (smRun .nil [.insert 1 10]) 1).2 = true ∧
    sm_size (smRun .nil [.insert 1 10, .insert 2 20, .insert 3 30, .delete 2]) = 2 := by
  decide


/-! ### The case-conversion benchmarks -/

/-- The lower halves agree: on a NUL-free string `cxxtolower` gives what
`cstolower` leaves in the buffer. -/
theorem cxxtolower_eq_cstolower (s : List Nat) (h : ∀ c ∈ s, c ≠ 0) :
    cxxtolower s ++ [0] = cstolower (s ++ [0]) := by
  rw [cstolower_string s h []]
  rfl

/-- On a NUL-free string `cxxtoupper` gives what `cstolower`, not `cstoupper`,
leaves in the buffer. -/
theorem cxxtoupper_eq_cstolower (s : List Nat) (h : ∀ c ∈ s, c ≠ 0) :
    cxxtoupper s ++ [0] = cstolower (s ++ [0]) := by
  rw [cstolower_string s h []]
  rfl

/-- C11 (the code departs from the claim): `cxxtoupper` applies `::tolower`,
so it lowers instead of raising. On the string `"a"` the C converter gives
`"A"` and `cxxtoupper` gives `"a"`; on `"aB"` one lower-then-upper iteration
leaves `"AB"` in `c_string_loweruppercase` and `"ab"` in
`cxx_string_loweruppercase`. The lower halves agree: `cxxtolower` equals
`cstolower` on the same strings. -/
theorem cxxtoupper_lowers :
    cxxtoupper (cstr "a") = cstr "a" ∧
    cstoupper (cstr "a" ++ [0]) = cstr "A" ++ [0] ∧
    cxxtolower (cstr "aB") ++ [0] = cstolower (cstr "aB" ++ [0]) ∧
    cxxtoupper (cstr "aB") = cstr "ab" ∧
    cstoupper (cstr "aB" ++ [0]) = cstr "AB" ++ [0] ∧
    (cxx_string_loweruppercase (cstr "aB") 1 0 false).text = cstr "ab" ∧
    (c_string_loweruppercase (cstr "aB") 1 0 false).text.take 3 = cstr "AB" ++ [0] := by
  refine ⟨by decide, by decide, by decide, by decide, by decide, by decide, by decide⟩


/-! ### The search benchmarks -/

/-- The scan of `strstr` returns the first offset at which the needle occurs:
the needle occurs there and at no smaller offset. -/
theorem strstrFrom_first (n : List Nat) :
    ∀ (h : List Nat) (k r : Nat), strstrFrom n k h = some r →
      ∃ j, r = k + j ∧ occursAt h n j = true ∧ ∀ i, i < j → occursAt h n i = false := by
  intro h
  induction h with
  | nil =>
    intro k r hr
    unfold strstrFrom at hr
    by_cases hp : n.isPrefixOf [] = true
    · rw [if_pos hp] at hr
      refine ⟨0, by injection hr with hr; omega, ?_, fun i hi => by omega⟩
      simpa [occursAt] using hp
    · rw [if_neg hp] at hr
      cases hr
  | cons c cs ih =>
    intro k r hr
    unfold strstrFrom at hr
    by_cases hp : n.isPrefixOf (c :: cs) = true
    · rw [if_pos hp] at hr
      refine ⟨0, by injection hr with hr; omega, ?_, fun i hi => by omega⟩
      simpa [occursAt] using hp
    · rw [if_neg hp] at hr
      obtain ⟨j, hj, hocc, hmin⟩ := ih (k + 1) r hr
      refine ⟨j + 1, by omega, ?_, ?_⟩
      · simpa [occursAt] using hocc
      · intro i hi
        cases i with
        | zero =>
          unfold occursAt
          rw [List.drop_zero]
          exact Bool.eq_false_iff.2 hp
        | succ i =>
          have := hmin i (by omega)
          simpa [occursAt] using this

/-- What `strstr` returns is the offset of the first occurrence. -/
theorem strstr_first (h n : List Nat) (r : Nat) (hr : strstr h n = some r) :
    occursAt h n r = true ∧ ∀ i, i < r → occursAt h n i = false := by
  obtain ⟨j, hj, hocc, hmin⟩ := strstrFrom_first n h 0 r hr
  have : r = j := by omega
  subst this
  exact ⟨hocc, hmin⟩


theorem c_string_search_step_of_found (h n : List Nat) (hf : (strstr h n).isSome = true) :
    c_string_search_step h n = [CCall.strstr h n] := by
  unfold c_string_search_step
  rw [if_pos hf, List.append_nil]

/-- When the needle occurs in the haystack, every call of `c_string_search`
is the search itself: `putchar(0)` is never reached. -/
theorem c_string_search_no_putchar (h n : List Nat) (hf : (strstr h n).isSome = true)
    (count read_ntimes : Nat) (delete_all : Bool) :
    CCall.putchar 0 ∉ (c_string_search h n count read_ntimes delete_all).calls := by
  intro hmem
  unfold c_string_search at hmem
  cases delete_all with
  | true => simp at hmem
  | false =>
    simp only [Bool.false_eq_true, if_false, c_string_search_step_of_found h n hf,
      List.mem_append] at hmem
    rcases hmem with hmem | hmem
    · obtain ⟨i, _, hi⟩ := (mem_forLoop _ _ count).1 hmem
      simp at hi
    · obtain ⟨j, _, hj⟩ := (mem_forLoop _ _ read_ntimes).1 hmem
      obtain ⟨i, _, hi⟩ := (mem_forLoop _ _ count).1 hj
      simp at hi

set_option maxRecDepth 100000 in
/-- Offsets of the first occurrence in the seven fixture pairs written as
ASCII literals. -/
theorem ascii_fixture_offsets :
    strstr haystack_easymatch1_long needle_easymatch1a = some 242 ∧
    strstr haystack_easymatch1_long needle_easymatch1b = some 288 ∧
    strstr haystack_hardmatch1_long needle_hardmatch1a = some 199 ∧
    strstr haystack_hardmatch1_long needle_hardmatch1b = some 206 ∧
    strstr haystack_hardmatch1_short needle_hardmatch1a = some 10 ∧
    strstr haystack_hardmatch1_short needle_hardmatch1b = some 17 ∧
    strstr haystack_hardmatch2_long needle_hardmatch2 = some 168 := by
  refine ⟨by decide, by decide, by decide, by decide, by decide, by decide, by decide⟩

/-- C13: each of the seven fixture pairs written entirely as ASCII literals
is a successful search: the needle occurs in the haystack (`strstr` returns
a non-null pointer, at the offset given), so for every `count`, `read_ntimes`
and `delete_all` the calls of `c_string_search` on the pair contain no
`putchar(0)`. -/
theorem ascii_fixture_pairs_found :
    (strstr haystack_easymatch1_long needle_easymatch1a = some 242 ∧
      ∀ count read_ntimes delete_all, CCall.putchar 0 ∉
        (c_string_search haystack_easymatch1_long needle_easymatch1a
          count read_ntimes delete_all).calls) ∧
    (strstr haystack_easymatch1_long needle_easymatch1b = some 288 ∧
      ∀ count read_ntimes delete_all, CCall.putchar 0 ∉
        (c_string_search haystack_easymatch1_long needle_easymatch1b
          count read_ntimes delete_all).calls) ∧
    (strstr haystack_hardmatch1_long needle_hardmatch1a = some 199 ∧
      ∀ count read_ntimes delete_all, CCall.putchar 0 ∉
        (c_string_search haystack_hardmatch1_long needle_hardmatch1a
          count read_ntimes delete_all).calls) ∧
    (strstr haystack_hardmatch1_long needle_hardmatch1b = some 206 ∧
      ∀ count read_ntimes delete_all, CCall.putchar 0 ∉
        (c_string_search haystack_hardmatch1_long needle_hardmatch1b
          count read_ntimes delete_all).calls) ∧
    (strstr haystack_hardmatch1_short needle_hardmatch1a = some 10 ∧
      ∀ count read_ntimes delete_all, CCall.putchar 0 ∉
        (c_string_search haystack_hardmatch1_short needle_hardmatch1a
          count read_ntimes delete_all).calls) ∧
    (strstr haystack_hardmatch1_short needle_hardmatch1b = some 17 ∧
      ∀ count read_ntimes delete_all, CCall.putchar 0 ∉
        (c_string_search haystack_hardmatch1_short needle_hardmatch1b
          count read_ntimes delete_all).calls) ∧
    (strstr haystack_hardmatch2_long needle_hardmatch2 = some 168 ∧
      ∀ count read_ntimes delete_all, CCall.putchar 0 ∉
        (c_string_search haystack_hardmatch2_long needle_hardmatch2
          count read_ntimes delete_all).calls) := by
  obtain ⟨h1, h2, h3, h4, h5, h6, h7⟩ := ascii_fixture_offsets
  have key : ∀ (h n : List Nat) (k : Nat), strstr h n = some k →
      (strstr h n = some k ∧ ∀ count read_ntimes delete_all, CCall.putchar 0 ∉
        (c_string_search h n count read_ntimes delete_all).calls) := by
    intro h n k hk
    exact ⟨hk, fun count read_ntimes delete_all =>
      c_string_search_no_putchar h n (by rw [hk]; rfl) count read_ntimes delete_all⟩
  exact ⟨key _ _ _ h1, key _ _ _ h2, key _ _ _ h3, key _ _ _ h4, key _ _ _ h5,
    key _ _ _ h6, key _ _ _ h7⟩


theorem forLoop_const {α : Type} (c : α) :
    ∀ n : Nat, forLoop n (fun _ => [c]) = List.replicate n c
  | 0 => rfl
  | n + 1 => by rw [forLoop, forLoop_const c n, List.replicate_succ']

theorem forLoop_replicate {α : Type} (c : α) (m : Nat) :
    ∀ r : Nat, forLoop r (fun _ => List.replicate m c) = List.replicate (r * m) c
  | 0 => by rw [Nat.zero_mul]; rfl
  | r + 1 => by
    rw [forLoop, forLoop_replicate c m r, List.append_replicate_replicate, Nat.succ_mul]

/-- A loop of `count` identical calls followed by `read_ntimes` passes of the
same loop is `count * (read_ntimes + 1)` copies of the call. -/
theorem loops_const {α : Type} (c : α) (count read_ntimes : Nat) :
    (forLoop count fun _ => [c]) ++ (forLoop read_ntimes fun _ => forLoop count fun _ => [c])
      = List.replicate (count * (read_ntimes + 1)) c := by
  have h : (fun _ : Nat => forLoop count fun _ => [c]) = fun _ => List.replicate count c := by
    funext _
    exact forLoop_const c count
  rw [h, forLoop_const, forLoop_replicate, List.append_replicate_replicate]
  congr 1
  ring

theorem filter_forLoop {α : Type} (p : α → Bool) (body : Nat → List α) :
    ∀ n : Nat, (forLoop n body).filter p = forLoop n fun i => (body i).filter p
  | 0 => rfl
  | n + 1 => by rw [forLoop, forLoop, List.filter_append, filter_forLoop p body n]

theorem c_string_search_step_searches (h n : List Nat) :
    (c_string_search_step h n).filter CCall.isSearch = [CCall.strstr h n] := by
  unfold c_string_search_step
  split_ifs <;> simp [CCall.isSearch]

/-- C17: for every haystack, needle, `count` and `read_ntimes`, with
`delete_all` false, `libsrt_string_search` returns true after two read-only
references and exactly `count * (read_ntimes + 1)` searches, every one the
call `ss_find(h, 0, n)` on the same haystack and needle with start offset 0;
`c_string_search` makes the same number of `strstr(haystack, needle)` calls
and `cxx_string_search` the same number of `h.find(needle)` calls. -/
theorem string_search_counts (h n : List Nat) (count read_ntimes : Nat) :
    (libsrt_string_search h n count read_ntimes false).result = true ∧
    (libsrt_string_search h n count read_ntimes false).calls
      = [SsCall.ss_crefa h, SsCall.ss_crefa n]
        ++ List.replicate (count * (read_ntimes + 1)) (SsCall.ss_find h 0 n) ∧
    ((c_string_search h n count read_ntimes false).calls.filter CCall.isSearch)
      = List.replicate (count * (read_ntimes + 1)) (CCall.strstr h n) ∧
    (cxx_string_search h n count read_ntimes false).calls
      = List.replicate (count * (read_ntimes + 1)) (CxxCall.find h n) ∧
    ((libsrt_string_search h n count read_ntimes false).calls.filter
        (fun c => decide (c = SsCall.ss_find h 0 n))).length = count * (read_ntimes + 1) ∧
    ((c_string_search h n count read_ntimes false).calls.filter CCall.isSearch).length
      = count * (read_ntimes + 1) ∧
    (cxx_string_search h n count read_ntimes false).calls.length
      = count * (read_ntimes + 1) := by
  have e1 : (libsrt_string_search h n count read_ntimes false).calls
      = [SsCall.ss_crefa h, SsCall.ss_crefa n]
        ++ List.replicate (count * (read_ntimes + 1)) (SsCall.ss_find h 0 n) := by
    unfold libsrt_string_search
    simp only [Bool.false_eq_true, if_false]
    rw [List.append_assoc, loops_const]
  have e2 : ((c_string_search h n count read_ntimes false).calls.filter CCall.isSearch)
      = List.replicate (count * (read_ntimes + 1)) (CCall.strstr h n) := by
    unfold c_string_search
    simp only [Bool.false_eq_true, if_false]
    rw [List.filter_append, filter_forLoop, filter_forLoop]
    have hin : (fun _ : Nat => (forLoop count fun _ => c_string_search_step h n).filter
        CCall.isSearch) = fun _ => forLoop count fun _ => [CCall.strstr h n] := by
      funext _
      rw [filter_forLoop]
      simp only [c_string_search_step_searches]
    simp only [c_string_search_step_searches]
    rw [hin, loops_const]
  have e3 : (cxx_string_search h n count read_ntimes false).calls
      = List.replicate (count * (read_ntimes + 1)) (CxxCall.find h n) := by
    unfold cxx_string_search
    simp only [Bool.false_eq_true, if_false]
    rw [loops_const]
  refine ⟨rfl, e1, e2, e3, ?_, ?_, ?_⟩
  · rw [e1, List.filter_append, List.filter_replicate_of_pos (by simp)]
    simp
  · rw [e2, List.length_replicate]
  · rw [e3, List.length_replicate]


/-! ### Result flags and the rows of `main` -/

theorem container_result (f : ContainerBench) (count read_ntimes : Nat) (delete_all : Bool) :
    f.result count read_ntimes delete_all = true := by
  cases f <;> rfl

theorem string_run_delete_all (u : Utf8Examples) (f : StringBench) (count read_ntimes : Nat) :
    f.run u count read_ntimes true = (false, 0) := by
  cases f <;> rfl

theorem string_run_no_delete (u : Utf8Examples) (f : StringBench) (count read_ntimes : Nat) :
    (f.run u count read_ntimes false).1 = true := by
  cases f <;> rfl

set_option maxRecDepth 100000 in
/-- C16: every map, set and vector benchmark returns true for all inputs;
every string search and case-conversion benchmark (the `libsrt_`, `c_` and
`cxx_` variants) returns false exactly when `delete_all` is true, and then
issues no call at all; in `main` only the third test has `delete_all` true,
and `BENCH_FN` prints in it the rows of the 30 map, set and vector benchmarks
and no row of a string benchmark, while the first two tests print all 66
rows. -/
theorem result_flags (u : Utf8Examples) :
    (∀ (f : ContainerBench) (count read_ntimes : Nat) (delete_all : Bool),
      f.result count read_ntimes delete_all = true) ∧
    (∀ (f : StringBench) (count read_ntimes : Nat) (delete_all : Bool),
      ((f.run u count read_ntimes delete_all).1 = false ↔ delete_all = true)) ∧
    (∀ (f : StringBench) (count read_ntimes : Nat),
      (f.run u count read_ntimes true).2 = 0) ∧
    (∀ (h n : List Nat) (count read_ntimes : Nat),
      (libsrt_string_search h n count read_ntimes true).calls = [] ∧
      (c_string_search h n count read_ntimes true).calls = [] ∧
      (cxx_string_search h n count read_ntimes true).calls = [] ∧
      (libsrt_string_loweruppercase h count read_ntimes true).calls = [] ∧
      (c_string_loweruppercase h count read_ntimes true).calls = [] ∧
      (cxx_string_loweruppercase h count read_ntimes true).calls = []) ∧
    main_delete_all = [false, false, true] ∧
    (main_test 0).2.2 = false ∧ (main_test 1).2.2 = false ∧ (main_test 2).2.2 = true ∧
    main_rows u 2
      = (main_benchmarks.filter fun f => !f.isString).map (fun f => (f, 1000000, 0)) ∧
    ((main_rows u 2).filter fun row => row.1.isString) = [] ∧
    (main_rows u 2).length = 30 ∧
    (main_rows u 0).length = 66 ∧
    (main_rows u 1).length = 66 := by
  refine ⟨container_result, ?_, fun f count read_ntimes => ?_, fun h n count read_ntimes => ?_,
    rfl, rfl, rfl, rfl, rfl, rfl, rfl, rfl, rfl⟩
  · intro f count read_ntimes delete_all
    cases delete_all with
    | true => rw [string_run_delete_all]; simp
    | false => rw [string_run_no_delete]; simp
  · rw [string_run_delete_all]
  · exact ⟨rfl, rfl, rfl, rfl, rfl, rfl⟩


/-! ### The timing macros -/

theorem tdiv_thousand_of_nonneg (d : Int) (h : 0 ≤ d) : Int.tdiv d 1000 = d / 1000 :=
  Int.tdiv_eq_ediv h (by norm_num)

theorem tdiv_thousand_of_neg (d : Int) (h : d < 0) : Int.tdiv d 1000 = -((-d) / 1000) := by
  have h1 : Int.tdiv (-d) 1000 = (-d) / 1000 := Int.tdiv_eq_ediv (by omega) (by norm_num)
  rw [← h1, Int.neg_tdiv, neg_neg]

theorem toInt64_of_range (x : Int) (h0 : -9223372036854775808 ≤ x)
    (h1 : x < 9223372036854775808) : toInt64 x = x := by
  unfold toInt64
  omega

/-- Without overflow `BENCH_TIME_US` is the value of its expression over the
integers: this holds when `tb` is not earlier than `ta`, the nanosecond fields
are in range and at most 9223372036853 seconds lie between the readings. -/
theorem bench_time_us_exact (ta tb : timespec)
    (ha : 0 ≤ ta.tv_nsec ∧ ta.tv_nsec < 1000000000)
    (hb : 0 ≤ tb.tv_nsec ∧ tb.tv_nsec < 1000000000)
    (hab : notEarlier ta tb) (hs : tb.tv_sec - ta.tv_sec ≤ 9223372036853) :
    BENCH_TIME_US ta tb
      = (tb.tv_sec - ta.tv_sec) * 1000000 + Int.tdiv (tb.tv_nsec - ta.tv_nsec) 1000 := by
  unfold notEarlier at hab
  have hsec : 0 ≤ tb.tv_sec - ta.tv_sec := by omega
  have hdiv : -1000000 < Int.tdiv (tb.tv_nsec - ta.tv_nsec) 1000 ∧
      Int.tdiv (tb.tv_nsec - ta.tv_nsec) 1000 < 1000000 := by
    by_cases hd : 0 ≤ tb.tv_nsec - ta.tv_nsec
    · rw [tdiv_thousand_of_nonneg _ hd]
      omega
    · rw [tdiv_thousand_of_neg _ (by omega)]
      omega
  unfold BENCH_TIME_US
  rw [toInt64_of_range (tb.tv_sec - ta.tv_sec) (by omega) (by omega),
    toInt64_of_range ((tb.tv_sec - ta.tv_sec) * 1000000) (by omega) (by omega),
    toInt64_of_range (tb.tv_nsec - ta.tv_nsec) (by omega) (by omega),
    toInt64_of_range _ (by omega) (by omega)]

/-- C14 as stated fails when the 64-bit product overflows. The readings
`ta = {0, 0}` and `tb = {9223372036855, 0}` have nanosecond fields in range
and `tb` is not earlier than `ta`, yet `BENCH_TIME_US` is
`-9223372036854551616`: negative, and far from the elapsed time. One second
less is still too much when the nanoseconds add up: from `{0, 0}` to
`{9223372036854, 999999000}` the result is `-9223372036854551617`. -/
theorem bench_time_us_overflow :
    notEarlier ⟨0, 0⟩ ⟨9223372036855, 0⟩ ∧
    BENCH_TIME_US ⟨0, 0⟩ ⟨9223372036855, 0⟩ = -9223372036854551616 ∧
    ¬ (0 ≤ BENCH_TIME_US ⟨0, 0⟩ ⟨9223372036855, 0⟩) ∧
    elapsed_ns ⟨0, 0⟩ ⟨9223372036855, 0⟩ = 9223372036855000000000 ∧
    ¬ (|1000 * BENCH_TIME_US ⟨0, 0⟩ ⟨9223372036855, 0⟩
        - elapsed_ns ⟨0, 0⟩ ⟨9223372036855, 0⟩| < 1000) ∧
    notEarlier ⟨0, 0⟩ ⟨9223372036854, 999999000⟩ ∧
    BENCH_TIME_US ⟨0, 0⟩ ⟨9223372036854, 999999000⟩ = -9223372036854551617 := by
  have h1 : BENCH_TIME_US ⟨0, 0⟩ ⟨9223372036855, 0⟩ = -9223372036854551616 := by decide
  have h2 : elapsed_ns ⟨0, 0⟩ ⟨9223372036855, 0⟩ = 9223372036855000000000 := by decide
  refine ⟨Or.inl (by decide), h1, ?_, h2, ?_, Or.inl (by decide), by decide⟩
  · rw [h1]
    decide
  · rw [h1, h2, abs_lt]
    intro h
    omega

/-- C14, amended to the readings without overflow: for all readings `ta`, `tb`
with `0 ≤ tv_nsec < 10^9`, `tb` not earlier than `ta` and at most
9223372036853 seconds between them (so that no 64-bit operation overflows),
with `E` the true elapsed nanoseconds: `BENCH_TIME_US` is non-negative,
`1000 * BENCH_TIME_US` differs from `E` by less than 1000 (less than one
microsecond), and `BENCH_TIME_US` is `floor(E / 1000)` whenever
`tb.tv_nsec ≥ ta.tv_nsec`. -/
theorem bench_time_us_accuracy (ta tb : timespec)
    (ha : 0 ≤ ta.tv_nsec ∧ ta.tv_nsec < 1000000000)
    (hb : 0 ≤ tb.tv_nsec ∧ tb.tv_nsec < 1000000000)
    (hab : notEarlier ta tb) (hs : tb.tv_sec - ta.tv_sec ≤ 9223372036853) :
    0 ≤ BENCH_TIME_US ta tb ∧
    |1000 * BENCH_TIME_US ta tb - elapsed_ns ta tb| < 1000 ∧
    (ta.tv_nsec ≤ tb.tv_nsec → BENCH_TIME_US ta tb = elapsed_ns ta tb / 1000) := by
  rw [bench_time_us_exact ta tb ha hb hab hs]
  unfold elapsed_ns
  unfold notEarlier at hab
  by_cases hd : 0 ≤ tb.tv_nsec - ta.tv_nsec
  · rw [tdiv_thousand_of_nonneg _ hd]
    refine ⟨by omega, abs_lt.2 ⟨by omega, by omega⟩, fun _ => by omega⟩
  · rw [tdiv_thousand_of_neg _ (by omega)]
    refine ⟨by omega, abs_lt.2 ⟨by omega, by omega⟩, fun h => by omega⟩

/-- Witness of C14 (amended): from 5 s 999999999 ns to 7 s 1 ns the true time
is 1000000002 ns; `BENCH_TIME_US` is 1000001, one microsecond above the floor
1000000. -/
theorem bench_time_us_accuracy_witness :
    0 ≤ BENCH_TIME_US ⟨5, 999999999⟩ ⟨7, 1⟩ ∧
    |1000 * BENCH_TIME_US ⟨5, 999999999⟩ ⟨7, 1⟩ - elapsed_ns ⟨5, 999999999⟩ ⟨7, 1⟩| < 1000 ∧
    BENCH_TIME_US ⟨5, 999999999⟩ ⟨7, 1⟩ = 1000001 ∧
    elapsed_ns ⟨5, 999999999⟩ ⟨7, 1⟩ = 1000000002 :=
  have h := bench_time_us_accuracy ⟨5, 999999999⟩ ⟨7, 1⟩ (by decide) (by decide)
    (Or.inl (by decide)) (by decide)
  ⟨h.1, h.2.1, by decide, by decide⟩

theorem decValue_printf_u (n : Nat) : decValue (printf_u n) = n :=
  decDigitsAux_value (n + 1) n (by omega)

theorem allDigits_printf_u (n : Nat) : allDigits (printf_u n) := by
  intro b hb
  unfold printf_u at hb
  rw [List.mem_map] at hb
  obtain ⟨d, hd, rfl⟩ := hb
  have := decDigitsAux_lt_ten (n + 1) n d hd
  omega

theorem printf_06u_spec (n : Nat) (h : n < 1000000) :
    (printf_06u n).length = 6 ∧ allDigits (printf_06u n) ∧ decValue (printf_06u n) = n := by
  have hlen : ((decDigits n).map (48 + ·)).length ≤ 6 := by
    rw [List.length_map]
    exact decDigitsAux_length (n + 1) n 5 (by omega)
  refine ⟨?_, allDigits_zeroPad 6 _ (allDigits_printf_u n), ?_⟩
  · unfold printf_06u zeroPad
    rw [List.length_append, List.length_replicate]
    omega
  · unfold printf_06u zeroPad
    rw [decValue_replicate_zero]
    exact decValue_printf_u n

theorem bench_time_us_parts (us : Int) (h0 : 0 ≤ us) (h1 : us < 4294967296000000) :
    (BENCH_TIME_US_I us : Int) = us / 1000000 ∧ (BENCH_TIME_US_D us : Int) = us % 1000000 := by
  unfold BENCH_TIME_US_I BENCH_TIME_US_D toUnsigned
  rw [Int.tdiv_eq_ediv h0 (by norm_num), Int.tmod_eq_emod h0 (by norm_num)]
  constructor
  · rw [Int.toNat_of_nonneg (Int.emod_nonneg _ (by norm_num))]
    omega
  · rw [Int.toNat_of_nonneg (Int.emod_nonneg _ (by norm_num))]
    omega

/-- C15: seconds/fraction split of the printed time. For every value `US` of
`BENCH_TIME_US` with `0 ≤ US < 2^32 * 10^6`:
`BENCH_TIME_US_I * 1000000 + BENCH_TIME_US_D = US` and
`BENCH_TIME_US_D < 1000000`; the text printed with `"%u.%06u"` is the digits
of `US / 10^6`, a point, and exactly six digits denoting `US mod 10^6`: the
decimal expansion of `US / 10^6` seconds with six fractional digits. -/
theorem bench_time_text_exact (us : Int) (h0 : 0 ≤ us) (h1 : us < 2 ^ 32 * 10 ^ 6) :
    (BENCH_TIME_US_I us : Int) * 1000000 + (BENCH_TIME_US_D us : Int) = us ∧
    BENCH_TIME_US_D us < 1000000 ∧
    (BENCH_TIME_US_I us : Int) = us / 1000000 ∧
    (BENCH_TIME_US_D us : Int) = us % 1000000 ∧
    bench_time_text us
      = printf_u (BENCH_TIME_US_I us) ++ [46] ++ printf_06u (BENCH_TIME_US_D us) ∧
    allDigits (printf_u (BENCH_TIME_US_I us)) ∧
    decValue (printf_u (BENCH_TIME_US_I us)) = BENCH_TIME_US_I us ∧
    (printf_06u (BENCH_TIME_US_D us)).length = 6 ∧
    allDigits (printf_06u (BENCH_TIME_US_D us)) ∧
    decValue (printf_06u (BENCH_TIME_US_D us)) = BENCH_TIME_US_D us := by
  have h1' : us < 4294967296000000 := by norm_num at h1; exact h1
  obtain ⟨hi, hd⟩ := bench_time_us_parts us h0 h1'
  have hdlt : BENCH_TIME_US_D us < 1000000 := by omega
  obtain ⟨k1, k2, k3⟩ := printf_06u_spec (BENCH_TIME_US_D us) hdlt
  exact ⟨by omega, hdlt, hi, hd, rfl, allDigits_printf_u _, decValue_printf_u _, k1, k2, k3⟩

/-- Witness of C15: 1234567 microseconds are printed as `1.234567`, and
5000042 as `5.000042`. -/
theorem bench_time_text_exact_witness :
    bench_time_text 1234567 = cstr "1.234567" ∧
    bench_time_text 5000042 = cstr "5.000042" ∧
    (BENCH_TIME_US_I 5000042 : Int) * 1000000 + (BENCH_TIME_US_D 5000042 : Int) = 5000042 ∧
    BENCH_TIME_US_D 5000042 < 1000000 :=
  have h := bench_time_text_exact 5000042 (by decide) (by norm_num)
  ⟨by decide, by decide, h.1, h.2.1⟩


/-! ### The workload of `libsrt_map_ii32` and the counts of its row -/

theorem length_forLoop {α : Type} (body : Nat → List α) (m : Nat)
    (h : ∀ i, (body i).length = m) : ∀ n : Nat, (forLoop n body).length = n * m
  | 0 => by rw [Nat.zero_mul]; rfl
  | n + 1 => by
    rw [forLoop, List.length_append, length_forLoop body m h n, h n, Nat.succ_mul]

theorem forLoop_congr {α : Type} (f g : Nat → List α) :
    ∀ n : Nat, (∀ i, i < n → f i = g i) → forLoop n f = forLoop n g
  | 0, _ => rfl
  | n + 1, h => by
    rw [forLoop, forLoop, forLoop_congr f g n (fun i hi => h i (by omega)), h n (by omega)]

/-- The number of lookups `libsrt_map_ii32` performs, for all arguments. -/
theorem libsrt_map_ii32_lookup_count (count read_ntimes : Nat) (delete_all : Bool) :
    ((libsrt_map_ii32 count read_ntimes delete_all).filter SmCall.isLookup).length
      = read_ntimes * count := by
  have h1 : ∀ n : Nat, (forLoop n fun i =>
      [SmCall.sm_insert_ii32 (toInt32 (i : Int)) (toInt32 (i : Int))]).filter SmCall.isLookup
        = [] := by
    intro n
    rw [filter_forLoop]
    exact forLoop_nil n
  have h2 : ∀ n : Nat, (forLoop n fun i =>
      [SmCall.sm_delete_i (toInt32 (i : Int))]).filter SmCall.isLookup = [] := by
    intro n
    rw [filter_forLoop]
    exact forLoop_nil n
  have h3 : ∀ n : Nat, (forLoop n fun i =>
      [SmCall.sm_at_ii32 (toInt32 (i : Int))]).filter SmCall.isLookup
        = forLoop n fun i => [SmCall.sm_at_ii32 (toInt32 (i : Int))] := by
    intro n
    rw [filter_forLoop]
    rfl
  have h4 : (forLoop read_ntimes fun _ => forLoop count fun i =>
      [SmCall.sm_at_ii32 (toInt32 (i : Int))]).filter SmCall.isLookup
        = forLoop read_ntimes fun _ => forLoop count fun i =>
          [SmCall.sm_at_ii32 (toInt32 (i : Int))] := by
    rw [filter_forLoop]
    exact forLoop_congr _ _ _ (fun _ _ => h3 count)
  have h5 : (if delete_all = true then forLoop count fun i =>
      [SmCall.sm_delete_i (toInt32 (i : Int))] else []).filter SmCall.isLookup = [] := by
    cases delete_all with
    | true => rw [if_pos rfl]; exact h2 count
    | false => rfl
  unfold libsrt_map_ii32
  rw [List.filter_append, List.filter_append, List.filter_append, List.filter_append,
    h1, h4, h5]
  have hlen := length_forLoop (fun _ : Nat => forLoop count fun i =>
      [SmCall.sm_at_ii32 (toInt32 (i : Int))]) count
    (fun _ => by
      rw [length_forLoop (fun i : Nat => [SmCall.sm_at_ii32 (toInt32 (i : Int))]) 1
        (fun _ => rfl) count, Nat.mul_one]) read_ntimes
  simp only [SmCall.isLookup, List.filter_cons_of_neg, List.filter_nil, List.nil_append,
    List.append_nil, Bool.false_eq_true, not_false_eq_true]
  exact hlen


theorem toInt32_two_pow_31 : toInt32 ((2147483648 : Nat) : Int) = -2147483648 := by
  decide

/-- C12 as stated fails for large arguments. With `count = read_ntimes = 2^32`
the insert of iteration `i = 2^31` has the key `(int32_t)i = -2147483648`, so
the keys inserted are not `0, 1, ..., count - 1`: the calls are not the
allocation, the ascending inserts, the lookup passes and the release. And the
function performs `2^64` lookups while the `Read count` column of its row,
the `size_t` product `count * nread`, is 0. -/
theorem libsrt_map_ii32_large_arguments :
    SmCall.sm_insert_ii32 (-2147483648) (-2147483648)
      ∈ libsrt_map_ii32 4294967296 4294967296 false ∧
    libsrt_map_ii32 4294967296 4294967296 false
      ≠ [SmCall.sm_alloc .SM_II32 0] ++ ascendingInserts 4294967296
        ++ lookupPasses 4294967296 4294967296 ++ ascendingDeletes 4294967296 false
        ++ [SmCall.sm_free] ∧
    ((libsrt_map_ii32 4294967296 4294967296 false).filter SmCall.isLookup).length
      = 18446744073709551616 ∧
    (∀ u : Utf8Examples,
      BENCH_FN u (.container .libsrt_map_ii32) 4294967296 4294967296 false
        = some (.container .libsrt_map_ii32, 4294967296, 0)) := by
  have hmem : SmCall.sm_insert_ii32 (-2147483648) (-2147483648)
      ∈ libsrt_map_ii32 4294967296 4294967296 false := by
    unfold libsrt_map_ii32
    simp only [List.mem_append]
    refine Or.inl (Or.inl (Or.inl (Or.inr ((mem_forLoop _ _ _).2
      ⟨2147483648, by norm_num, ?_⟩))))
    rw [toInt32_two_pow_31]
    exact List.mem_singleton.2 rfl
  refine ⟨hmem, ?_, ?_, fun u => ?_⟩
  · intro heq
    rw [heq] at hmem
    simp only [List.mem_append, List.mem_singleton, ascendingInserts, lookupPasses,
      ascendingDeletes, List.mem_map, List.mem_range, Bool.false_eq_true, if_false,
      List.not_mem_nil, or_false, reduceCtorEq, false_or] at hmem
    rcases hmem with ⟨i, _, hi⟩ | hlook
    · have hk : ((i : Nat) : Int) = -2147483648 := by
        injection hi
      omega
    · obtain ⟨j, _, hj⟩ := (mem_forLoop _ _ _).1 hlook
      simp at hj
  · rw [libsrt_map_ii32_lookup_count]
  · rfl

/-- C12, amended to the arguments it holds for: for every `count ≤ 2^31`,
every `read_ntimes` with `count * read_ntimes < 2^64` and every `delete_all`,
`libsrt_map_ii32` performs, in this order: the allocation, exactly `count`
inserts with the keys `0, 1, ..., count - 1` ascending (value equal to key),
then exactly `count * read_ntimes` lookups (`read_ntimes` passes over the keys
`0 .. count - 1`), then exactly `count` deletes if `delete_all` is true and
none otherwise, then one release; and `count` and `count * read_ntimes` are
the `Insert count` and `Read count` that `BENCH_FN` prints in its row. -/
theorem libsrt_map_ii32_workload (u : Utf8Examples) (count read_ntimes : Nat)
    (delete_all : Bool) (hc : count ≤ 2 ^ 31) (hr : count * read_ntimes < 2 ^ 64) :
    libsrt_map_ii32 count read_ntimes delete_all
      = [SmCall.sm_alloc .SM_II32 0] ++ ascendingInserts count
        ++ lookupPasses count read_ntimes ++ ascendingDeletes count delete_all
        ++ [SmCall.sm_free] ∧
    (ascendingInserts count).length = count ∧
    (lookupPasses count read_ntimes).length = count * read_ntimes ∧
    ((libsrt_map_ii32 count read_ntimes delete_all).filter SmCall.isLookup).length
      = count * read_ntimes ∧
    (ascendingDeletes count delete_all).length = (if delete_all then count else 0) ∧
    BENCH_FN u (.container .libsrt_map_ii32) count read_ntimes delete_all
      = some (.container .libsrt_map_ii32, count, count * read_ntimes) := by
  have hc31 : count ≤ 2147483648 := by norm_num at hc; exact hc
  have hr64 : count * read_ntimes < 18446744073709551616 := by norm_num at hr; exact hr
  have hcast : ∀ i, i < count → toInt32 (i : Int) = (i : Int) :=
    fun i hi => toInt32_of_lt i (by omega)
  have e1 : (forLoop count fun i =>
      [SmCall.sm_insert_ii32 (toInt32 (i : Int)) (toInt32 (i : Int))])
        = ascendingInserts count := by
    unfold ascendingInserts
    rw [← forLoop_singleton]
    exact forLoop_congr _ _ count (fun i hi => by rw [hcast i hi])
  have e2in : (forLoop count fun i => [SmCall.sm_at_ii32 (toInt32 (i : Int))])
      = (List.range count).map fun (i : Nat) => SmCall.sm_at_ii32 (i : Int) := by
    rw [← forLoop_singleton]
    exact forLoop_congr _ _ count (fun i hi => by rw [hcast i hi])
  have e2 : (forLoop read_ntimes fun _ => forLoop count fun i =>
      [SmCall.sm_at_ii32 (toInt32 (i : Int))]) = lookupPasses count read_ntimes := by
    unfold lookupPasses
    exact forLoop_congr _ _ read_ntimes (fun _ _ => e2in)
  have e3 : (if delete_all = true then forLoop count fun i =>
      [SmCall.sm_delete_i (toInt32 (i : Int))] else []) = ascendingDeletes count delete_all := by
    unfold ascendingDeletes
    cases delete_all with
    | false => rfl
    | true =>
      rw [if_pos rfl, if_pos rfl, ← forLoop_singleton]
      exact forLoop_congr _ _ count (fun i hi => by rw [hcast i hi])
  refine ⟨?_, ?_, ?_, ?_, ?_, ?_⟩
  · unfold libsrt_map_ii32
    rw [e1, e2, e3]
  · unfold ascendingInserts
    rw [List.length_map, List.length_range]
  · unfold lookupPasses
    rw [length_forLoop _ count (fun _ => by rw [List.length_map, List.length_range]),
      Nat.mul_comm]
  · rw [libsrt_map_ii32_lookup_count, Nat.mul_comm]
  · unfold ascendingDeletes
    cases delete_all with
    | false => rfl
    | true => rw [if_pos rfl, if_pos rfl, List.length_map, List.length_range]
  · unfold BENCH_FN
    have hres : BenchFn.result u (.container .libsrt_map_ii32) count read_ntimes delete_all
        = true := rfl
    rw [hres, if_pos rfl, Nat.mod_eq_of_lt (by omega), Nat.mod_eq_of_lt (by omega)]

/-- Witness of C12 (amended) at `count = 3`, `read_ntimes = 2`, `delete_all`
true: three inserts, six lookups, three deletes, one release. -/
theorem libsrt_map_ii32_workload_witness :
    libsrt_map_ii32 3 2 true
      = [SmCall.sm_alloc .SM_II32 0,
         SmCall.sm_insert_ii32 0 0, SmCall.sm_insert_ii32 1 1, SmCall.sm_insert_ii32 2 2,
         SmCall.sm_at_ii32 0, SmCall.sm_at_ii32 1, SmCall.sm_at_ii32 2,
         SmCall.sm_at_ii32 0, SmCall.sm_at_ii32 1, SmCall.sm_at_ii32 2,
         SmCall.sm_delete_i 0, SmCall.sm_delete_i 1, SmCall.sm_delete_i 2,
         SmCall.sm_free] ∧
    (ascendingInserts 3).length = 3 ∧
    (lookupPasses 3 2).length = 3 * 2 ∧
    BENCH_FN ⟨[], [], [], []⟩ (.container .libsrt_map_ii32) 3 2 true
      = some (.container .libsrt_map_ii32, 3, 3 * 2) :=
  have h := libsrt_map_ii32_workload ⟨[], [], [], []⟩ 3 2 true (by norm_num) (by norm_num)
  ⟨by decide, h.2.1, h.2.2.1, h.2.2.2.2.2⟩


end Bench
